import Mathlib

/-!
# MediaProcessors utilities: the shared-memory FIFO

A shallow embedding of `src/libs/mputils/mp_shm_fifo.c` for an LP64 target
(`size_t`/`ssize_t` 64 bits, `int` 32 bits, little-endian), followed by theorems about it.

* Machine integers are `Nat`/`Int` with the C conversions written out (`to_size_t`,
  `to_ssize_t`, `to_int`).
* The pool is a byte memory `Nat → Nat` of `shm_pool_size` bytes. An access outside the pool
  (or outside a caller's buffer) is undefined behaviour in C and is the outcome `fault` here.
* A wait on a condition variable releases the mutex: the call resumes on whatever its peers
  left in the segment. The platform hands each call the list of its wake-ups; a call that
  still has to wait when the list is used up has not returned (`blocked`).
-/

/-! ## Status codes (`mp_statcodes.h`) -/

abbrev MP_SUCCESS : Int := 0
abbrev MP_ERROR : Int := 1
abbrev MP_NOTMODIFIED : Int := 2
abbrev MP_ENOTFOUND : Int := 3
abbrev MP_EAGAIN : Int := 4
abbrev MP_EOF : Int := 5
abbrev MP_ENOMEM : Int := 6
abbrev MP_EINVAL : Int := 7
abbrev MP_ECONFLICT : Int := 8
abbrev MP_ETIMEDOUT : Int := 9
abbrev MP_EINTR : Int := 10

/-! ## Platform constants and integer conversions -/

/-- Flag bit: the FIFO is non-blocking (`mp_shm_fifo.h`). -/
abbrev SHM_FIFO_O_NONBLOCK : Nat := 1
/-- Flag bit: exhaustive circular buffer checking (`mp_shm_fifo.h`). -/
abbrev SHM_FIFO_EXHAUST_CTRL : Nat := 2
/-- The errno value `ETIMEDOUT` of the target (Linux). -/
abbrev ETIMEDOUT : Int := 110
/-- The limit `NAME_MAX` of the target (Linux). -/
abbrev NAME_MAX : Nat := 255
/-- The value of `sizeof(shm_fifo_elem_ctx_t)`: one `ssize_t`, the flexible array adds nothing. -/
def sizeof_shm_fifo_elem_ctx_t : Nat := 8

/-- Conversion to `size_t` (unsigned 64 bits). -/
def to_size_t (x : Int) : Nat := (x % 18446744073709551616).toNat

/-- Conversion to `ssize_t` (signed 64 bits, two's complement). -/
def to_ssize_t (x : Int) : Int :=
  if x % 18446744073709551616 < 9223372036854775808 then x % 18446744073709551616
  else x % 18446744073709551616 - 18446744073709551616

/-- Conversion to `int` (signed 32 bits, two's complement). -/
def to_int (x : Int) : Int :=
  if x % 4294967296 < 2147483648 then x % 4294967296 else x % 4294967296 - 4294967296

/-- Sum of two `size_t` values. -/
def size_add (a b : Nat) : Nat := (a + b) % 18446744073709551616

/-- Difference of two `size_t` values. -/
def size_sub (a b : Nat) : Nat := to_size_t ((a : Int) - (b : Int))

/-- The eight bytes of a `size_t`/`ssize_t` object holding the bit pattern `x` (little-endian). -/
def size_bytes (x : Nat) : List Nat := (List.range 8).map (fun i => x / 256 ^ i % 256)

/-- The `ssize_t` value held by eight bytes. -/
def size_value (bs : List Nat) : Int := to_ssize_t ((bs.foldr (fun b acc => b + 256 * acc) 0 : Nat) : Int)

/-! ## The FIFO context (`mp_shm_fifo_ctx_t`) -/

/-- The shared segment: the header fields of `mp_shm_fifo_ctx_t` and the pool `buf`. The mutex and
the condition variables are represented by their `initialized` flags only. -/
structure mp_shm_fifo_ctx_t where
  shm_fifo_name : List Nat
  flags : Nat
  flag_exit : Int
  shm_pool_size : Nat
  flag_api_mutex_initialized : Int
  flag_buf_put_signal_initialized : Int
  flag_buf_get_signal_initialized : Int
  slots_used_cnt : Int
  buf_level : Int
  input_byte_idx : Int
  output_byte_idx : Int
  buf : Nat → Nat

/-- One return of `pthread_cond_wait`/`pthread_cond_timedwait`: its return code and the contents
of the segment when the mutex is held again. -/
structure cond_wake where
  ret_code : Int
  shm : mp_shm_fifo_ctx_t

/-- What a call gets from its platform: whether `malloc(n)` succeeds, the reading of
`clock_gettime(CLOCK_MONOTONIC)` (`none`: failure), and its wake-ups. -/
structure platform where
  malloc : Nat → Bool
  clock_gettime : Option (Int × Int)
  wakes : List cond_wake

/-- How a call ends. -/
inductive outcome (α : Type) where
  | ret : α → outcome α
  | blocked : outcome α
  | fault : outcome α

/-- The flags test `flags & SHM_FIFO_O_NONBLOCK`. -/
def nonblock (s : mp_shm_fifo_ctx_t) : Prop := s.flags &&& SHM_FIFO_O_NONBLOCK ≠ 0

instance (s : mp_shm_fifo_ctx_t) : Decidable (nonblock s) := by unfold nonblock; infer_instance

/-- The flags test `flags & SHM_FIFO_EXHAUST_CTRL`. -/
def exhaust_ctrl (s : mp_shm_fifo_ctx_t) : Prop := s.flags &&& SHM_FIFO_EXHAUST_CTRL ≠ 0

instance (s : mp_shm_fifo_ctx_t) : Decidable (exhaust_ctrl s) := by unfold exhaust_ctrl; infer_instance

/-! ## Pool accesses -/

/-- Bulk read of `n` bytes at byte offset `off` of the pool (`none`: outside the pool). -/
def pool_load (buf : Nat → Nat) (shm_pool_size : Nat) (off : Int) (n : Nat) : Option (List Nat) :=
  if 0 ≤ off ∧ off + n ≤ shm_pool_size then some ((List.range n).map (fun i => buf (off.toNat + i)))
  else none

/-- The call `memcpy(pool + off, src, |src|)` (`none`: outside the pool). -/
def pool_memcpy (buf : Nat → Nat) (shm_pool_size : Nat) (off : Int) (src : List Nat) :
    Option (Nat → Nat) :=
  if 0 ≤ off ∧ off + src.length ≤ shm_pool_size then
    some (fun a => if off.toNat ≤ a ∧ a < off.toNat + src.length then src.getD (a - off.toNat) 0
      else buf a)
  else none

/-- The call `memset(pool + off, 0, n)` (`none`: outside the pool). -/
def pool_memset (buf : Nat → Nat) (shm_pool_size : Nat) (off : Int) (n : Nat) :
    Option (Nat → Nat) :=
  if 0 ≤ off ∧ off + n ≤ shm_pool_size then
    some (fun a => if off.toNat ≤ a ∧ a < off.toNat + n then 0 else buf a)
  else none

/-- The step `buf_idx = (buf_idx + 1) % shm_pool_size` on the `int` cursor: the sum is an `int`
sum, converted to `size_t` for the remainder, and the remainder is stored back in an `int`. At
`buf_idx = INT_MAX` the C sum overflows, which the language leaves undefined; the model takes the
two's-complement wrap of the target there. Below `INT_MAX` nothing depends on that choice. -/
def ring_next (buf_idx : Int) (shm_pool_size : Nat) : Int :=
  to_int ((to_size_t (to_int (buf_idx + 1)) % shm_pool_size : Nat) : Int)

/-- The byte-by-byte copy loop of pull: `n` bytes from the cursor on; gives the bytes and the
cursor after the loop (`none`: a read outside the pool). -/
def ring_load (buf : Nat → Nat) (shm_pool_size : Nat) : Nat → Int → Option (List Nat × Int)
  | 0, buf_idx => some ([], buf_idx)
  | n + 1, buf_idx =>
    if 0 ≤ buf_idx ∧ buf_idx < shm_pool_size then
      match ring_load buf shm_pool_size n (ring_next buf_idx shm_pool_size) with
      | some (bs, j) => some (buf buf_idx.toNat :: bs, j)
      | none => none
    else none

/-- The byte-by-byte flush loop of pull: `n` zero bytes from the cursor on (`none`: a write
outside the pool). -/
def ring_zero (shm_pool_size : Nat) : Nat → Int → (Nat → Nat) → Option (Nat → Nat)
  | 0, _, buf => some buf
  | n + 1, buf_idx, buf =>
    if 0 ≤ buf_idx ∧ buf_idx < shm_pool_size then
      ring_zero shm_pool_size n (ring_next buf_idx shm_pool_size)
        (fun a => if a = buf_idx.toNat then 0 else buf a)
    else none

/-- Read of `n` bytes at offset `off` of a heap or caller buffer (`none`: outside the buffer). -/
def buf_load (src : List Nat) (off : Int) (n : Int) : Option (List Nat) :=
  if 0 ≤ off ∧ 0 ≤ n ∧ off + n ≤ src.length then some ((src.drop off.toNat).take n.toNat)
  else none

/-! ## Creation and release, as seen in the segment -/

/-- The segment as `mp_shm_fifo_create` leaves it on success (lines 164-201): a brand new
object reads as null bytes, then the header members are initialized. -/
def mp_shm_fifo_create_init (fifo_file_name : List Nat) (shm_pool_size : Nat) (flags : Nat) :
    mp_shm_fifo_ctx_t :=
  { shm_fifo_name := fifo_file_name.take (NAME_MAX - 1 - 1)
    flags := flags
    flag_exit := 0
    shm_pool_size := shm_pool_size
    flag_api_mutex_initialized := 1
    flag_buf_put_signal_initialized := 1
    flag_buf_get_signal_initialized := 1
    slots_used_cnt := 0
    buf_level := 0
    input_byte_idx := 0
    output_byte_idx := 0
    buf := fun _ => 0 }

/-- What `mp_shm_fifo_release` writes into the segment before unmapping it (lines 233-267); the
peers that still map the segment go on seeing this. -/
def mp_shm_fifo_release_shm (s : mp_shm_fifo_ctx_t) : mp_shm_fifo_ctx_t :=
  { s with
    flag_exit := 1
    flag_api_mutex_initialized := 0
    flag_buf_put_signal_initialized := 0
    flag_buf_get_signal_initialized := 0 }

/-! ## `mp_shm_fifo_set_blocking_mode`, `mp_shm_fifo_empty`, `mp_shm_fifo_get_buffer_level` -/

/-- The function `mp_shm_fifo_set_blocking_mode` (a null handle is returned as it came). -/
def mp_shm_fifo_set_blocking_mode (mp_shm_fifo_ctx : Option mp_shm_fifo_ctx_t) (do_block : Int) :
    Option mp_shm_fifo_ctx_t :=
  match mp_shm_fifo_ctx with
  | none => none
  | some s =>
    if do_block ≠ 0 then some { s with flags := s.flags &&& (4294967295 - SHM_FIFO_O_NONBLOCK) }
    else some { s with flags := s.flags ||| SHM_FIFO_O_NONBLOCK }

/-- The function `mp_shm_fifo_empty`. -/
def mp_shm_fifo_empty (mp_shm_fifo_ctx : Option mp_shm_fifo_ctx_t) : Option mp_shm_fifo_ctx_t :=
  match mp_shm_fifo_ctx with
  | none => none
  | some s =>
    some { s with
      buf := fun a => if a < s.shm_pool_size then 0 else s.buf a
      slots_used_cnt := 0
      buf_level := 0
      input_byte_idx := 0
      output_byte_idx := 0 }

/-- The condition of the wait loop of push (lines 393-394). -/
def push_must_wait (s : mp_shm_fifo_ctx_t) (shm_pool_size shm_elem_size : Nat) : Prop :=
  size_add (to_size_t s.buf_level) shm_elem_size > shm_pool_size ∧ ¬ nonblock s ∧ s.flag_exit = 0

instance (s : mp_shm_fifo_ctx_t) (a b : Nat) : Decidable (push_must_wait s a b) := by
  unfold push_must_wait; infer_instance

/-- The wait loop of push: each turn waits on `buf_get_signal` and goes on with the segment as
found at the wake-up (`none`: still waiting). -/
def push_wait (shm_pool_size shm_elem_size : Nat) :
    List cond_wake → mp_shm_fifo_ctx_t → Option mp_shm_fifo_ctx_t
  | [], s => if push_must_wait s shm_pool_size shm_elem_size then none else some s
  | w :: ws, s =>
    if push_must_wait s shm_pool_size shm_elem_size then push_wait shm_pool_size shm_elem_size ws w.shm
    else some s

/-- The value of `fragm0_size` in push (line 411). -/
def push_fragm0_size (s : mp_shm_fifo_ctx_t) (shm_pool_size : Nat) : Int :=
  to_int (size_sub shm_pool_size (to_size_t s.input_byte_idx))

/-- The value of `fragm1_size` in push (line 412). -/
def push_fragm1_size (s : mp_shm_fifo_ctx_t) (shm_pool_size shm_elem_size : Nat) : Int :=
  to_int (size_sub shm_elem_size (to_size_t (push_fragm0_size s shm_pool_size)))

/-- The composition of the temporal element of push and the copy of its two fragments into the
pool (lines 418-423). -/
def push_copy_fragments (s : mp_shm_fifo_ctx_t) (elem : List Nat) (elem_size : Nat)
    (shm_pool_size : Nat) (fragm0_size fragm1_size : Int) : outcome (Option (Nat → Nat)) :=
  match buf_load elem 0 elem_size with
  | none => .fault
  | some payload =>
    match buf_load (size_bytes elem_size ++ payload) 0 fragm0_size with
    | none => .fault
    | some part0 =>
      match buf_load (size_bytes elem_size ++ payload) fragm0_size fragm1_size with
      | none => .fault
      | some part1 =>
        match pool_memcpy s.buf shm_pool_size s.input_byte_idx part0 with
        | none => .fault
        | some buf0 =>
          match pool_memcpy buf0 shm_pool_size 0 part1 with
          | none => .fault
          | some buf1 => .ret (some buf1)

/-- The fragmented copy of push (lines 410-423): the element is composed in a temporal buffer of
`shm_elem_size` bytes and copied as two fragments. `ret none` is the jump to `end` with the
error code still set. -/
def push_copy_fragmented (pf : platform) (s : mp_shm_fifo_ctx_t) (elem : List Nat) (elem_size : Nat)
    (shm_pool_size shm_elem_size : Nat) : outcome (Option (Nat → Nat)) :=
  if ¬ (push_fragm0_size s shm_pool_size > 0 ∧
      push_fragm1_size s shm_pool_size shm_elem_size > 0) then .ret none
  else if pf.malloc shm_elem_size = false then .ret none
  else if shm_elem_size < sizeof_shm_fifo_elem_ctx_t + elem_size then .fault
  else push_copy_fragments s elem elem_size shm_pool_size (push_fragm0_size s shm_pool_size)
    (push_fragm1_size s shm_pool_size shm_elem_size)

/-- The copy of push into the slot at `input_byte_idx` (lines 434-435): payload, then size. -/
def push_copy_slot (s : mp_shm_fifo_ctx_t) (elem : List Nat) (elem_size : Nat)
    (shm_pool_size : Nat) : outcome (Option (Nat → Nat)) :=
  match buf_load elem 0 elem_size with
  | none => .fault
  | some payload =>
    match pool_memcpy s.buf shm_pool_size (s.input_byte_idx + sizeof_shm_fifo_elem_ctx_t)
        payload with
    | none => .fault
    | some buf0 =>
      match pool_memcpy buf0 shm_pool_size s.input_byte_idx (size_bytes elem_size) with
      | none => .fault
      | some buf1 => .ret (some buf1)

/-- The copy of the new element into the pool (lines 407-436). `ret none` is the jump to `end`
with the error code still set; `ret (some buf)` is the pool after the copy. -/
def push_copy (pf : platform) (s : mp_shm_fifo_ctx_t) (elem : List Nat) (elem_size : Nat)
    (shm_pool_size shm_elem_size : Nat) : outcome (Option (Nat → Nat)) :=
  if size_add (to_size_t s.input_byte_idx) shm_elem_size > shm_pool_size then
    push_copy_fragmented pf s elem elem_size shm_pool_size shm_elem_size
  else if exhaust_ctrl s then
    match pool_load s.buf shm_pool_size s.input_byte_idx sizeof_shm_fifo_elem_ctx_t with
    | none => .fault
    | some hdr =>
      if size_value hdr ≠ 0 then .ret none
      else push_copy_slot s elem elem_size shm_pool_size
  else push_copy_slot s elem elem_size shm_pool_size

/-- The part of push after the wait loop (lines 400-447), on the segment `s` as then found. -/
def push_after_wait (pf : platform) (s : mp_shm_fifo_ctx_t) (elem : List Nat) (elem_size : Nat)
    (shm_pool_size shm_elem_size : Nat) : outcome (Int × mp_shm_fifo_ctx_t) :=
  if size_add (to_size_t s.buf_level) shm_elem_size > shm_pool_size ∧ nonblock s then
    .ret (MP_ENOMEM, s)
  else
    match push_copy pf s elem elem_size shm_pool_size shm_elem_size with
    | .fault => .fault
    | .blocked => .blocked
    | .ret none => .ret (MP_ERROR, s)
    | .ret (some buf1) =>
      .ret (MP_SUCCESS,
        { s with
          buf := buf1
          slots_used_cnt := to_ssize_t (s.slots_used_cnt + 1)
          buf_level := to_ssize_t ((size_add (to_size_t s.buf_level) shm_elem_size : Nat) : Int)
          input_byte_idx :=
            to_int ((size_add (to_size_t s.input_byte_idx) shm_elem_size % shm_pool_size : Nat) : Int) })

/-- The part of push that runs with the mutex held (lines 387-449). -/
def push_locked (pf : platform) (s0 : mp_shm_fifo_ctx_t) (elem : List Nat) (elem_size : Nat)
    (shm_pool_size shm_elem_size : Nat) : outcome (Int × mp_shm_fifo_ctx_t) :=
  match push_wait shm_pool_size shm_elem_size pf.wakes s0 with
  | none => .blocked
  | some s => push_after_wait pf s elem elem_size shm_pool_size shm_elem_size

/-- The function `mp_shm_fifo_push`. The handle and the element are `none` when the pointer is
null; `elem_size` is a `size_t`. Returns the status code and the segment after the call. -/
def mp_shm_fifo_push (pf : platform) (mp_shm_fifo_ctx : Option mp_shm_fifo_ctx_t)
    (elem : Option (List Nat)) (elem_size : Nat) : outcome (Int × Option mp_shm_fifo_ctx_t) :=
  let shm_elem_size := size_add sizeof_shm_fifo_elem_ctx_t elem_size
  match mp_shm_fifo_ctx, elem with
  | some s, some e =>
    if ¬ elem_size > 0 then .ret (MP_ERROR, some s)
    else if shm_elem_size > s.shm_pool_size then .ret (MP_ERROR, some s)
    else
      match push_locked pf s e elem_size s.shm_pool_size shm_elem_size with
      | .ret (c, s1) => .ret (c, some s1)
      | .blocked => .blocked
      | .fault => .fault
  | h, _ => .ret (MP_ERROR, h)

/-! ## `mp_shm_fifo_pull` -/

/-- The condition of the wait loop of pull (line 502). -/
def pull_must_wait (s : mp_shm_fifo_ctx_t) : Prop :=
  s.buf_level ≤ 0 ∧ ¬ nonblock s ∧ s.flag_exit = 0

instance (s : mp_shm_fifo_ctx_t) : Decidable (pull_must_wait s) := by
  unfold pull_must_wait; infer_instance

/-- How the wait loop of pull ends. -/
inductive pull_wait_end where
  | go : mp_shm_fifo_ctx_t → pull_wait_end
  | timed_out : mp_shm_fifo_ctx_t → pull_wait_end
  | wait_failed : mp_shm_fifo_ctx_t → pull_wait_end
  | waiting : pull_wait_end

/-- The wait loop of pull (lines 502-522): with a time-out the timed wait ends the call when it
reports `ETIMEDOUT`; without one a failing wait ends the call. -/
def pull_wait (tout_usecs : Int) : List cond_wake → mp_shm_fifo_ctx_t → pull_wait_end
  | [], s => if pull_must_wait s then .waiting else .go s
  | w :: ws, s =>
    if pull_must_wait s then
      if tout_usecs ≥ 0 then
        if w.ret_code = ETIMEDOUT then .timed_out w.shm else pull_wait tout_usecs ws w.shm
      else
        if w.ret_code = 0 then pull_wait tout_usecs ws w.shm else .wait_failed w.shm
    else .go s

/-- The fragmented read of pull (lines 548-587): header and payload byte by byte, then the
flush. `ret none` is the jump to `end` with the error code still set; otherwise the copy
`elem_cpy`, `elem_size` and the pool after the flush. -/
def pull_copy_fragmented (pf : platform) (s : mp_shm_fifo_ctx_t) :
    outcome (Option (List Nat × Nat × (Nat → Nat))) :=
  match ring_load s.buf s.shm_pool_size sizeof_shm_fifo_elem_ctx_t s.output_byte_idx with
  | none => .fault
  | some (elem_ctx_hdr, buf_idx) =>
    let elem_size := to_size_t (size_value elem_ctx_hdr)
    if ¬ elem_size > 0 then .ret none
    else if pf.malloc elem_size = false then .ret none
    else
      match ring_load s.buf s.shm_pool_size elem_size buf_idx with
      | none => .fault
      | some (elem_cpy, _) =>
        if exhaust_ctrl s then
          match ring_zero s.shm_pool_size (size_add sizeof_shm_fifo_elem_ctx_t elem_size)
              s.output_byte_idx s.buf with
          | none => .fault
          | some buf1 => .ret (some (elem_cpy, elem_size, buf1))
        else .ret (some (elem_cpy, elem_size, s.buf))

/-- The read of pull from the slot at `output_byte_idx` (lines 599-622). -/
def pull_copy_slot (pf : platform) (s : mp_shm_fifo_ctx_t) :
    outcome (Option (List Nat × Nat × (Nat → Nat))) :=
  match pool_load s.buf s.shm_pool_size s.output_byte_idx sizeof_shm_fifo_elem_ctx_t with
  | none => .fault
  | some hdr =>
    let elem_size := to_size_t (size_value hdr)
    if ¬ elem_size > 0 then .ret none
    else if pf.malloc elem_size = false then .ret none
    else
      match pool_load s.buf s.shm_pool_size (s.output_byte_idx + sizeof_shm_fifo_elem_ctx_t)
          elem_size with
      | none => .fault
      | some elem_cpy =>
        if exhaust_ctrl s then
          match pool_memset s.buf s.shm_pool_size s.output_byte_idx
              (size_add sizeof_shm_fifo_elem_ctx_t elem_size) with
          | none => .fault
          | some buf1 => .ret (some (elem_cpy, elem_size, buf1))
        else .ret (some (elem_cpy, elem_size, s.buf))

/-- The read of one element out of the pool (lines 530-632): decides whether the header or the
element is fragmented and reads accordingly. -/
def pull_copy (pf : platform) (s : mp_shm_fifo_ctx_t) :
    outcome (Option (List Nat × Nat × (Nat → Nat))) :=
  if size_add (to_size_t s.output_byte_idx) sizeof_shm_fifo_elem_ctx_t > s.shm_pool_size then
    pull_copy_fragmented pf s
  else
    match pool_load s.buf s.shm_pool_size s.output_byte_idx sizeof_shm_fifo_elem_ctx_t with
    | none => .fault
    | some hdr =>
      let elem_size := to_size_t (size_value hdr)
      if ¬ elem_size > 0 then .ret none
      else if size_add (size_add (to_size_t s.output_byte_idx) sizeof_shm_fifo_elem_ctx_t)
          elem_size > s.shm_pool_size then pull_copy_fragmented pf s
      else pull_copy_slot pf s

/-- What pull hands back: the status code, the caller's two output variables and the segment. -/
structure pull_result where
  end_code : Int
  ref_elem : Option (Option (List Nat))
  ref_elem_size : Option Nat
  shm : Option mp_shm_fifo_ctx_t

/-- The part of pull after the wait loop (lines 523-650), on the segment `s` as then found.
Gives the status code, `*ref_elem`, `*ref_elem_size` and the segment. -/
def pull_after_wait (pf : platform) (s : mp_shm_fifo_ctx_t) :
    outcome (Int × Option (List Nat) × Nat × mp_shm_fifo_ctx_t) :=
  if s.buf_level ≤ 0 ∧ nonblock s then .ret (MP_EAGAIN, none, 0, s)
  else
    match pull_copy pf s with
    | .fault => .fault
    | .blocked => .blocked
    | .ret none => .ret (MP_ERROR, none, 0, s)
    | .ret (some (elem_cpy, elem_size, buf1)) =>
      .ret (MP_SUCCESS, some elem_cpy, elem_size,
        { s with
          buf := buf1
          slots_used_cnt := to_ssize_t (s.slots_used_cnt - 1)
          buf_level := to_ssize_t ((to_size_t s.buf_level : Int) -
            (size_add sizeof_shm_fifo_elem_ctx_t elem_size : Nat))
          output_byte_idx := to_int ((size_add (size_add (to_size_t s.output_byte_idx)
            sizeof_shm_fifo_elem_ctx_t) elem_size % s.shm_pool_size : Nat) : Int) })

/-- The part of pull that runs with the mutex held (lines 474-652), the outputs being reset
already. Gives the status code, `*ref_elem`, `*ref_elem_size` and the segment. -/
def pull_locked (pf : platform) (s0 : mp_shm_fifo_ctx_t) (tout_usecs : Int) :
    outcome (Int × Option (List Nat) × Nat × mp_shm_fifo_ctx_t) :=
  if tout_usecs ≥ 0 ∧ pf.clock_gettime = none then .ret (MP_ERROR, none, 0, s0)
  else
    match pull_wait tout_usecs pf.wakes s0 with
    | .waiting => .blocked
    | .timed_out s => .ret (MP_ETIMEDOUT, none, 0, s)
    | .wait_failed s => .ret (MP_ERROR, none, 0, s)
    | .go s => pull_after_wait pf s

/-- The function `mp_shm_fifo_pull`. The handle and the two output references are `none` when
the pointer is null; a reference holds the current value of the caller's variable. -/
def mp_shm_fifo_pull (pf : platform) (mp_shm_fifo_ctx : Option mp_shm_fifo_ctx_t)
    (ref_elem : Option (Option (List Nat))) (ref_elem_size : Option Nat) (tout_usecs : Int) :
    outcome pull_result :=
  match mp_shm_fifo_ctx, ref_elem, ref_elem_size with
  | some s, some _, some _ =>
    match pull_locked pf s tout_usecs with
    | .ret (c, e, n, s1) => .ret ⟨c, some e, some n, some s1⟩
    | .blocked => .blocked
    | .fault => .fault
  | h, e, n => .ret ⟨MP_ERROR, e, n, h⟩

/-! ## A sequence of calls -/

/-- One call of a single-threaded client: a push of a whole buffer, or a pull. A call that had
to wait stands where it finally ran: a wait changes nothing in the segment. -/
inductive fifo_call where
  | push : (Nat → Bool) → List Nat → fifo_call
  | pull : (Nat → Bool) → Option (Int × Int) → Int → fifo_call

/-- Runs the calls one after the other from the segment `s`, each with no wake-up left; gives
what the pulls handed out, in order (the buffer and the size reported for it), and the final
segment. The run stops with `none` at the first call that does not return `MP_SUCCESS`. -/
def run_calls : List fifo_call → mp_shm_fifo_ctx_t →
    Option (List (List Nat × Nat) × mp_shm_fifo_ctx_t)
  | [], s => some ([], s)
  | .push m p :: cs, s =>
    match mp_shm_fifo_push ⟨m, none, []⟩ (some s) (some p) p.length with
    | .ret (c, some s1) => if c = MP_SUCCESS then run_calls cs s1 else none
    | _ => none
  | .pull m clk tout :: cs, s =>
    match mp_shm_fifo_pull ⟨m, clk, []⟩ (some s) (some none) (some 0) tout with
    | .ret ⟨c, some (some e), some n, some s1⟩ =>
      if c = MP_SUCCESS then
        match run_calls cs s1 with
        | some (es, s2) => some ((e, n) :: es, s2)
        | none => none
      else none
    | _ => none

/-- The buffers pushed by a sequence of calls, in order. -/
def pushed : List fifo_call → List (List Nat)
  | [] => []
  | .push _ p :: cs => p :: pushed cs
  | .pull _ _ _ :: cs => pushed cs

/-- The number of pulls in a sequence of calls. -/
def pulls : List fifo_call → Nat
  | [] => 0
  | .push _ _ :: cs => pulls cs
  | .pull _ _ _ :: cs => pulls cs + 1

/-! ## States reachable through the public operations -/

/-- The segments that the public operations can produce from the segment `s0`. A call of push or
pull may wait; the segments it finds at its wake-ups are themselves produced by the peers. -/
inductive reachable (s0 : mp_shm_fifo_ctx_t) : mp_shm_fifo_ctx_t → Prop where
  | init : reachable s0 s0
  | push (pf : platform) (s s1 : mp_shm_fifo_ctx_t) (elem : Option (List Nat)) (elem_size : Nat)
      (c : Int) : reachable s0 s → (∀ w, w ∈ pf.wakes → reachable s0 w.shm) →
      elem_size < 18446744073709551616 →
      mp_shm_fifo_push pf (some s) elem elem_size = .ret (c, some s1) → reachable s0 s1
  | pull (pf : platform) (s s1 : mp_shm_fifo_ctx_t) (e : Option (List Nat)) (n : Nat)
      (tout_usecs : Int) (r : pull_result) : reachable s0 s →
      (∀ w, w ∈ pf.wakes → reachable s0 w.shm) →
      mp_shm_fifo_pull pf (some s) (some e) (some n) tout_usecs = .ret r → r.shm = some s1 →
      reachable s0 s1
  | empty (s s1 : mp_shm_fifo_ctx_t) : reachable s0 s →
      mp_shm_fifo_empty (some s) = some s1 → reachable s0 s1
  | set_blocking_mode (s s1 : mp_shm_fifo_ctx_t) (do_block : Int) : reachable s0 s →
      mp_shm_fifo_set_blocking_mode (some s) do_block = some s1 → reachable s0 s1
  | release (s : mp_shm_fifo_ctx_t) : reachable s0 s → reachable s0 (mp_shm_fifo_release_shm s)

/-! ## The abstract queue held by a segment -/

/-- The bytes of one frame: the size field, then the payload. -/
def frame (p : List Nat) : List Nat := size_bytes p.length ++ p

/-- The bytes of a sequence of frames, first frame first. -/
def frames_bytes : List (List Nat) → List Nat
  | [] => []
  | p :: q => frame p ++ frames_bytes q

/-- The `n` pool bytes from offset `o` on, positions taken modulo the pool size. -/
def ring_bytes (buf : Nat → Nat) (shm_pool_size o n : Nat) : List Nat :=
  (List.range n).map (fun i => buf ((o + i) % shm_pool_size))

/-- The segment `s` holds exactly the queue `q` (oldest element first): the indices are in the
pool, the level and the slot count are those of `q`, and the pool bytes from `output_byte_idx`
on are the frames of `q`. -/
structure holds (s : mp_shm_fifo_ctx_t) (q : List (List Nat)) : Prop where
  pool_pos : 0 < s.shm_pool_size
  pool_int : s.shm_pool_size ≤ 2147483647
  out_lo : 0 ≤ s.output_byte_idx
  out_hi : s.output_byte_idx < s.shm_pool_size
  level : s.buf_level = ((frames_bytes q).length : Int)
  level_le : (frames_bytes q).length ≤ s.shm_pool_size
  in_idx : s.input_byte_idx =
    (((s.output_byte_idx.toNat + (frames_bytes q).length) % s.shm_pool_size : Nat) : Int)
  slots : s.slots_used_cnt = (q.length : Int)
  sizes : ∀ p, p ∈ q → 0 < p.length
  content : ring_bytes s.buf s.shm_pool_size s.output_byte_idx.toNat (frames_bytes q).length =
    frames_bytes q

/-- With exhaustive checking the pool bytes outside the frames of the queue are null. -/
def free_is_null (s : mp_shm_fifo_ctx_t) : Prop :=
  exhaust_ctrl s → ∀ i, i < s.shm_pool_size - s.buf_level.toNat →
    s.buf ((s.input_byte_idx.toNat + i) % s.shm_pool_size) = 0

/-- The segment held when the wait loop of pull ends. -/
def pull_wait_shm : pull_wait_end → Option mp_shm_fifo_ctx_t
  | .go s => some s
  | .timed_out s => some s
  | .wait_failed s => some s
  | .waiting => none

/-! ## Segments used as examples -/

/-- A non-blocking FIFO with a pool of 25 bytes holding one frame of 16 payload bytes (the
overflow scenario of the tests). -/
def shm_one_frame : mp_shm_fifo_ctx_t :=
  { shm_fifo_name := [47, 102]
    flags := SHM_FIFO_O_NONBLOCK
    flag_exit := 0
    shm_pool_size := 25
    flag_api_mutex_initialized := 1
    flag_buf_put_signal_initialized := 1
    flag_buf_get_signal_initialized := 1
    slots_used_cnt := 1
    buf_level := 24
    input_byte_idx := 24
    output_byte_idx := 0
    buf := fun a => (size_bytes 16 ++
      [97, 98, 99, 100, 101, 102, 103, 104, 105, 106, 107, 108, 109, 110, 111, 0]).getD a 0 }

/-- The pool `buf1` is the pool `buf` with the bytes `F` written from offset `i` on, positions
taken modulo the pool size, and nothing else changed. -/
def ring_written (buf buf1 : Nat → Nat) (shm_pool_size i : Nat) (F : List Nat) : Prop :=
  (∀ j, j < F.length → buf1 ((i + j) % shm_pool_size) = F.getD j 0) ∧
  (∀ a, (∀ j, j < F.length → a ≠ (i + j) % shm_pool_size) → buf1 a = buf a)

/-- The segment after a call of push that returned (the segment `d` otherwise). -/
def shm_after_push (r : outcome (Int × Option mp_shm_fifo_ctx_t)) (d : mp_shm_fifo_ctx_t) :
    mp_shm_fifo_ctx_t :=
  match r with
  | .ret (_, some s) => s
  | _ => d

/-- The segment after a call of pull that returned (the segment `d` otherwise). -/
def shm_after_pull (r : outcome pull_result) (d : mp_shm_fifo_ctx_t) : mp_shm_fifo_ctx_t :=
  match r with
  | .ret ⟨_, _, _, some s⟩ => s
  | _ => d

/-- The status code of a call of push that returned. -/
def push_code (r : outcome (Int × Option mp_shm_fifo_ctx_t)) : Option Int :=
  match r with
  | .ret (c, _) => some c
  | _ => none

/-- The status code and the two outputs of a call of pull that returned. -/
def pull_outputs (r : outcome pull_result) : Option (Int × Option (Option (List Nat)) × Option Nat) :=
  match r with
  | .ret ⟨c, e, n, _⟩ => some (c, e, n)
  | _ => none

/-- A platform on which every allocation succeeds and nobody is woken up. -/
def calm : platform := ⟨fun _ => true, some (5, 0), []⟩

/-- A fresh blocking FIFO with a pool of 25 bytes, no exhaustive checking. -/
def shm_fresh : mp_shm_fifo_ctx_t := mp_shm_fifo_create_init [47, 102] 25 0

/-- The FIFO `shm_fresh` after a push of 17 bytes: the pool is full. -/
def shm_full : mp_shm_fifo_ctx_t :=
  shm_after_push (mp_shm_fifo_push calm (some shm_fresh)
    (some [1, 2, 3, 4, 5, 6, 7, 8, 9, 10, 11, 12, 13, 14, 15, 16, 17]) 17) shm_fresh

/-- The FIFO `shm_full` after the pull of its element: empty again, the bytes of the consumed
frame still in the pool. -/
def shm_drained : mp_shm_fifo_ctx_t :=
  shm_after_pull (mp_shm_fifo_pull calm (some shm_full) (some none) (some 0) (-1)) shm_full

/-- A blocked push of one byte on `shm_full` that is woken up by the release of the FIFO. -/
def shm_overrun : mp_shm_fifo_ctx_t :=
  shm_after_push (mp_shm_fifo_push ⟨fun _ => true, none, [⟨0, mp_shm_fifo_release_shm shm_full⟩]⟩
    (some shm_full) (some [99]) 1) shm_full

/-- A blocked pull on `shm_drained` that is woken up by the release of the FIFO. -/
def shm_underrun : mp_shm_fifo_ctx_t :=
  shm_after_pull (mp_shm_fifo_pull
    ⟨fun _ => true, none, [⟨0, mp_shm_fifo_release_shm shm_drained⟩]⟩
    (some shm_drained) (some none) (some 0) (-1)) shm_drained

/-- A fresh non-blocking FIFO with a pool of 25 bytes, no exhaustive checking. -/
def shm_nb_fresh : mp_shm_fifo_ctx_t := mp_shm_fifo_create_init [47, 102] 25 SHM_FIFO_O_NONBLOCK

/-- The FIFO `shm_nb_fresh` after a push of 9 bytes. -/
def shm_nb_one : mp_shm_fifo_ctx_t :=
  shm_after_push (mp_shm_fifo_push calm (some shm_nb_fresh)
    (some [1, 2, 3, 4, 5, 6, 7, 8, 9]) 9) shm_nb_fresh

/-- The FIFO `shm_nb_one` after the pull of its element: empty, both indices at offset 17. -/
def shm_nb_turned : mp_shm_fifo_ctx_t :=
  shm_after_pull (mp_shm_fifo_pull calm (some shm_nb_one) (some none) (some 0) (-1)) shm_nb_one

/-- A buffer of `2^32 - 8` bytes, all null but the byte at offset 8. -/
def huge_payload : List Nat := List.replicate 8 0 ++ 1 :: List.replicate 4294967279 0

/-- A fresh blocking FIFO with a pool of `2^32 + 64` bytes, no exhaustive checking. -/
def shm_huge : mp_shm_fifo_ctx_t := mp_shm_fifo_create_init [47, 102] 4294967360 0

/-- The FIFO `shm_huge` after a push of `huge_payload`: the frame takes the bytes `0 .. 2^32`
of the pool, and the input index, which should be `2^32`, is 0. -/
def shm_huge_one : mp_shm_fifo_ctx_t :=
  { shm_huge with
    buf := fun a =>
      if 0 ≤ a ∧ a < 0 + 8 then (size_bytes 4294967288).getD (a - 0) 0
      else if 0 + 8 ≤ a ∧ a < 0 + 8 + 4294967288 then
        (List.take 4294967288 huge_payload).getD (a - (0 + 8)) 0
      else shm_huge.buf a
    slots_used_cnt := 1
    buf_level := 4294967296
    input_byte_idx := 0 }

/-- The FIFO `shm_huge_one` after a push of 8 more bytes, written at offset 0 over the first
frame. -/
def shm_huge_two : mp_shm_fifo_ctx_t :=
  { shm_huge_one with
    buf := fun a =>
      if 0 ≤ a ∧ a < 0 + 8 then (size_bytes 8).getD (a - 0) 0
      else if 0 + 8 ≤ a ∧ a < 0 + 8 + 8 then
        (List.take 8 [1, 2, 3, 4, 5, 6, 7, 8]).getD (a - (0 + 8)) 0
      else shm_huge_one.buf a
    slots_used_cnt := 2
    buf_level := 4294967312
    input_byte_idx := 16 }

/-- A buffer of `2^31 - 18` null bytes. -/
def edge_payload : List Nat := List.replicate 2147483630 0

/-- A fresh blocking FIFO with a pool of `2^31 + 1` bytes, no exhaustive checking. -/
def shm_edge : mp_shm_fifo_ctx_t := mp_shm_fifo_create_init [47, 102] 2147483649 0

/-- The FIFO `shm_edge` after a push of `edge_payload` (framed size `2^31 - 10`). -/
def shm_edge_one : mp_shm_fifo_ctx_t :=
  { shm_edge with
    buf := fun a =>
      if 0 ≤ a ∧ a < 0 + 8 then (size_bytes 2147483630).getD (a - 0) 0
      else if 0 + 8 ≤ a ∧ a < 0 + 8 + 2147483630 then
        (List.take 2147483630 edge_payload).getD (a - (0 + 8)) 0
      else shm_edge.buf a
    slots_used_cnt := 1
    buf_level := 2147483638
    input_byte_idx := 2147483638 }

/-- The FIFO `shm_edge_one` after the pull of its element: empty, both indices at offset
`2^31 - 10`, eleven bytes before the end of the pool. -/
def shm_edge_turned : mp_shm_fifo_ctx_t :=
  { shm_edge_one with
    slots_used_cnt := 0
    buf_level := 0
    output_byte_idx := 2147483638 }

/-- A sequence of pulls, one for each given malloc behaviour, clock reading and time-out. -/
def pull_calls (ps : List ((Nat → Bool) × Option (Int × Int) × Int)) : List fifo_call :=
  ps.map (fun t => .pull t.1 t.2.1 t.2.2)

/-- The FIFO `shm_full` once its release has set the exit flag: blocking, full. -/
def shm_exit_full : mp_shm_fifo_ctx_t := mp_shm_fifo_release_shm shm_full

/-- The FIFO `shm_drained` once its release has set the exit flag: blocking, empty, the bytes of
the consumed frame still in the pool. -/
def shm_exit_drained : mp_shm_fifo_ctx_t := mp_shm_fifo_release_shm shm_drained

/-- A buffer of `2^31 - 8` null bytes. -/
def half_payload : List Nat := List.replicate 2147483640 0

/-- The FIFO `shm_edge` after a push of `half_payload` (framed size `2^31`): the input index,
which should be `2^31`, is `INT_MIN`. -/
def shm_edge_half : mp_shm_fifo_ctx_t :=
  { shm_edge with
    buf := fun a =>
      if 0 ≤ a ∧ a < 0 + 8 then (size_bytes 2147483640).getD (a - 0) 0
      else if 0 + 8 ≤ a ∧ a < 0 + 8 + 2147483640 then
        (List.take 2147483640 half_payload).getD (a - (0 + 8)) 0
      else shm_edge.buf a
    slots_used_cnt := 1
    buf_level := 2147483648
    input_byte_idx := -2147483648 }

/-- A fresh blocking FIFO with a pool of `2^31 + 1` bytes and exhaustive checking. -/
def shm_edgex : mp_shm_fifo_ctx_t :=
  mp_shm_fifo_create_init [47, 102] 2147483649 SHM_FIFO_EXHAUST_CTRL

/-- The FIFO `shm_edgex` after a push of `edge_payload` (framed size `2^31 - 10`). -/
def shm_edgex_one : mp_shm_fifo_ctx_t :=
  { shm_edgex with
    buf := fun a =>
      if 0 ≤ a ∧ a < 0 + 8 then (size_bytes 2147483630).getD (a - 0) 0
      else if 0 + 8 ≤ a ∧ a < 0 + 8 + 2147483630 then
        (List.take 2147483630 edge_payload).getD (a - (0 + 8)) 0
      else shm_edgex.buf a
    slots_used_cnt := 1
    buf_level := 2147483638
    input_byte_idx := 2147483638 }

/-- The FIFO `shm_edgex_one` after the pull of its element: empty, flushed, both indices at
offset `2^31 - 10`, eleven bytes before the end of the pool. -/
def shm_edgex_turned : mp_shm_fifo_ctx_t :=
  { shm_edgex_one with
    buf := fun a => if 0 ≤ a ∧ a < 0 + (8 + 2147483630) then 0 else shm_edgex_one.buf a
    slots_used_cnt := 0
    buf_level := 0
    output_byte_idx := 2147483638 }

/-- The FIFO `shm_edgex_turned` after a push of the 11 bytes `1 .. 11`: the frame of 19 bytes is
fragmented, 11 bytes at the end of the pool and 8 bytes at its start. -/
def shm_edgex_wrapped : mp_shm_fifo_ctx_t :=
  shm_after_push (mp_shm_fifo_push calm (some shm_edgex_turned)
    (some [1, 2, 3, 4, 5, 6, 7, 8, 9, 10, 11]) 11) shm_edgex_turned

/-- A blocking FIFO with a pool of 25 bytes whose pool holds, at the output index, a size field
of -1 (eight bytes `0xff`). -/
def shm_negative : mp_shm_fifo_ctx_t :=
  { shm_fresh with
    slots_used_cnt := 1
    buf_level := 9
    input_byte_idx := 9
    buf := fun a => if a < 8 then 255 else 0 }

/-- A blocking FIFO with a pool of `2^31 + 8` bytes and its output index at `INT_MAX`, eight
bytes before the end of the pool; the size field there is `-2^63 + 1` (a byte 1 at the output
index, the sign bit set in its last byte), all other bytes of the pool are null. -/
def shm_corrupt : mp_shm_fifo_ctx_t :=
  { mp_shm_fifo_create_init [47, 102] 2147483656 0 with
    slots_used_cnt := 1
    buf_level := 9
    input_byte_idx := 0
    output_byte_idx := 2147483647
    buf := fun a => if a = 2147483647 then 1 else if a = 2147483654 then 128 else 0 }

/-- The allocator of the target: a request of `2^63` bytes or more (above `PTRDIFF_MAX`) is
refused, any other is granted. -/
def malloc_below_ptrdiff_max (n : Nat) : Bool := decide (n < 9223372036854775808)

/-! ## `mp_shm_fifo_create` and `mp_shm_fifo_release`, in the name space of the objects -/

/-- The shared-memory objects linked in the system: under each name, what its object holds. A
name is the list of the bytes of the C string. -/
abbrev shm_namespace := List Nat → Option mp_shm_fifo_ctx_t

/-- The call `shm_unlink(name)`: the name is removed; a name that is not linked makes the call
fail, which the module only traces. -/
def shm_unlink (names : shm_namespace) (name : List Nat) : shm_namespace :=
  fun n => if n = name then none else names n

/-- The name space in which the object under `name` holds `shm`. -/
def shm_link (names : shm_namespace) (name : List Nat) (shm : mp_shm_fifo_ctx_t) :
    shm_namespace :=
  fun n => if n = name then some shm else names n

/-- A brand new object, once sized, reads as null bytes. -/
def shm_null : mp_shm_fifo_ctx_t :=
  { shm_fifo_name := []
    flags := 0
    flag_exit := 0
    shm_pool_size := 0
    flag_api_mutex_initialized := 0
    flag_buf_put_signal_initialized := 0
    flag_buf_get_signal_initialized := 0
    slots_used_cnt := 0
    buf_level := 0
    input_byte_idx := 0
    output_byte_idx := 0
    buf := fun _ => 0 }

/-- What `mp_shm_fifo_release` leaves: the name space, the handle variable of the caller (`none`
when the reference itself is null) and, when a segment was released, what it holds at the
`munmap` (the peers that still map it go on seeing this). -/
structure release_result where
  names : shm_namespace
  ref_mp_shm_fifo_ctx : Option (Option mp_shm_fifo_ctx_t)
  shm : Option mp_shm_fifo_ctx_t

/-- The function `mp_shm_fifo_release` (lines 218-279). The reference is `none` when it is null,
`some none` when it refers to a null handle. The name passed to `shm_unlink` is the one copied
out of the header of the segment. -/
def mp_shm_fifo_release (names : shm_namespace)
    (ref_mp_shm_fifo_ctx : Option (Option mp_shm_fifo_ctx_t)) : release_result :=
  match ref_mp_shm_fifo_ctx with
  | none => ⟨names, none, none⟩
  | some none => ⟨names, some none, none⟩
  | some (some s) =>
    ⟨shm_unlink names s.shm_fifo_name, some none, some (mp_shm_fifo_release_shm s)⟩

/-- What `mp_shm_fifo_create` gets from its platform: for each call that it checks, whether the
call succeeds (`shm_open` on a name that is free; with `O_CREAT|O_EXCL` it always fails on a
name that is linked). -/
structure create_platform where
  shm_open : Bool
  ftruncate : Bool
  mmap : Bool
  pthread_mutexattr_setpshared : Bool
  pthread_mutex_init : Bool
  pthread_condattr_setclock1 : Bool
  pthread_condattr_setpshared1 : Bool
  pthread_cond_init1 : Bool
  pthread_condattr_setclock2 : Bool
  pthread_condattr_setpshared2 : Bool
  pthread_cond_init2 : Bool

/-- The new segment after lines 168-176 of `mp_shm_fifo_create`: name (at most `NAME_MAX - 2`
characters go through `snprintf(.., NAME_MAX - 1, ..)`), flags, exit flag and pool size. -/
def create_named (fifo_file_name : List Nat) (shm_pool_size : Nat) (flags : Nat) :
    mp_shm_fifo_ctx_t :=
  { shm_null with
    shm_fifo_name := fifo_file_name.take (NAME_MAX - 1 - 1)
    flags := flags
    flag_exit := 0
    shm_pool_size := shm_pool_size }

/-- The new segment once the mutex is initialized (line 181). -/
def create_with_mutex (fifo_file_name : List Nat) (shm_pool_size : Nat) (flags : Nat) :
    mp_shm_fifo_ctx_t :=
  { create_named fifo_file_name shm_pool_size flags with flag_api_mutex_initialized := 1 }

/-- The new segment once the first condition variable is initialized (line 187). -/
def create_with_put_signal (fifo_file_name : List Nat) (shm_pool_size : Nat) (flags : Nat) :
    mp_shm_fifo_ctx_t :=
  { create_with_mutex fifo_file_name shm_pool_size flags with
    flag_buf_put_signal_initialized := 1 }

/-- The end of `mp_shm_fifo_create` after a failure that follows the mapping (lines 206-214):
the segment `s` written so far is handed to `mp_shm_fifo_release`, and null is returned. The
object created under `fifo_file_name` is the one mapped, so it holds what the release left in
the segment for as long as it stays linked. -/
def create_release (names : shm_namespace) (fifo_file_name : List Nat)
    (s : mp_shm_fifo_ctx_t) : Option mp_shm_fifo_ctx_t × shm_namespace :=
  (none, (mp_shm_fifo_release (shm_link names fifo_file_name (mp_shm_fifo_release_shm s))
    (some (some s))).names)

/-- The initialization of the synchronization members of the new segment (lines 178-193), each
checked call either going on or ending the creation. -/
def create_sync (pf : create_platform) (names : shm_namespace) (fifo_file_name : List Nat)
    (shm_pool_size : Nat) (flags : Nat) : Option mp_shm_fifo_ctx_t × shm_namespace :=
  if pf.pthread_mutexattr_setpshared = false ∨ pf.pthread_mutex_init = false then
    create_release names fifo_file_name (create_named fifo_file_name shm_pool_size flags)
  else if pf.pthread_condattr_setclock1 = false ∨ pf.pthread_condattr_setpshared1 = false ∨
      pf.pthread_cond_init1 = false then
    create_release names fifo_file_name (create_with_mutex fifo_file_name shm_pool_size flags)
  else if pf.pthread_condattr_setclock2 = false ∨ pf.pthread_condattr_setpshared2 = false ∨
      pf.pthread_cond_init2 = false then
    create_release names fifo_file_name
      (create_with_put_signal fifo_file_name shm_pool_size flags)
  else
    (some (mp_shm_fifo_create_init fifo_file_name shm_pool_size flags),
      shm_link names fifo_file_name (mp_shm_fifo_create_init fifo_file_name shm_pool_size flags))

/-- The function `mp_shm_fifo_create` (lines 116-215): the handle it returns (`none`: null) and
the name space it leaves. The name is `none` when the pointer is null; `flags` is a `uint32_t`.
When `shm_open` fails, or the sizing or the mapping of the new object does, the handle is still
null at `end` and the call of `mp_shm_fifo_release` there does nothing. -/
def mp_shm_fifo_create (pf : create_platform) (names : shm_namespace)
    (fifo_file_name : Option (List Nat)) (shm_pool_size : Nat) (flags : Nat) :
    Option mp_shm_fifo_ctx_t × shm_namespace :=
  match fifo_file_name with
  | none => (none, names)
  | some name =>
    if ¬ shm_pool_size > 0 then (none, names)
    else if name.length > NAME_MAX then (none, names)
    else if (names name).isSome ∨ pf.shm_open = false then
      (none, (mp_shm_fifo_release names (some none)).names)
    else if pf.ftruncate = false ∨ pf.mmap = false then
      (none, (mp_shm_fifo_release (shm_link names name shm_null) (some none)).names)
    else create_sync pf (shm_link names name shm_null) name shm_pool_size flags

/-! ## The processor interface (`proc_if.c`) -/

/-- The structure `proc_if_t`: the two strings (`none`: a null pointer; otherwise the bytes of the
C string) and the eight function pointers, given by their values (0: a null pointer). -/
structure proc_if_t where
  proc_name : Option (List Nat)
  proc_type : Option (List Nat)
  open_ : Nat
  close : Nat
  put : Nat
  get : Nat
  process_frame : Nat
  opt : Nat
  ififo_fxn : Nat
  ofifo_fxn : Nat
deriving DecidableEq

/-- What `proc_if_dup` gets from its platform: whether `calloc` succeeds, and whether each of
the two calls of `strdup` does. -/
structure dup_platform where
  calloc : Bool
  strdup_proc_name : Bool
  strdup_proc_type : Bool

/-- The function `proc_if_allocate`: a record of null bytes, or null. -/
def proc_if_allocate (calloc : Bool) : Option proc_if_t :=
  if calloc then some ⟨none, none, 0, 0, 0, 0, 0, 0, 0, 0⟩ else none

/-- The call `mp_strdup(s)` (`strdup`) on a string that is not null: a copy, or null. -/
def mp_strdup (succeeds : Bool) (s : List Nat) : Option (List Nat) :=
  if succeeds then some s else none

/-- The string member of the replica (lines 48-52): duplicated when the source has one; the
result of `strdup` is stored as it comes. -/
def dup_string (succeeds : Bool) (s : Option (List Nat)) : Option (List Nat) :=
  match s with
  | none => none
  | some l => mp_strdup succeeds l

/-- The function `proc_if_dup` (lines 37-64). -/
def proc_if_dup (pf : dup_platform) (proc_if_arg : Option proc_if_t) : Option proc_if_t :=
  match proc_if_arg with
  | none => none
  | some a =>
    match proc_if_allocate pf.calloc with
    | none => none
    | some _ =>
      some
        { proc_name := dup_string pf.strdup_proc_name a.proc_name
          proc_type := dup_string pf.strdup_proc_type a.proc_type
          open_ := a.open_
          close := a.close
          put := a.put
          get := a.get
          process_frame := a.process_frame
          opt := a.opt
          ififo_fxn := a.ififo_fxn
          ofifo_fxn := a.ofifo_fxn }

/-- The library function `strcmp` on the bytes of two C strings: the difference of the first
two bytes that differ, the end of a string counting as a null byte. -/
def strcmp : List Nat → List Nat → Int
  | [], [] => 0
  | [], b :: _ => 0 - (b : Int)
  | a :: _, [] => (a : Int)
  | a :: s1, b :: s2 => if a = b then strcmp s1 s2 else (a : Int) - (b : Int)

/-- The call `mp_strcmp(s1, s2)` (`strcmp`): reading through a null pointer is a fault. -/
def mp_strcmp (s1 s2 : Option (List Nat)) : outcome Int :=
  match s1, s2 with
  | some a, some b => .ret (strcmp a b)
  | _, _ => .fault

/-- The function `proc_if_cmp` (lines 66-86). The operands of `&&` are evaluated from left to
right and only as far as needed: the types are compared only when the names are equal. -/
def proc_if_cmp (proc_if1 proc_if2 : Option proc_if_t) : outcome Int :=
  match proc_if1, proc_if2 with
  | some a, some b =>
    match mp_strcmp a.proc_name b.proc_name with
    | .fault => .fault
    | .blocked => .blocked
    | .ret c1 =>
      if c1 ≠ 0 then .ret MP_ERROR
      else
        match mp_strcmp a.proc_type b.proc_type with
        | .fault => .fault
        | .blocked => .blocked
        | .ret c2 =>
          if c2 = 0 ∧ a.open_ = b.open_ ∧ a.close = b.close ∧ a.put = b.put ∧ a.get = b.get ∧
              a.process_frame = b.process_frame ∧ a.opt = b.opt ∧
              a.ififo_fxn = b.ififo_fxn ∧ a.ofifo_fxn = b.ofifo_fxn then .ret MP_SUCCESS
          else .ret MP_ERROR
  | _, _ => .ret MP_EINVAL

/-- The size of a pointer on the target (`sizeof (proc_frame_ctx_t**)`). -/
def sizeof_pointer : Nat := 8

/-- The function `proc_if_fifo_elem_ctx_dequeue_default` (lines 129-151). The two references
hold the current value of the variable of the caller (`none`: a null reference); `src` holds
the pointer stored in the slot (`none`: `src` itself is null). The declarations of the library
`libmediaprocsutils` are not part of the sources and are taken as parameters: the two status
codes, whether the trace macro `LOGW` evaluates its arguments (the first trace reads the frame
context that the pointer in the slot refers to), and which addresses hold a readable frame
context. `CHECK_DO(cond, action)` is read as the `MP_CHECK` of this repository: the action is
run when the condition fails. -/
def proc_if_fifo_elem_ctx_dequeue_default (STAT_SUCCESS STAT_ERROR : Int)
    (LOGW_evaluates : Bool) (frame_at : Nat → Bool)
    (ref_elem : Option Nat) (ref_elem_size : Option Nat) (src : Option Nat) (size : Nat) :
    outcome (Int × Option Nat × Option Nat) :=
  match ref_elem, ref_elem_size, src with
  | some e, some n, some p =>
    if size ≠ sizeof_pointer then .ret (STAT_ERROR, some e, some n)
    else if LOGW_evaluates = true ∧ frame_at p = false then .fault
    else .ret (STAT_SUCCESS, some p, some size)
  | e, n, _ => .ret (STAT_ERROR, e, n)

/-! ## Monotonic time (`mp_time.c`) -/

/-- The clock id `CLOCK_MONOTONIC` of the target (Linux). -/
abbrev CLOCK_MONOTONIC : Int := 1
/-- The clock id `CLOCK_MONOTONIC_COARSE` of the target (Linux). -/
abbrev CLOCK_MONOTONIC_COARSE : Int := 6

/-- Conversion to `uint64_t`. -/
def to_uint64_t (x : Int) : Nat := (x % 18446744073709551616).toNat

/-- The macro `GETTIME(CLOCKID, TS)`: the function plugged in `mp_clock_gettime` gives, for a
clock id, its return code and the `timespec` it stores (`none`: it stores nothing); when the
code is not 0 both members of `TS` are set to 0. -/
def GETTIME (mp_clock_gettime : Int → Int × Option (Int × Int)) (clockid : Int)
    (ts : Int × Int) : Int × Int :=
  if (mp_clock_gettime clockid).1 = 0 then
    match (mp_clock_gettime clockid).2 with
    | some stored => stored
    | none => ts
  else (0, 0)

/-- The macro `TIMESPEC2MSEC(RET_MSEC, TS)`, in `uint64_t` arithmetic: the members `tv_sec` and
`tv_nsec` are converted before the product and the quotient are taken. -/
def TIMESPEC2MSEC (ts : Int × Int) : Nat :=
  (to_uint64_t ts.1 * 1000 % 18446744073709551616 + to_uint64_t ts.2 / 1000000) %
    18446744073709551616

/-- The macro `MP_GETTIME_GENERIC(CLOCKID, TIMESPEC2MSEC, LOGCTX)`. -/
def MP_GETTIME_GENERIC (mp_clock_gettime : Int → Int × Option (Int × Int)) (clockid : Int) :
    Nat :=
  TIMESPEC2MSEC (GETTIME mp_clock_gettime clockid (0, 0))

/-- The function `mp_gettime_monotcoarse_msecs`. -/
def mp_gettime_monotcoarse_msecs (mp_clock_gettime : Int → Int × Option (Int × Int)) : Nat :=
  MP_GETTIME_GENERIC mp_clock_gettime CLOCK_MONOTONIC_COARSE

/-- The function `mp_gettime_monot_msecs`. -/
def mp_gettime_monot_msecs (mp_clock_gettime : Int → Int × Option (Int × Int)) : Nat :=
  MP_GETTIME_GENERIC mp_clock_gettime CLOCK_MONOTONIC

/-! ## The logger (`mp_log.c`) -/

/-- The value of `MP_LOG_ENUM_MAX` (`mp_log.h`); the levels are `MP_LOG_DBG = 0`,
`MP_LOG_WAR = 1` and `MP_LOG_ERR = 2`. -/
abbrev MP_LOG_ENUM_MAX : Nat := 3

/-- The structure `mp_log_ctx_t`: the opaque pointer and the external callback, given by their
values (`none`: no callback). -/
structure mp_log_ctx_t where
  opaque_logger_ctx : Nat
  mp_log_ext_trace_fxn : Option Nat
deriving DecidableEq

/-- What a call of `mp_log_trace` does to the outside: bytes written to the standard output, a
flush of it, or a call of the external callback with its arguments. -/
inductive log_event where
  | printf : List Nat → log_event
  | fflush : log_event
  | ext_trace : Nat → Nat → Nat → List Nat → Int → List Nat → List Nat → List Int → log_event
deriving DecidableEq

/-- The table `mp_log_color`: the escape sequence of each level. -/
def mp_log_color (mp_log_level : Nat) : List Nat :=
  match mp_log_level with
  | 0 => [27, 91, 48, 109]
  | 1 => [27, 91, 51, 51, 109]
  | _ => [27, 91, 49, 59, 51, 49, 109]

/-- The bytes that `%d` gives for an `int`. -/
def decimal (line : Int) : List Nat := (toString line).toList.map Char.toNat

/-- The function `mp_log_trace` (lines 75-102): the events of the call, in order. The level is
an unsigned value (the enumeration has no negative member); the three strings are `none` when
the pointer is null; `vprintf` gives the bytes that the library writes for a format and its
arguments. -/
def mp_log_trace (vprintf : List Nat → List Int → List Nat) (mp_log_ctx : Option mp_log_ctx_t)
    (mp_log_level : Nat) (file_name : Option (List Nat)) (line : Int)
    (func_name : Option (List Nat)) (format : Option (List Nat)) (args : List Int) :
    List log_event :=
  match mp_log_ctx, file_name, func_name, format with
  | some ctx, some file, some func, some fmt =>
    if mp_log_level ≥ MP_LOG_ENUM_MAX then []
    else
      match ctx.mp_log_ext_trace_fxn with
      | none =>
        [.printf (mp_log_color mp_log_level ++ file ++ [45] ++ decimal line ++ [58, 32]),
          .printf (vprintf fmt args), .printf (mp_log_color 0), .fflush]
      | some fxn =>
        [.ext_trace fxn ctx.opaque_logger_ctx mp_log_level file line func fmt args]
  | _, _, _, _ => []

/-! ## Example inputs of the other modules -/

/-- A processor interface with both strings (`"dec"`, `"codec"`) and six callbacks, the two
hooks being absent. -/
def proc_if_sample : proc_if_t := ⟨some [100, 101, 99], some [99, 111, 100, 101, 99],
  4198400, 4198464, 4198528, 4198592, 4198656, 4198720, 0, 0⟩

/-- The name space in which one object is linked, under `"/fifo_shm_utest"`, holding the FIFO
`shm_one_frame`. -/
def names_one : shm_namespace :=
  shm_link (fun _ => none) [47, 102, 105, 102, 111, 95, 115, 104, 109, 95, 117, 116, 101, 115, 116]
    shm_one_frame

/-- A platform on which every call of `mp_shm_fifo_create` succeeds. -/
def create_calm : create_platform :=
  ⟨true, true, true, true, true, true, true, true, true, true, true⟩

/-! ## Example segments with exhaustive checking -/

/-- A FIFO with exhaustive checking and a pool of 25 bytes that is empty, both indices at offset
0, while the pool holds the byte 5 at offset 0: the size field of the free slot at the input
index reads 5. -/
def shm_stale : mp_shm_fifo_ctx_t :=
  { mp_shm_fifo_create_init [47, 102] 25 SHM_FIFO_EXHAUST_CTRL with
    buf := fun a => if a = 0 then 5 else 0 }

/-! ## The deadline of `mp_shm_fifo_pull` -/

/-- Conversion to `int64_t` (signed 64 bits, two's complement). -/
def to_int64_t (x : Int) : Int := to_ssize_t x

/-- The absolute deadline `ts_tout` that pull computes from the reading `ts_curr` of the clock
(lines 485-493), in `int64_t` arithmetic. The C product and sums overflow beyond the range of
`int64_t`, which the language leaves undefined; the model takes the two's-complement wrap of the
target there. The C operators `/` and `%` truncate towards zero. -/
def pull_deadline (tout_usecs : Int) (ts_curr : Int × Int) : Int × Int :=
  let curr_nsec :=
    to_int64_t (to_int64_t (to_int64_t ts_curr.1 * 1000000000) + to_int64_t ts_curr.2)
  let tout_nsec := to_int64_t (curr_nsec + to_int64_t (to_int64_t tout_usecs * 1000))
  (Int.tdiv tout_nsec 1000000000, Int.tmod tout_nsec 1000000000)

/-- The variable `ts_tout` of pull when the wait loop is reached (lines 462 and 477-497), for
what a call of `clock_gettime(CLOCK_MONOTONIC)` would give (`none`: failure). The result is
`none` when the call jumps to `end` because the clock failed. With a negative time-out the
variable keeps its initial value and the clock is not called. The deadline goes to
`pthread_cond_timedwait` only, whose returns are the wake-ups that the platform hands to the
call. -/
def pull_ts_tout (clock_gettime : Option (Int × Int)) (tout_usecs : Int) : Option (Int × Int) :=
  if tout_usecs ≥ 0 then
    match clock_gettime with
    | none => none
    | some ts_curr => some (pull_deadline tout_usecs ts_curr)
  else some (0, 0)

/-! ## Example names and platforms of `mp_shm_fifo_create` -/

/-- The name `"/fifo_shm_utest"` of the tests. -/
def fifo_shm_utest : List Nat :=
  [47, 102, 105, 102, 111, 95, 115, 104, 109, 95, 117, 116, 101, 115, 116]

/-- A name of 254 characters: `/` followed by 253 characters `a`. -/
def name_254 : List Nat := 47 :: List.replicate 253 97

/-- A platform on which the sizing of the new object (`ftruncate`) fails and every other call
succeeds. -/
def create_no_ftruncate : create_platform :=
  ⟨true, false, true, true, true, true, true, true, true, true, true⟩

/-- A platform on which the mapping of the new object (`mmap`) fails and every other call
succeeds. -/
def create_no_mmap : create_platform :=
  ⟨true, true, false, true, true, true, true, true, true, true, true⟩

/-- A platform on which the initialization of the mutex fails and every other call succeeds. -/
def create_no_mutex : create_platform :=
  ⟨true, true, true, true, false, true, true, true, true, true, true⟩

/-- The name space in which no object is linked. -/
def names_none : shm_namespace := fun _ => none

/-! ## Example segments in pools beyond the range of the `int` cursors -/

/-- The FIFO `shm_edge_turned` after a push of the 11 bytes `1 .. 11`: the frame of 19 bytes is
fragmented, 11 bytes at the end of the pool and 8 bytes at its start. -/
def shm_edge_wrapped : mp_shm_fifo_ctx_t :=
  shm_after_push (mp_shm_fifo_push calm (some shm_edge_turned)
    (some [1, 2, 3, 4, 5, 6, 7, 8, 9, 10, 11]) 11) shm_edge_turned

/-- The FIFO `shm_edgex_wrapped` after the pull of its element: empty again. -/
def shm_edgex_pulled : mp_shm_fifo_ctx_t :=
  shm_after_pull (mp_shm_fifo_pull calm (some shm_edgex_wrapped) (some none) (some 0) (-1))
    shm_edgex_wrapped

/-- A fresh blocking FIFO with a pool of `2^32 + 64` bytes and exhaustive checking. -/
def shm_hugex : mp_shm_fifo_ctx_t :=
  mp_shm_fifo_create_init [47, 102] 4294967360 SHM_FIFO_EXHAUST_CTRL

/-- The FIFO `shm_hugex` after a push of `huge_payload`: the frame takes the bytes `0 .. 2^32`
of the pool, and the input index, which should be `2^32`, is 0. -/
def shm_hugex_one : mp_shm_fifo_ctx_t :=
  { shm_hugex with
    buf := fun a =>
      if 0 ≤ a ∧ a < 0 + 8 then (size_bytes 4294967288).getD (a - 0) 0
      else if 0 + 8 ≤ a ∧ a < 0 + 8 + 4294967288 then
        (List.take 4294967288 huge_payload).getD (a - (0 + 8)) 0
      else shm_hugex.buf a
    slots_used_cnt := 1
    buf_level := 4294967296
    input_byte_idx := 0 }

/-! ## A non-blocking segment with a negative level -/

/-- The FIFO `shm_underrun` once `mp_shm_fifo_set_blocking_mode` has made it non-blocking
(`do_block = 0`): the level is still -25. -/
def shm_underrun_nb : mp_shm_fifo_ctx_t :=
  { shm_underrun with flags := shm_underrun.flags ||| SHM_FIFO_O_NONBLOCK }

/-! # Theorems -/

/-! ## Integer conversions -/

theorem to_size_t_cast (n : Nat) (h : n < 18446744073709551616) : to_size_t (n : Int) = n := by
  unfold to_size_t; omega

theorem to_size_t_nonneg (x : Int) (h0 : 0 ≤ x) (h : x < 18446744073709551616) :
    to_size_t x = x.toNat := by
  unfold to_size_t; omega

theorem to_int_cast (n : Nat) (h : n < 2147483648) : to_int (n : Int) = n := by
  unfold to_int; omega

theorem to_ssize_t_cast (n : Nat) (h : n < 9223372036854775808) : to_ssize_t (n : Int) = n := by
  unfold to_ssize_t; omega

theorem to_size_t_lt (x : Int) : to_size_t x < 18446744073709551616 := by
  unfold to_size_t; omega

/-! ## The wait loops -/

theorem push_wait_nonblock (P E : Nat) (ws : List cond_wake) (s : mp_shm_fifo_ctx_t)
    (h : nonblock s) : push_wait P E ws s = some s := by
  cases ws <;> simp [push_wait, push_must_wait, h]

theorem push_wait_mem (P E : Nat) (ws : List cond_wake) (s s1 : mp_shm_fifo_ctx_t)
    (h : push_wait P E ws s = some s1) : s1 = s ∨ ∃ w, w ∈ ws ∧ s1 = w.shm := by
  induction ws generalizing s with
  | nil =>
    simp only [push_wait] at h
    split at h
    · cases h
    · left; exact (Option.some.inj h).symm
  | cons w ws ih =>
    simp only [push_wait] at h
    split at h
    · rcases ih w.shm h with h1 | ⟨v, hv, h1⟩
      · right; exact ⟨w, List.mem_cons_self _ _, h1⟩
      · right; exact ⟨v, List.mem_cons_of_mem _ hv, h1⟩
    · left; exact (Option.some.inj h).symm

theorem push_wait_done (P E : Nat) (ws : List cond_wake) (s s1 : mp_shm_fifo_ctx_t)
    (h : push_wait P E ws s = some s1) : ¬ push_must_wait s1 P E := by
  induction ws generalizing s with
  | nil =>
    simp only [push_wait] at h
    split at h
    · cases h
    · cases h; assumption
  | cons w ws ih =>
    simp only [push_wait] at h
    split at h
    · exact ih w.shm h
    · cases h; assumption

theorem pull_wait_nonblock (tout : Int) (ws : List cond_wake) (s : mp_shm_fifo_ctx_t)
    (h : nonblock s) : pull_wait tout ws s = .go s := by
  cases ws <;> simp [pull_wait, pull_must_wait, h]

theorem pull_wait_mem (tout : Int) (ws : List cond_wake) (s s1 : mp_shm_fifo_ctx_t)
    (h : pull_wait_shm (pull_wait tout ws s) = some s1) : s1 = s ∨ ∃ w, w ∈ ws ∧ s1 = w.shm := by
  induction ws generalizing s with
  | nil =>
    simp only [pull_wait] at h
    split at h
    · cases h
    · left; exact (Option.some.inj h).symm
  | cons w ws ih =>
    simp only [pull_wait] at h
    split at h
    · split at h
      · split at h
        · right; exact ⟨w, List.mem_cons_self _ _, (Option.some.inj h).symm⟩
        · rcases ih w.shm h with h1 | ⟨v, hv, h1⟩
          · right; exact ⟨w, List.mem_cons_self _ _, h1⟩
          · right; exact ⟨v, List.mem_cons_of_mem _ hv, h1⟩
      · split at h
        · rcases ih w.shm h with h1 | ⟨v, hv, h1⟩
          · right; exact ⟨w, List.mem_cons_self _ _, h1⟩
          · right; exact ⟨v, List.mem_cons_of_mem _ hv, h1⟩
        · right; exact ⟨w, List.mem_cons_self _ _, (Option.some.inj h).symm⟩
    · left; exact (Option.some.inj h).symm

/-! ## Calls that do not succeed -/

theorem push_after_wait_failure (pf : platform) (s : mp_shm_fifo_ctx_t) (e : List Nat)
    (n P E : Nat) (c : Int) (s1 : mp_shm_fifo_ctx_t)
    (h : push_after_wait pf s e n P E = .ret (c, s1)) (hc : c ≠ MP_SUCCESS) : s1 = s := by
  unfold push_after_wait at h
  split at h
  · cases h; rfl
  · split at h
    · cases h
    · cases h
    · cases h; rfl
    · cases h; exact absurd rfl hc

theorem push_locked_failure (pf : platform) (s : mp_shm_fifo_ctx_t) (e : List Nat) (n P E : Nat)
    (c : Int) (s1 : mp_shm_fifo_ctx_t) (h : push_locked pf s e n P E = .ret (c, s1))
    (hc : c ≠ MP_SUCCESS) : s1 = s ∨ ∃ w, w ∈ pf.wakes ∧ s1 = w.shm := by
  unfold push_locked at h
  split at h
  · cases h
  · rename_i s2 hw
    have hm := push_wait_mem P E pf.wakes s s2 hw
    rw [push_after_wait_failure pf s2 e n P E c s1 h hc]
    exact hm

theorem pull_after_wait_failure (pf : platform) (s : mp_shm_fifo_ctx_t)
    (c : Int) (e : Option (List Nat)) (n : Nat) (s1 : mp_shm_fifo_ctx_t)
    (h : pull_after_wait pf s = .ret (c, e, n, s1))
    (hc : c ≠ MP_SUCCESS) : e = none ∧ n = 0 ∧ s1 = s := by
  unfold pull_after_wait at h
  split at h
  · cases h; exact ⟨rfl, rfl, rfl⟩
  · split at h
    · cases h
    · cases h
    · cases h; exact ⟨rfl, rfl, rfl⟩
    · cases h; exact absurd rfl hc

theorem pull_locked_failure (pf : platform) (s : mp_shm_fifo_ctx_t) (tout : Int)
    (c : Int) (e : Option (List Nat)) (n : Nat) (s1 : mp_shm_fifo_ctx_t)
    (h : pull_locked pf s tout = .ret (c, e, n, s1))
    (hc : c ≠ MP_SUCCESS) : e = none ∧ n = 0 ∧ (s1 = s ∨ ∃ w, w ∈ pf.wakes ∧ s1 = w.shm) := by
  unfold pull_locked at h
  split at h
  · cases h; exact ⟨rfl, rfl, Or.inl rfl⟩
  · split at h
    · cases h
    · rename_i s2 hw
      have hm := pull_wait_mem tout pf.wakes s s2 (by rw [hw]; rfl)
      cases h
      exact ⟨rfl, rfl, hm⟩
    · rename_i s2 hw
      have hm := pull_wait_mem tout pf.wakes s s2 (by rw [hw]; rfl)
      cases h
      exact ⟨rfl, rfl, hm⟩
    · rename_i s2 hw
      have hm := pull_wait_mem tout pf.wakes s s2 (by rw [hw]; rfl)
      obtain ⟨h1, h2, h3⟩ := pull_after_wait_failure pf s2 c e n s1 h hc
      rw [h3]
      exact ⟨h1, h2, hm⟩

theorem push_wait_skip (P E : Nat) (ws : List cond_wake) (s : mp_shm_fifo_ctx_t)
    (h : ¬ push_must_wait s P E) : push_wait P E ws s = some s := by
  cases ws <;> simp [push_wait, h]

theorem pull_wait_skip (tout : Int) (ws : List cond_wake) (s : mp_shm_fifo_ctx_t)
    (h : ¬ pull_must_wait s) : pull_wait tout ws s = .go s := by
  cases ws <;> simp [pull_wait, h]

theorem buf_load_length (src : List Nat) (off n : Int) (l : List Nat)
    (h : buf_load src off n = some l) : l.length = n.toNat := by
  unfold buf_load at h
  split at h
  · cases h
    rw [List.length_take, List.length_drop]
    omega
  · cases h

theorem size_bytes_length (x : Nat) : (size_bytes x).length = 8 := by
  simp [size_bytes]

theorem pull_wait_expiry (tout_usecs : Int) (s : mp_shm_fifo_ctx_t) (early late : List cond_wake)
    (w : cond_wake) (hmw : pull_must_wait s) (ht : 0 ≤ tout_usecs)
    (hearly : ∀ v, v ∈ early → v.ret_code ≠ ETIMEDOUT ∧ v.shm = s)
    (hexp : w.ret_code = ETIMEDOUT) (hshm : w.shm = s) :
    pull_wait tout_usecs (early ++ w :: late) s = .timed_out s := by
  induction early with
  | nil =>
    simp only [List.nil_append, pull_wait]
    rw [if_pos hmw, if_pos (by omega), if_pos hexp, hshm]
  | cons v vs ih =>
    have hv := hearly v (List.mem_cons_self _ _)
    simp only [List.cons_append, pull_wait]
    rw [if_pos hmw, if_pos (by omega), if_neg hv.1, hv.2]
    exact ih (fun u hu => hearly u (List.mem_cons_of_mem _ hu))

/-! ## Positions modulo the pool size -/

theorem mod_wrap (x P : Nat) (hx : x < 2 * P) : x % P = if x < P then x else x - P := by
  split
  · exact Nat.mod_eq_of_lt (by assumption)
  · rw [Nat.mod_eq_sub_mod (by omega)]
    exact Nat.mod_eq_of_lt (by omega)

theorem ring_bytes_length (buf : Nat → Nat) (P o n : Nat) : (ring_bytes buf P o n).length = n := by
  simp [ring_bytes]

theorem ring_bytes_getD (buf : Nat → Nat) (P o n j : Nat) (hj : j < n) :
    (ring_bytes buf P o n).getD j 0 = buf ((o + j) % P) := by
  simp [ring_bytes, List.getD, hj]

theorem list_eq_of_getD (l1 l2 : List Nat) (hl : l1.length = l2.length)
    (h : ∀ j, j < l1.length → l1.getD j 0 = l2.getD j 0) : l1 = l2 := by
  apply List.ext_getElem hl
  intro j h1 h2
  have := h j h1
  rw [List.getD_eq_getElem _ _ h1, List.getD_eq_getElem _ _ h2] at this
  exact this

theorem ring_bytes_eq (buf : Nat → Nat) (P o : Nat) (F : List Nat)
    (h : ∀ j, j < F.length → buf ((o + j) % P) = F.getD j 0) :
    ring_bytes buf P o F.length = F := by
  apply list_eq_of_getD _ _ (ring_bytes_length _ _ _ _)
  intro j hj
  rw [ring_bytes_length] at hj
  rw [ring_bytes_getD _ _ _ _ _ hj, h j hj]

theorem ring_bytes_at (buf : Nat → Nat) (P o : Nat) (F : List Nat)
    (h : ring_bytes buf P o F.length = F) (j : Nat) (hj : j < F.length) :
    buf ((o + j) % P) = F.getD j 0 := by
  rw [← ring_bytes_getD buf P o F.length j hj, h]

theorem ring_bytes_congr (buf buf1 : Nat → Nat) (P o n : Nat)
    (h : ∀ j, j < n → buf1 ((o + j) % P) = buf ((o + j) % P)) :
    ring_bytes buf1 P o n = ring_bytes buf P o n := by
  unfold ring_bytes
  apply List.map_congr_left
  intro j hj
  exact h j (List.mem_range.mp hj)

theorem ring_bytes_add (buf : Nat → Nat) (P o a b : Nat) :
    ring_bytes buf P o (a + b) = ring_bytes buf P o a ++ ring_bytes buf P ((o + a) % P) b := by
  apply list_eq_of_getD
  · simp [ring_bytes_length]
  · intro j hj
    rw [ring_bytes_length] at hj
    rw [ring_bytes_getD _ _ _ _ _ hj]
    by_cases hja : j < a
    · rw [List.getD_append _ _ _ _ (by rw [ring_bytes_length]; exact hja),
        ring_bytes_getD _ _ _ _ _ hja]
    · rw [List.getD_append_right _ _ _ _ (by rw [ring_bytes_length]; omega), ring_bytes_length,
        ring_bytes_getD _ _ _ _ _ (by omega), Nat.mod_add_mod]
      congr 2
      omega

/-! ## The size field -/

theorem size_value_size_bytes (m : Nat) (hm : m < 9223372036854775808) :
    size_value (size_bytes m) = m := by
  have : (size_bytes m).foldr (fun b acc => b + 256 * acc) 0 = m := by
    simp only [size_bytes, List.range, List.range.loop, List.map, List.foldr]
    norm_num
    omega
  unfold size_value
  rw [this]
  exact to_ssize_t_cast m hm

theorem size_value_zeros (hdr : List Nat) (h : ∀ j, j < hdr.length → hdr.getD j 0 = 0) :
    size_value hdr = 0 := by
  have : hdr.foldr (fun b acc => b + 256 * acc) 0 = 0 := by
    induction hdr with
    | nil => rfl
    | cons b bs ih =>
      have hb := h 0 (by simp)
      simp at hb
      have := ih (fun j hj => by
        have := h (j + 1) (by simp; omega)
        simpa using this)
      simp [List.foldr, hb, this]
  unfold size_value
  rw [this]
  rfl

/-! ## The byte loops of pull -/

theorem ring_next_cast (i P : Nat) (hi : i < P) (hP : P ≤ 2147483647) :
    ring_next (i : Int) P = (((i + 1) % P : Nat) : Int) := by
  unfold ring_next
  have h1 : to_int ((i : Int) + 1) = ((i + 1 : Nat) : Int) := by
    unfold to_int; omega
  rw [h1, to_size_t_cast _ (by omega)]
  have : (i + 1) % P < P := Nat.mod_lt _ (by omega)
  exact to_int_cast _ (by omega)

theorem ring_load_cast (buf : Nat → Nat) (P : Nat) (hP : P ≤ 2147483647) (n i : Nat)
    (hi : i < P) :
    ring_load buf P n (i : Int) = some (ring_bytes buf P i n, (((i + n) % P : Nat) : Int)) := by
  induction n generalizing i with
  | zero =>
    simp [ring_load, ring_bytes, Nat.mod_eq_of_lt hi]
  | succ n ih =>
    have hlt : (i + 1) % P < P := Nat.mod_lt _ (by omega)
    simp only [ring_load]
    rw [if_pos (by omega), ring_next_cast i P hi hP, ih _ hlt]
    simp only [Int.toNat_ofNat, Option.some.injEq, Prod.mk.injEq]
    constructor
    · rw [show n + 1 = 1 + n by omega, ring_bytes_add]
      simp [ring_bytes, List.range_succ, Nat.mod_eq_of_lt hi]
    · rw [Nat.mod_add_mod]
      congr 2
      omega

theorem ring_zero_cast (P : Nat) (hP : P ≤ 2147483647) (n i : Nat) (hi : i < P)
    (buf : Nat → Nat) :
    ∃ buf1, ring_zero P n (i : Int) buf = some buf1 ∧
      (∀ j, j < n → buf1 ((i + j) % P) = 0) ∧
      (∀ a, (∀ j, j < n → a ≠ (i + j) % P) → buf1 a = buf a) := by
  induction n generalizing i buf with
  | zero =>
    exact ⟨buf, rfl, fun j hj => absurd hj (by omega), fun a _ => rfl⟩
  | succ n ih =>
    have hlt : (i + 1) % P < P := Nat.mod_lt _ (by omega)
    obtain ⟨buf1, h1, hA, hB⟩ := ih _ hlt (fun a => if a = i then 0 else buf a)
    refine ⟨buf1, ?_, ?_, ?_⟩
    · simp only [ring_zero]
      rw [if_pos (by omega), ring_next_cast i P hi hP]
      simpa using h1
    · intro j hj
      cases j with
      | zero =>
        rw [Nat.add_zero, Nat.mod_eq_of_lt hi]
        by_cases hex : ∃ k, k < n ∧ i = ((i + 1) % P + k) % P
        · obtain ⟨k, hk, hik⟩ := hex
          rw [hik]
          exact hA k hk
        · rw [hB i (fun k hk hik => hex ⟨k, hk, hik⟩)]
          simp
      | succ k =>
        have := hA k (by omega)
        rw [Nat.mod_add_mod] at this
        rw [← this]
        congr 2
        omega
    · intro a ha
      have h0 := ha 0 (by omega)
      rw [Nat.add_zero, Nat.mod_eq_of_lt hi] at h0
      rw [hB a (fun k hk hak => ha (k + 1) (by omega) (by
        rw [hak, Nat.mod_add_mod]; congr 1; omega))]
      simp [h0]

/-! ## Bulk accesses -/

theorem pool_load_cast (buf : Nat → Nat) (P o n : Nat) (h : o + n ≤ P) :
    pool_load buf P (o : Int) n = some (ring_bytes buf P o n) := by
  unfold pool_load ring_bytes
  rw [if_pos (by omega)]
  simp only [Int.toNat_ofNat, Option.some.injEq]
  apply List.map_congr_left
  intro j hj
  rw [Nat.mod_eq_of_lt (by have := List.mem_range.mp hj; omega)]

theorem pool_memcpy_cast (buf : Nat → Nat) (P o : Nat) (src : List Nat) (h : o + src.length ≤ P) :
    pool_memcpy buf P (o : Int) src =
      some (fun a => if o ≤ a ∧ a < o + src.length then src.getD (a - o) 0 else buf a) := by
  unfold pool_memcpy
  rw [if_pos (by omega)]
  simp

theorem pool_memset_cast (buf : Nat → Nat) (P o n : Nat) (h : o + n ≤ P) :
    pool_memset buf P (o : Int) n =
      some (fun a => if o ≤ a ∧ a < o + n then 0 else buf a) := by
  unfold pool_memset
  rw [if_pos (by omega)]
  simp

/-! ## The copy of push -/

theorem size_add_small (a b : Nat) (h : a + b < 18446744073709551616) : size_add a b = a + b := by
  unfold size_add; omega

theorem size_add_le (a b : Nat) : size_add a b ≤ a + b := by
  unfold size_add; omega

theorem frame_length (p : List Nat) : (frame p).length = 8 + p.length := by
  simp [frame, size_bytes_length]

theorem getD_take (l : List Nat) (k j : Nat) (h : j < k) : (l.take k).getD j 0 = l.getD j 0 := by
  simp [List.getD, List.getElem?_take, h]

theorem getD_drop (l : List Nat) (k j : Nat) : (l.drop k).getD j 0 = l.getD (k + j) 0 := by
  simp [List.getD, List.getElem?_drop]

theorem buf_load_whole (e : List Nat) (n : Nat) (h : n ≤ e.length) :
    buf_load e 0 (n : Int) = some (e.take n) := by
  unfold buf_load
  rw [if_pos (by omega)]
  simp

theorem buf_load_bound (e : List Nat) (n : Nat) (l : List Nat)
    (h : buf_load e 0 (n : Int) = some l) : n ≤ e.length := by
  unfold buf_load at h
  split at h
  · omega
  · cases h

theorem push_copy_slot_bounds (s : mp_shm_fifo_ctx_t) (e : List Nat) (n P i : Nat)
    (buf1 : Nat → Nat) (hidx : s.input_byte_idx = (i : Int))
    (h : push_copy_slot s e n P = .ret (some buf1)) : n ≤ e.length ∧ i + 8 + n ≤ P := by
  unfold push_copy_slot at h
  split at h
  · cases h
  · rename_i payload hp
    have hn := buf_load_bound e n payload hp
    rw [buf_load_whole e n hn] at hp
    cases hp
    refine ⟨hn, ?_⟩
    by_contra hc
    have : pool_memcpy s.buf P (s.input_byte_idx + sizeof_shm_fifo_elem_ctx_t) (e.take n)
        = none := by
      unfold pool_memcpy
      rw [if_neg]
      rw [hidx, List.length_take]
      simp only [sizeof_shm_fifo_elem_ctx_t]
      omega
    rw [this] at h
    cases h

theorem push_copy_slot_eq (s : mp_shm_fifo_ctx_t) (e : List Nat) (n P i : Nat)
    (hidx : s.input_byte_idx = (i : Int)) (hn : n ≤ e.length) (hfit : i + 8 + n ≤ P) :
    push_copy_slot s e n P = .ret (some (fun a =>
      if i ≤ a ∧ a < i + 8 then (size_bytes n).getD (a - i) 0
      else if i + 8 ≤ a ∧ a < i + 8 + n then (e.take n).getD (a - (i + 8)) 0 else s.buf a)) := by
  unfold push_copy_slot
  rw [buf_load_whole e n hn]
  simp only []
  have h8 : s.input_byte_idx + (sizeof_shm_fifo_elem_ctx_t : Int) = ((i + 8 : Nat) : Int) := by
    rw [hidx]; simp [sizeof_shm_fifo_elem_ctx_t]
  have hlen : (e.take n).length = n := by rw [List.length_take]; omega
  rw [h8, pool_memcpy_cast _ _ _ _ (by rw [hlen]; omega)]
  simp only []
  rw [hidx, pool_memcpy_cast _ _ _ _ (by rw [size_bytes_length]; omega)]
  simp only [size_bytes_length, hlen]

theorem ring_written_slot (buf : Nat → Nat) (e : List Nat) (n P i : Nat) (hn : n ≤ e.length)
    (hfit : i + 8 + n ≤ P) :
    ring_written buf (fun a =>
      if i ≤ a ∧ a < i + 8 then (size_bytes n).getD (a - i) 0
      else if i + 8 ≤ a ∧ a < i + 8 + n then (e.take n).getD (a - (i + 8)) 0 else buf a)
      P i (frame (e.take n)) := by
  have hlen : (e.take n).length = n := by rw [List.length_take]; omega
  constructor
  · intro j hj
    rw [frame_length, hlen] at hj
    rw [Nat.mod_eq_of_lt (by omega)]
    simp only [frame, hlen]
    by_cases hj8 : j < 8
    · rw [if_pos (by omega), List.getD_append _ _ _ _ (by rw [size_bytes_length]; exact hj8)]
      congr 1; omega
    · rw [if_neg (by omega), if_pos (by omega),
        List.getD_append_right _ _ _ _ (by rw [size_bytes_length]; omega), size_bytes_length]
      congr 1; omega
  · intro a ha
    rw [frame_length, hlen] at ha
    have hout : ¬ (i ≤ a ∧ a < i + 8 + n) := by
      intro hin
      exact ha (a - i) (by omega) (by rw [Nat.mod_eq_of_lt (by omega)]; omega)
    simp only []
    rw [if_neg (by omega), if_neg (by omega)]

theorem buf_load_cast (src : List Nat) (off n : Nat) (h : off + n ≤ src.length) :
    buf_load src (off : Int) (n : Int) = some ((src.drop off).take n) := by
  unfold buf_load
  rw [if_pos (by omega)]
  simp

theorem push_copy_fragments_bounds (s : mp_shm_fifo_ctx_t) (e : List Nat)
    (n P : Nat) (f0 f1 : Int) (buf1 : Nat → Nat)
    (h : push_copy_fragments s e n P f0 f1 = .ret (some buf1)) : n ≤ e.length := by
  unfold push_copy_fragments at h
  split at h
  · cases h
  · rename_i payload hp
    exact buf_load_bound e n payload hp

theorem push_copy_fragmented_bounds (pf : platform) (s : mp_shm_fifo_ctx_t) (e : List Nat)
    (n P E : Nat) (buf1 : Nat → Nat)
    (h : push_copy_fragmented pf s e n P E = .ret (some buf1)) :
    n ≤ e.length ∧ 8 + n ≤ E ∧ pf.malloc E = true := by
  unfold push_copy_fragmented at h
  split at h
  · cases h
  · split at h
    · cases h
    · rename_i hm
      split at h
      · cases h
      · rename_i hE
        simp only [sizeof_shm_fifo_elem_ctx_t] at hE
        exact ⟨push_copy_fragments_bounds _ _ _ _ _ _ _ h, by omega, by simpa using hm⟩

theorem push_fragm0_size_cast (s : mp_shm_fifo_ctx_t) (P i : Nat)
    (hidx : s.input_byte_idx = (i : Int)) (hi : i < P) (hP : P ≤ 2147483647) :
    push_fragm0_size s P = ((P - i : Nat) : Int) := by
  unfold push_fragm0_size
  rw [hidx]; unfold to_int size_sub to_size_t; omega

theorem push_fragm1_size_cast (s : mp_shm_fifo_ctx_t) (P E i : Nat)
    (hidx : s.input_byte_idx = (i : Int)) (hi : i < P) (hP : P ≤ 2147483647) (hE : E ≤ P)
    (hwrap : P < i + E) :
    push_fragm1_size s P E = ((i + E - P : Nat) : Int) := by
  unfold push_fragm1_size
  rw [push_fragm0_size_cast s P i hidx hi hP]
  unfold to_int size_sub to_size_t; omega

theorem push_copy_fragments_eq (s : mp_shm_fifo_ctx_t) (e : List Nat)
    (n P i : Nat) (hidx : s.input_byte_idx = (i : Int)) (hi : i < P)
    (hn : n ≤ e.length) (hfit : 8 + n ≤ P) (hwrap : P < i + (8 + n)) :
    push_copy_fragments s e n P ((P - i : Nat) : Int) ((i + (8 + n) - P : Nat) : Int) =
      .ret (some (fun a =>
        if a < i + (8 + n) - P then (frame (e.take n)).getD (P - i + a) 0
        else if i ≤ a ∧ a < P then (frame (e.take n)).getD (a - i) 0 else s.buf a)) := by
  have hlen : (e.take n).length = n := by rw [List.length_take]; omega
  have hfr : frame (e.take n) = size_bytes n ++ e.take n := by unfold frame; rw [hlen]
  rw [hfr]
  unfold push_copy_fragments
  rw [buf_load_whole e n hn]
  simp only []
  have hfl : (size_bytes n ++ e.take n).length = 8 + n := by
    rw [List.length_append, size_bytes_length, hlen]
  have hb0 : buf_load (size_bytes n ++ e.take n) 0 ((P - i : Nat) : Int) =
      some ((size_bytes n ++ e.take n).take (P - i)) :=
    buf_load_whole _ _ (by rw [hfl]; omega)
  rw [hb0]
  simp only []
  rw [buf_load_cast _ _ _ (by rw [hfl]; omega)]
  simp only []
  have hl0 : ((size_bytes n ++ e.take n).take (P - i)).length = P - i := by
    rw [List.length_take, hfl]; omega
  have hl1 : (((size_bytes n ++ e.take n).drop (P - i)).take (i + (8 + n) - P)).length =
      i + (8 + n) - P := by
    rw [List.length_take, List.length_drop, hfl]; omega
  rw [hidx, pool_memcpy_cast _ _ _ _ (by rw [hl0]; omega)]
  simp only []
  have h00 : pool_memcpy (fun a => if i ≤ a ∧ a < i + ((size_bytes n ++ e.take n).take
      (P - i)).length then ((size_bytes n ++ e.take n).take (P - i)).getD (a - i) 0 else s.buf a)
      P 0 (((size_bytes n ++ e.take n).drop (P - i)).take (i + (8 + n) - P)) = _ :=
    pool_memcpy_cast _ P 0 _ (by rw [hl1]; omega)
  rw [h00]
  simp only [hl0, hl1]
  congr 2
  funext a
  by_cases ha : a < i + (8 + n) - P
  · rw [if_pos (by omega), if_pos ha, Nat.sub_zero, getD_take _ _ _ ha, getD_drop]
  · rw [if_neg (by omega), if_neg ha]
    by_cases hb : i ≤ a ∧ a < P
    · rw [if_pos (by omega), if_pos hb, getD_take _ _ _ (by omega)]
    · rw [if_neg (by omega), if_neg hb]

theorem push_copy_fragmented_eq (pf : platform) (s : mp_shm_fifo_ctx_t) (e : List Nat)
    (n P i : Nat) (hidx : s.input_byte_idx = (i : Int)) (hi : i < P) (hP : P ≤ 2147483647)
    (hn : n ≤ e.length) (hfit : 8 + n ≤ P) (hwrap : P < i + (8 + n))
    (hm : pf.malloc (8 + n) = true) :
    push_copy_fragmented pf s e n P (8 + n) = .ret (some (fun a =>
      if a < i + (8 + n) - P then (frame (e.take n)).getD (P - i + a) 0
      else if i ≤ a ∧ a < P then (frame (e.take n)).getD (a - i) 0 else s.buf a)) := by
  unfold push_copy_fragmented
  rw [push_fragm0_size_cast s P i hidx hi hP, push_fragm1_size_cast s P _ i hidx hi hP hfit hwrap]
  rw [if_neg (by omega), if_neg (by simp [hm]),
    if_neg (by simp only [sizeof_shm_fifo_elem_ctx_t]; omega)]
  exact push_copy_fragments_eq s e n P i hidx hi hn hfit hwrap

theorem ring_written_fragmented (buf : Nat → Nat) (e : List Nat) (n P i : Nat) (hi : i < P)
    (hn : n ≤ e.length) (hfit : 8 + n ≤ P) (hwrap : P < i + (8 + n)) :
    ring_written buf (fun a =>
      if a < i + (8 + n) - P then (frame (e.take n)).getD (P - i + a) 0
      else if i ≤ a ∧ a < P then (frame (e.take n)).getD (a - i) 0 else buf a)
      P i (frame (e.take n)) := by
  have hlen : (e.take n).length = n := by rw [List.length_take]; omega
  constructor
  · intro j hj
    rw [frame_length, hlen] at hj
    rw [mod_wrap _ _ (by omega)]
    simp only []
    by_cases hjw : i + j < P
    · rw [if_pos hjw, if_neg (by omega), if_pos (by omega)]
      congr 1; omega
    · rw [if_neg hjw, if_pos (by omega)]
      congr 1; omega
  · intro a ha
    rw [frame_length, hlen] at ha
    simp only []
    have h1 : ¬ a < i + (8 + n) - P := by
      intro hin
      exact ha (P - i + a) (by omega) (by rw [mod_wrap _ _ (by omega), if_neg (by omega)]; omega)
    have h2 : ¬ (i ≤ a ∧ a < P) := by
      intro hin
      exact ha (a - i) (by omega) (by rw [mod_wrap _ _ (by omega), if_pos (by omega)]; omega)
    rw [if_neg h1, if_neg h2]

theorem push_copy_success (pf : platform) (s : mp_shm_fifo_ctx_t) (e : List Nat) (n P E i : Nat)
    (buf1 : Nat → Nat) (hidx : s.input_byte_idx = (i : Int)) (hi : i < P) (hP : P ≤ 2147483647)
    (hE : E = size_add sizeof_shm_fifo_elem_ctx_t n) (hEP : E ≤ P)
    (h : push_copy pf s e n P E = .ret (some buf1)) :
    n ≤ e.length ∧ E = 8 + n ∧ ring_written s.buf buf1 P i (frame (e.take n)) := by
  have hEle : E ≤ 8 + n := by rw [hE]; exact size_add_le _ _
  have hcond : size_add (to_size_t s.input_byte_idx) E = i + E := by
    rw [hidx, to_size_t_cast _ (by omega), size_add_small _ _ (by omega)]
  unfold push_copy at h
  rw [hcond] at h
  by_cases hw : i + E > P
  · rw [if_pos hw] at h
    obtain ⟨hn, hE8, hm⟩ := push_copy_fragmented_bounds pf s e n P E buf1 h
    have hEq : E = 8 + n := by omega
    subst hEq
    rw [push_copy_fragmented_eq pf s e n P i hidx hi hP hn hEP (by omega) hm] at h
    cases h
    exact ⟨hn, rfl, ring_written_fragmented s.buf e n P i hi hn hEP (by omega)⟩
  · rw [if_neg hw] at h
    have hslot : push_copy_slot s e n P = .ret (some buf1) := by
      split at h
      · split at h
        · cases h
        · split at h
          · cases h
          · exact h
      · exact h
    obtain ⟨hn, hfit⟩ := push_copy_slot_bounds s e n P i buf1 hidx hslot
    rw [push_copy_slot_eq s e n P i hidx hn hfit] at hslot
    cases hslot
    have hEq : E = 8 + n := by
      rw [hE, size_add_small _ _ (by simp only [sizeof_shm_fifo_elem_ctx_t]; omega)]
      rfl
    exact ⟨hn, hEq, ring_written_slot s.buf e n P i hn hfit⟩

/-! ## The queue held by a segment -/

theorem frames_bytes_append (q : List (List Nat)) (p : List Nat) :
    frames_bytes (q ++ [p]) = frames_bytes q ++ frame p := by
  induction q with
  | nil => simp [frames_bytes]
  | cons a q ih => simp [frames_bytes, ih]

theorem frames_bytes_count (q : List (List Nat)) : q.length ≤ (frames_bytes q).length := by
  induction q with
  | nil => simp
  | cons a q ih =>
    simp only [frames_bytes, List.length_cons, List.length_append, frame_length]
    omega

theorem holds_input_idx (s : mp_shm_fifo_ctx_t) (q : List (List Nat)) (h : holds s q) :
    ∃ o i : Nat, s.output_byte_idx = (o : Int) ∧ o < s.shm_pool_size ∧
      s.input_byte_idx = (i : Int) ∧ i < s.shm_pool_size ∧
      i = (o + (frames_bytes q).length) % s.shm_pool_size := by
  have h1 := h.out_lo
  have h2 := h.out_hi
  refine ⟨s.output_byte_idx.toNat, (s.output_byte_idx.toNat + (frames_bytes q).length) %
    s.shm_pool_size, by omega, by omega, h.in_idx, Nat.mod_lt _ h.pool_pos, rfl⟩

theorem push_after_wait_holds (pf : platform) (s s1 : mp_shm_fifo_ctx_t) (q : List (List Nat))
    (e : List Nat) (n E : Nat) (c : Int) (hq : holds s q)
    (hE : E = size_add sizeof_shm_fifo_elem_ctx_t n) (hEP : E ≤ s.shm_pool_size) (hn : 0 < n)
    (hroom : size_add (to_size_t s.buf_level) E ≤ s.shm_pool_size)
    (h : push_after_wait pf s e n s.shm_pool_size E = .ret (c, s1)) :
    (c ≠ MP_SUCCESS ∧ s1 = s) ∨
    (c = MP_SUCCESS ∧ n ≤ e.length ∧ E = 8 + n ∧ holds s1 (q ++ [e.take n]) ∧
      s1.flags = s.flags ∧ s1.flag_exit = s.flag_exit ∧ s1.shm_pool_size = s.shm_pool_size ∧
      s1.output_byte_idx = s.output_byte_idx ∧
      ring_written s.buf s1.buf s.shm_pool_size s.input_byte_idx.toNat (frame (e.take n))) := by
  obtain ⟨o, i, ho, hoP, hi, hiP, hio⟩ := holds_input_idx s q hq
  have hP := hq.pool_int
  have hlev := hq.level
  have hL := hq.level_le
  unfold push_after_wait at h
  rw [if_neg (fun hx => by omega)] at h
  split at h
  · cases h
  · cases h
  · cases h; exact Or.inl ⟨by decide, rfl⟩
  · rename_i buf1 hcopy
    cases h
    right
    obtain ⟨hne, hE8, hw⟩ := push_copy_success pf s e n s.shm_pool_size E i buf1 hi hiP hP hE hEP
      hcopy
    have hlen : (e.take n).length = n := by rw [List.length_take]; omega
    have hlevel : size_add (to_size_t s.buf_level) E = (frames_bytes q).length + E := by
      rw [hlev, to_size_t_cast _ (by omega), size_add_small _ _ (by omega)]
    rw [hlevel] at hroom
    have hitn : s.input_byte_idx.toNat = i := by omega
    refine ⟨rfl, hne, hE8, ?_, rfl, rfl, rfl, rfl, by rw [hitn]; exact hw⟩
    have hfb : (frames_bytes (q ++ [e.take n])).length = (frames_bytes q).length + E := by
      rw [frames_bytes_append, List.length_append, frame_length, hlen, hE8]
    constructor
    · exact hq.pool_pos
    · exact hP
    · exact hq.out_lo
    · exact hq.out_hi
    · dsimp only
      rw [hlevel, hfb]
      exact to_ssize_t_cast _ (by omega)
    · rw [hfb]; exact hroom
    · dsimp only
      rw [hi, to_size_t_cast _ (by omega), size_add_small _ _ (by omega), hfb]
      have : (i + E) % s.shm_pool_size < s.shm_pool_size := Nat.mod_lt _ hq.pool_pos
      rw [to_int_cast _ (by omega), hio, Nat.mod_add_mod]
      have : s.output_byte_idx.toNat = o := by omega
      rw [this, Nat.add_assoc]
    · dsimp only
      rw [hq.slots]
      have := frames_bytes_count q
      rw [List.length_append, List.length_singleton,
        show (q.length : Int) + 1 = ((q.length + 1 : Nat) : Int) by omega]
      exact to_ssize_t_cast _ (by omega)
    · intro p hp
      rcases List.mem_append.mp hp with h1 | h1
      · exact hq.sizes p h1
      · rw [List.mem_singleton] at h1; rw [h1, hlen]; exact hn
    · have hon : s.output_byte_idx.toNat = o := by omega
      dsimp only
      rw [hon, hfb, frames_bytes_append, ring_bytes_add]
      have hcont := hq.content
      rw [hon] at hcont
      congr 1
      · rw [← hcont]
        rw [ring_bytes_length]
        apply ring_bytes_congr
        intro j hj
        apply hw.2
        intro k hk
        rw [frame_length, hlen] at hk
        rw [hio, Nat.mod_add_mod, mod_wrap (o + j) _ (by omega),
          mod_wrap (o + (frames_bytes q).length + k) _ (by omega)]
        split_ifs <;> omega
      · rw [← hio]
        have : E = (frame (e.take n)).length := by rw [frame_length, hlen, hE8]
        rw [this]
        exact ring_bytes_eq _ _ _ _ hw.1

/-! ## The read of pull -/

theorem sizeof_val : sizeof_shm_fifo_elem_ctx_t = 8 := rfl

theorem holds_head (s : mp_shm_fifo_ctx_t) (p : List Nat) (q : List (List Nat))
    (h : holds s (p :: q)) :
    ∃ o : Nat, s.output_byte_idx = (o : Int) ∧ o < s.shm_pool_size ∧
      8 + p.length + (frames_bytes q).length ≤ s.shm_pool_size ∧ 0 < p.length ∧
      ring_bytes s.buf s.shm_pool_size o 8 = size_bytes p.length ∧
      ring_bytes s.buf s.shm_pool_size ((o + 8) % s.shm_pool_size) p.length = p ∧
      ring_bytes s.buf s.shm_pool_size ((o + (8 + p.length)) % s.shm_pool_size)
        (frames_bytes q).length = frames_bytes q := by
  have h1 := h.out_lo
  have h2 := h.out_hi
  have hL := h.level_le
  have hc := h.content
  have hlen : (frames_bytes (p :: q)).length = 8 + p.length + (frames_bytes q).length := by
    simp only [frames_bytes, List.length_append, frame_length]
  rw [hlen] at hL hc
  refine ⟨s.output_byte_idx.toNat, by omega, by omega, hL, h.sizes p (List.mem_cons_self _ _), ?_⟩
  generalize s.output_byte_idx.toNat = o at hc
  rw [ring_bytes_add, ring_bytes_add] at hc
  simp only [frames_bytes, frame, List.append_assoc] at hc
  have e1 := List.append_inj hc (by rw [ring_bytes_length, size_bytes_length])
  have e2 := List.append_inj e1.2 (by rw [ring_bytes_length])
  exact ⟨e1.1, e2.1, e2.2⟩

theorem pull_copy_fragmented_eq (pf : platform) (s : mp_shm_fifo_ctx_t) (p : List Nat) (o : Nat)
    (hP : s.shm_pool_size ≤ 2147483647) (ho : s.output_byte_idx = (o : Int))
    (hoP : o < s.shm_pool_size) (hm : 0 < p.length) (hfit : 8 + p.length ≤ s.shm_pool_size)
    (hhdr : ring_bytes s.buf s.shm_pool_size o 8 = size_bytes p.length)
    (hpay : ring_bytes s.buf s.shm_pool_size ((o + 8) % s.shm_pool_size) p.length = p) :
    (pf.malloc p.length = false ∧ pull_copy_fragmented pf s = .ret none) ∨
    (pf.malloc p.length = true ∧ ∃ buf1, pull_copy_fragmented pf s =
        .ret (some (p, p.length, buf1)) ∧
      (¬ exhaust_ctrl s → buf1 = s.buf) ∧
      (exhaust_ctrl s → ring_written s.buf buf1 s.shm_pool_size o
        (List.replicate (8 + p.length) 0))) := by
  have hsz : to_size_t (size_value (size_bytes p.length)) = p.length := by
    rw [size_value_size_bytes _ (by omega), to_size_t_cast _ (by omega)]
  have hlt : (o + 8) % s.shm_pool_size < s.shm_pool_size := Nat.mod_lt _ (by omega)
  unfold pull_copy_fragmented
  rw [sizeof_val]
  rw [ho, ring_load_cast _ _ hP _ _ hoP, hhdr]
  simp only [hsz]
  rw [if_neg (by omega)]
  cases hmal : pf.malloc p.length with
  | false => left; simp
  | true =>
    right
    refine ⟨rfl, ?_⟩
    rw [if_neg (by simp), ring_load_cast _ _ hP _ _ hlt, hpay]
    simp only []
    by_cases hx : exhaust_ctrl s
    · rw [if_pos hx]
      obtain ⟨buf1, hz, hA, hB⟩ := ring_zero_cast s.shm_pool_size hP
        (size_add 8 p.length) o hoP s.buf
      rw [hz]
      have hsa : size_add 8 p.length = 8 + p.length := size_add_small _ _ (by omega)
      rw [hsa] at hA hB
      refine ⟨buf1, rfl, fun hnx => absurd hx hnx, fun _ => ⟨?_, ?_⟩⟩
      · intro j hj
        rw [List.length_replicate] at hj
        rw [hA j hj]
        simp [List.getD, hj]
      · intro a ha
        rw [List.length_replicate] at ha
        exact hB a ha
    · rw [if_neg hx]
      exact ⟨s.buf, rfl, fun _ => rfl, fun h => absurd h hx⟩

theorem pull_copy_slot_eq (pf : platform) (s : mp_shm_fifo_ctx_t) (p : List Nat) (o : Nat)
    (hP : s.shm_pool_size ≤ 2147483647) (ho : s.output_byte_idx = (o : Int))
    (hm : 0 < p.length) (hfit : o + 8 + p.length ≤ s.shm_pool_size)
    (hhdr : ring_bytes s.buf s.shm_pool_size o 8 = size_bytes p.length)
    (hpay : ring_bytes s.buf s.shm_pool_size ((o + 8) % s.shm_pool_size) p.length = p) :
    (pf.malloc p.length = false ∧ pull_copy_slot pf s = .ret none) ∨
    (pf.malloc p.length = true ∧ ∃ buf1, pull_copy_slot pf s =
        .ret (some (p, p.length, buf1)) ∧
      (¬ exhaust_ctrl s → buf1 = s.buf) ∧
      (exhaust_ctrl s → ring_written s.buf buf1 s.shm_pool_size o
        (List.replicate (8 + p.length) 0))) := by
  have hsz : to_size_t (size_value (size_bytes p.length)) = p.length := by
    rw [size_value_size_bytes _ (by omega), to_size_t_cast _ (by omega)]
  unfold pull_copy_slot
  rw [sizeof_val]
  rw [ho, pool_load_cast _ _ _ _ (by omega)]
  simp only [hhdr, hsz]
  rw [if_neg (by omega)]
  cases hmal : pf.malloc p.length with
  | false => left; simp
  | true =>
    right
    refine ⟨rfl, ?_⟩
    rw [if_neg (by simp), show (o : Int) + ((8 : Nat) : Int) = ((o + 8 : Nat) : Int) by omega,
      pool_load_cast _ _ _ _ (by omega)]
    rw [Nat.mod_eq_of_lt (by omega)] at hpay
    rw [hpay]
    simp only []
    have hsa : size_add 8 p.length = 8 + p.length := size_add_small _ _ (by omega)
    by_cases hx : exhaust_ctrl s
    · rw [if_pos hx, hsa, pool_memset_cast _ _ _ _ (by omega)]
      refine ⟨_, rfl, fun hnx => absurd hx hnx, fun _ => ⟨?_, ?_⟩⟩
      · intro j hj
        rw [List.length_replicate] at hj
        rw [Nat.mod_eq_of_lt (by omega)]
        simp only []
        rw [if_pos (by omega)]
        simp [List.getD, hj]
      · intro a ha
        rw [List.length_replicate] at ha
        simp only []
        rw [if_neg]
        intro hin
        exact ha (a - o) (by omega) (by rw [Nat.mod_eq_of_lt (by omega)]; omega)
    · rw [if_neg hx]
      exact ⟨s.buf, rfl, fun _ => rfl, fun h => absurd h hx⟩

theorem pull_copy_eq (pf : platform) (s : mp_shm_fifo_ctx_t) (p : List Nat) (o : Nat)
    (hP : s.shm_pool_size ≤ 2147483647) (ho : s.output_byte_idx = (o : Int))
    (hoP : o < s.shm_pool_size) (hm : 0 < p.length) (hfit : 8 + p.length ≤ s.shm_pool_size)
    (hhdr : ring_bytes s.buf s.shm_pool_size o 8 = size_bytes p.length)
    (hpay : ring_bytes s.buf s.shm_pool_size ((o + 8) % s.shm_pool_size) p.length = p) :
    (pf.malloc p.length = false ∧ pull_copy pf s = .ret none) ∨
    (pf.malloc p.length = true ∧ ∃ buf1, pull_copy pf s = .ret (some (p, p.length, buf1)) ∧
      (¬ exhaust_ctrl s → buf1 = s.buf) ∧
      (exhaust_ctrl s → ring_written s.buf buf1 s.shm_pool_size o
        (List.replicate (8 + p.length) 0))) := by
  have hsz : to_size_t (size_value (size_bytes p.length)) = p.length := by
    rw [size_value_size_bytes _ (by omega), to_size_t_cast _ (by omega)]
  have hc1 : size_add (to_size_t s.output_byte_idx) 8 = o + 8 := by
    rw [ho, to_size_t_cast _ (by omega), size_add_small _ _ (by omega)]
  unfold pull_copy
  rw [sizeof_val]
  rw [hc1]
  by_cases h1 : o + 8 > s.shm_pool_size
  · rw [if_pos h1]
    exact pull_copy_fragmented_eq pf s p o hP ho hoP hm hfit hhdr hpay
  · rw [if_neg h1, ho, pool_load_cast _ _ _ _ (by omega)]
    simp only [hhdr, hsz]
    rw [if_neg (by omega), size_add_small _ _ (by omega)]
    by_cases h2 : o + 8 + p.length > s.shm_pool_size
    · rw [if_pos h2]
      exact pull_copy_fragmented_eq pf s p o hP ho hoP hm hfit hhdr hpay
    · rw [if_neg h2]
      exact pull_copy_slot_eq pf s p o hP ho hm (by omega) hhdr hpay

theorem pull_after_wait_holds (pf : platform) (s s1 : mp_shm_fifo_ctx_t) (p : List Nat)
    (q : List (List Nat)) (c : Int) (e : Option (List Nat)) (n : Nat) (hq : holds s (p :: q))
    (h : pull_after_wait pf s = .ret (c, e, n, s1)) :
    (c ≠ MP_SUCCESS ∧ pf.malloc p.length = false ∧ e = none ∧ n = 0 ∧ s1 = s) ∨
    (c = MP_SUCCESS ∧ pf.malloc p.length = true ∧ e = some p ∧ n = p.length ∧ holds s1 q ∧
      s1.flags = s.flags ∧ s1.flag_exit = s.flag_exit ∧ s1.shm_pool_size = s.shm_pool_size ∧
      s1.input_byte_idx = s.input_byte_idx ∧
      (¬ exhaust_ctrl s → s1.buf = s.buf) ∧
      (exhaust_ctrl s → ring_written s.buf s1.buf s.shm_pool_size s.output_byte_idx.toNat
        (List.replicate (8 + p.length) 0))) := by
  obtain ⟨o, ho, hoP, hfit, hm, hhdr, hpay, hrest⟩ := holds_head s p q hq
  have hP := hq.pool_int
  have hlev := hq.level
  have hlen : (frames_bytes (p :: q)).length = 8 + p.length + (frames_bytes q).length := by
    simp only [frames_bytes, List.length_append, frame_length]
  rw [hlen] at hlev
  have hon : s.output_byte_idx.toNat = o := by omega
  unfold pull_after_wait at h
  rw [if_neg (fun hx => by omega)] at h
  rcases pull_copy_eq pf s p o hP ho hoP hm (by omega) hhdr hpay with
    ⟨hmal, hc⟩ | ⟨hmal, buf1, hc, hnx, hx⟩
  · rw [hc] at h
    cases h
    exact Or.inl ⟨by decide, hmal, rfl, rfl, rfl⟩
  · rw [hc] at h
    cases h
    right
    refine ⟨rfl, hmal, rfl, rfl, ?_, rfl, rfl, rfl, rfl, hnx, by rw [hon]; exact hx⟩
    have hsa : size_add sizeof_shm_fifo_elem_ctx_t p.length = 8 + p.length := by
      rw [sizeof_val]; exact size_add_small _ _ (by omega)
    have hout : size_add (size_add (to_size_t s.output_byte_idx) sizeof_shm_fifo_elem_ctx_t)
        p.length = o + (8 + p.length) := by
      rw [ho, sizeof_val, to_size_t_cast _ (by omega), size_add_small o 8 (by omega),
        size_add_small _ _ (by omega)]
      omega
    have hlt : (o + (8 + p.length)) % s.shm_pool_size < s.shm_pool_size :=
      Nat.mod_lt _ hq.pool_pos
    constructor
    · exact hq.pool_pos
    · exact hP
    · dsimp only
      rw [hout, to_int_cast _ (by omega)]
      omega
    · dsimp only
      rw [hout, to_int_cast _ (by omega)]
      omega
    · dsimp only
      rw [hsa, hlev, to_size_t_cast _ (by omega),
        show ((8 + p.length + (frames_bytes q).length : Nat) : Int) - ((8 + p.length : Nat) : Int)
          = (((frames_bytes q).length : Nat) : Int) by omega]
      exact to_ssize_t_cast _ (by omega)
    · exact le_trans (by omega) hfit
    · dsimp only
      rw [hout, to_int_cast _ (by omega), Int.toNat_ofNat, Nat.mod_add_mod, hq.in_idx, hon, hlen]
      congr 2
      omega
    · dsimp only
      rw [hq.slots, List.length_cons,
        show ((q.length + 1 : Nat) : Int) - 1 = ((q.length : Nat) : Int) by omega]
      have := frames_bytes_count q
      exact to_ssize_t_cast _ (by omega)
    · intro p1 hp1
      exact hq.sizes p1 (List.mem_cons_of_mem _ hp1)
    · dsimp only
      rw [hout, to_int_cast _ (by omega), Int.toNat_ofNat]
      rw [← hrest]
      rw [ring_bytes_length]
      apply ring_bytes_congr
      intro j hj
      by_cases hxc : exhaust_ctrl s
      · apply (hx hxc).2
        intro k hk
        rw [List.length_replicate] at hk
        rw [Nat.mod_add_mod, mod_wrap (o + (8 + p.length) + j) _ (by omega),
          mod_wrap (o + k) _ (by omega)]
        split_ifs <;> omega
      · rw [hnx hxc]

/-! ## The calls as a whole -/

theorem push_cases (pf : platform) (s : mp_shm_fifo_ctx_t) (e : List Nat) (n : Nat) (c : Int)
    (h : Option mp_shm_fifo_ctx_t) (hr : mp_shm_fifo_push pf (some s) (some e) n = .ret (c, h)) :
    (c = MP_ERROR ∧ h = some s) ∨
    (0 < n ∧ size_add sizeof_shm_fifo_elem_ctx_t n ≤ s.shm_pool_size ∧ ∃ s2 s1,
      push_wait s.shm_pool_size (size_add sizeof_shm_fifo_elem_ctx_t n) pf.wakes s = some s2 ∧
      push_after_wait pf s2 e n s.shm_pool_size (size_add sizeof_shm_fifo_elem_ctx_t n) =
        .ret (c, s1) ∧ h = some s1) := by
  simp only [mp_shm_fifo_push] at hr
  split at hr
  · cases hr; exact Or.inl ⟨rfl, rfl⟩
  · rename_i hn
    split at hr
    · cases hr; exact Or.inl ⟨rfl, rfl⟩
    · rename_i hE
      right
      refine ⟨by omega, by omega, ?_⟩
      unfold push_locked at hr
      split at hr
      · rename_i c1 s1 hl
        cases hr
        split at hl
        · cases hl
        · rename_i s2 hw
          exact ⟨s2, s1, hw, hl, rfl⟩
      · cases hr
      · cases hr

theorem pull_cases (pf : platform) (s : mp_shm_fifo_ctx_t) (e0 : Option (List Nat)) (n0 : Nat)
    (tout : Int) (r : pull_result)
    (hr : mp_shm_fifo_pull pf (some s) (some e0) (some n0) tout = .ret r) :
    (r.end_code ≠ MP_SUCCESS ∧ r.ref_elem = some none ∧ r.ref_elem_size = some 0 ∧
      (r.shm = some s ∨ ∃ w, w ∈ pf.wakes ∧ r.shm = some w.shm)) ∨
    (∃ s2 e n s1, pull_wait tout pf.wakes s = .go s2 ∧
      pull_after_wait pf s2 = .ret (r.end_code, e, n, s1) ∧ r.ref_elem = some e ∧
      r.ref_elem_size = some n ∧ r.shm = some s1) := by
  simp only [mp_shm_fifo_pull] at hr
  split at hr
  · rename_i c e n s1 hl
    cases hr
    unfold pull_locked at hl
    split at hl
    · cases hl; exact Or.inl ⟨by dsimp only; decide, rfl, rfl, Or.inl rfl⟩
    · split at hl
      · cases hl
      · rename_i s2 hw
        have hm := pull_wait_mem tout pf.wakes s s2 (by rw [hw]; rfl)
        cases hl
        left
        refine ⟨by dsimp only; decide, rfl, rfl, ?_⟩
        rcases hm with h1 | ⟨w, hw1, h1⟩
        · exact Or.inl (by rw [h1])
        · exact Or.inr ⟨w, hw1, by rw [h1]⟩
      · rename_i s2 hw
        have hm := pull_wait_mem tout pf.wakes s s2 (by rw [hw]; rfl)
        cases hl
        left
        refine ⟨by dsimp only; decide, rfl, rfl, ?_⟩
        rcases hm with h1 | ⟨w, hw1, h1⟩
        · exact Or.inl (by rw [h1])
        · exact Or.inr ⟨w, hw1, by rw [h1]⟩
      · rename_i s2 hw
        exact Or.inr ⟨s2, e, n, s1, hw, hl, rfl, rfl, rfl⟩
  · cases hr
  · cases hr

theorem pull_wait_go (tout : Int) (ws : List cond_wake) (s s2 : mp_shm_fifo_ctx_t)
    (h : pull_wait tout ws s = .go s2) :
    ¬ pull_must_wait s2 ∧ (s2 = s ∨ ∃ w, w ∈ ws ∧ s2 = w.shm) := by
  refine ⟨?_, pull_wait_mem tout ws s s2 (by rw [h]; rfl)⟩
  induction ws generalizing s with
  | nil =>
    simp only [pull_wait] at h
    split at h
    · cases h
    · cases h; assumption
  | cons w ws ih =>
    simp only [pull_wait] at h
    split at h
    · split at h
      · split at h
        · cases h
        · exact ih w.shm h
      · split at h
        · exact ih w.shm h
        · cases h
    · cases h; assumption

theorem push_success_room (pf : platform) (s s1 : mp_shm_fifo_ctx_t) (e : List Nat) (n P E : Nat)
    (h : push_after_wait pf s e n P E = .ret (MP_SUCCESS, s1)) (hw : ¬ push_must_wait s P E)
    (hx : s.flag_exit = 0) : size_add (to_size_t s.buf_level) E ≤ P := by
  by_contra hc
  have hfull : size_add (to_size_t s.buf_level) E > P := by omega
  by_cases hnb : nonblock s
  · unfold push_after_wait at h
    rw [if_pos ⟨hfull, hnb⟩] at h
    cases h
  · exact hw ⟨hfull, hnb, hx⟩

theorem push_after_wait_frame (pf : platform) (s s1 : mp_shm_fifo_ctx_t) (e : List Nat)
    (n P E : Nat) (c : Int) (h : push_after_wait pf s e n P E = .ret (c, s1)) :
    s1.flags = s.flags ∧ s1.flag_exit = s.flag_exit ∧ s1.shm_pool_size = s.shm_pool_size ∧
      s1.output_byte_idx = s.output_byte_idx ∧ s1.shm_fifo_name = s.shm_fifo_name := by
  unfold push_after_wait at h
  split at h
  · cases h; exact ⟨rfl, rfl, rfl, rfl, rfl⟩
  · split at h
    · cases h
    · cases h
    · cases h; exact ⟨rfl, rfl, rfl, rfl, rfl⟩
    · cases h; exact ⟨rfl, rfl, rfl, rfl, rfl⟩

theorem pull_after_wait_frame (pf : platform) (s s1 : mp_shm_fifo_ctx_t) (c : Int)
    (e : Option (List Nat)) (n : Nat) (h : pull_after_wait pf s = .ret (c, e, n, s1)) :
    s1.flags = s.flags ∧ s1.flag_exit = s.flag_exit ∧ s1.shm_pool_size = s.shm_pool_size ∧
      s1.input_byte_idx = s.input_byte_idx ∧ s1.shm_fifo_name = s.shm_fifo_name := by
  unfold pull_after_wait at h
  split at h
  · cases h; exact ⟨rfl, rfl, rfl, rfl, rfl⟩
  · split at h
    · cases h
    · cases h
    · cases h; exact ⟨rfl, rfl, rfl, rfl, rfl⟩
    · cases h; exact ⟨rfl, rfl, rfl, rfl, rfl⟩

theorem holds_init (name : List Nat) (P flags : Nat) (h0 : 0 < P) (hP : P ≤ 2147483647) :
    holds (mp_shm_fifo_create_init name P flags) [] := by
  constructor
  · exact h0
  · exact hP
  · exact le_refl _
  · show (0 : Int) < (P : Int)
    omega
  · rfl
  · exact Nat.zero_le _
  · show (0 : Int) = (((0 + 0) % P : Nat) : Int)
    simp
  · rfl
  · intro p hp; cases hp
  · rfl

theorem pull_after_wait_empty (pf : platform) (s : mp_shm_fifo_ctx_t) (h : holds s [])
    (hx : s.flag_exit = 0) (hw : ¬ pull_must_wait s) :
    pull_after_wait pf s = .ret (MP_EAGAIN, none, 0, s) := by
  have hl : s.buf_level = 0 := h.level
  have hnb : nonblock s := by
    by_contra hnb
    exact hw ⟨by omega, hnb, hx⟩
  unfold pull_after_wait
  rw [if_pos ⟨by omega, hnb⟩]

theorem run_calls_order (calls : List fifo_call) (s s1 : mp_shm_fifo_ctx_t)
    (q : List (List Nat)) (outs : List (List Nat × Nat)) (hq : holds s q) (hx : s.flag_exit = 0)
    (h : run_calls calls s = some (outs, s1)) :
    outs = ((q ++ pushed calls).take (pulls calls)).map (fun p => (p, p.length)) ∧
      pulls calls ≤ q.length + (pushed calls).length ∧
      holds s1 ((q ++ pushed calls).drop (pulls calls)) ∧ s1.flag_exit = 0 := by
  induction calls generalizing s q outs with
  | nil =>
    simp only [run_calls, Option.some.injEq, Prod.mk.injEq] at h
    obtain ⟨h1, h2⟩ := h
    subst h1 h2
    simp [pushed, pulls, hq, hx]
  | cons call cs ih =>
    cases call with
    | push m p =>
      simp only [run_calls] at h
      split at h
      · rename_i c s2 hr
        split at h
        · rename_i hc
          subst hc
          rcases push_cases _ _ _ _ _ _ hr with ⟨hc, _⟩ | ⟨hn, hE, s3, s4, hw, ha, hs⟩
          · exact absurd hc (by decide)
          · rw [← Option.some.inj hs] at ha
            have hs3 : s3 = s := by
              rcases push_wait_mem _ _ _ _ _ hw with h1 | ⟨w, hw1, _⟩
              · exact h1
              · cases hw1
            rw [hs3] at ha hw
            have hroom := push_success_room _ _ _ _ _ _ _ ha (push_wait_done _ _ _ _ _ hw) hx
            rcases push_after_wait_holds _ _ _ q _ _ _ _ hq rfl hE hn hroom ha with
              ⟨hc, _⟩ | ⟨_, _, _, hq1, _, hx1, _⟩
            · exact absurd rfl hc
            · rw [List.take_length] at hq1
              obtain ⟨ho, hle, hh, hxx⟩ := ih s2 (q ++ [p]) outs hq1 (by rw [hx1]; exact hx) h
              simp only [pushed, pulls]
              rw [List.append_assoc, List.singleton_append] at ho hh
              refine ⟨ho, ?_, hh, hxx⟩
              rw [List.length_append, List.length_singleton] at hle
              simp only [List.length_cons]
              omega
        · cases h
      · cases h
    | pull m clk tout =>
      simp only [run_calls] at h
      split at h
      · rename_i c e n s2 hr
        split at h
        · rename_i hc
          subst hc
          rcases pull_cases _ _ _ _ _ _ hr with ⟨hc, _⟩ | ⟨s3, e1, n1, s4, hw, ha, he, hn, hs⟩
          · exact absurd rfl hc
          · dsimp only at ha he hn hs
            rw [← Option.some.inj hs, ← Option.some.inj he, ← Option.some.inj hn] at ha
            obtain ⟨hnw, hm⟩ := pull_wait_go _ _ _ _ hw
            have hs3 : s3 = s := by
              rcases hm with h1 | ⟨w, hw1, _⟩
              · exact h1
              · cases hw1
            rw [hs3] at ha hnw
            cases q with
            | nil =>
              rw [pull_after_wait_empty _ _ hq hx hnw] at ha
              cases ha
            | cons p q =>
              rcases pull_after_wait_holds _ _ _ p q _ _ _ hq ha with
                ⟨hc, _⟩ | ⟨_, _, he, hn, hq1, _, hx1, _⟩
              · exact absurd rfl hc
              · cases he
                subst hn
                split at h
                · rename_i es s5 hrun
                  simp only [Option.some.injEq, Prod.mk.injEq] at h
                  obtain ⟨h1, h2⟩ := h
                  subst h1 h2
                  obtain ⟨ho, hle, hh, hxx⟩ := ih s2 q es hq1 (by rw [hx1]; exact hx) hrun
                  simp only [pushed, pulls]
                  refine ⟨?_, ?_, ?_, hxx⟩
                  · rw [ho]
                    simp
                  · simp only [List.length_cons]
                    omega
                  · simpa using hh
                · cases h
        · cases h
      · cases h

/-! ## Free space under exhaustive checking -/

theorem getD_zeros (n j : Nat) : (List.replicate n 0).getD j 0 = 0 := by
  by_cases h : j < n
  · rw [List.getD_eq_getElem _ _ (by simpa using h)]; simp
  · rw [List.getD_eq_default _ _ (by simpa using h)]

theorem free_is_null_push (s s1 : mp_shm_fifo_ctx_t) (q : List (List Nat)) (F : List Nat)
    (p : List Nat) (hq : holds s q) (hf : free_is_null s) (hq1 : holds s1 (q ++ [p]))
    (hF : F.length = 8 + p.length)
    (hfl : s1.flags = s.flags) (hP : s1.shm_pool_size = s.shm_pool_size)
    (ho : s1.output_byte_idx = s.output_byte_idx)
    (hw : ring_written s.buf s1.buf s.shm_pool_size s.input_byte_idx.toNat F) :
    free_is_null s1 := by
  intro hx i hi
  have hx0 : exhaust_ctrl s := by unfold exhaust_ctrl at hx ⊢; rw [← hfl]; exact hx
  have hlen : (frames_bytes (q ++ [p])).length = (frames_bytes q).length + (8 + p.length) := by
    rw [frames_bytes_append, List.length_append, frame_length]
  have hL1 := hq1.level_le
  have hl1 := hq1.level
  have hi1 := hq1.in_idx
  have hl := hq.level
  have hi0 := hq.in_idx
  have hlo := hq.out_lo
  have hhi := hq.out_hi
  rw [hlen] at hL1 hl1 hi1
  rw [hP, ho] at hi1
  rw [hP] at hL1 hi ⊢
  generalize hoo : s.output_byte_idx.toNat = o at hi0 hi1
  have hoP : o < s.shm_pool_size := by omega
  rw [hl1] at hi
  rw [hi1, Int.toNat_ofNat, Nat.mod_add_mod]
  have hfree := hf hx0 (8 + p.length + i) (by rw [hl]; omega)
  rw [hi0, Int.toNat_ofNat, Nat.mod_add_mod] at hfree
  rw [hi0, Int.toNat_ofNat] at hw
  rw [hw.2, ← hfree]
  · congr 2; omega
  · intro k hk
    rw [hF] at hk
    rw [Nat.mod_add_mod, mod_wrap (o + ((frames_bytes q).length + (8 + p.length)) + i) _ (by omega),
      mod_wrap (o + (frames_bytes q).length + k) _ (by omega)]
    split_ifs <;> omega

theorem free_is_null_pull (s s1 : mp_shm_fifo_ctx_t) (p : List Nat) (q : List (List Nat))
    (hq : holds s (p :: q)) (hf : free_is_null s) (hq1 : holds s1 q)
    (hfl : s1.flags = s.flags) (hP : s1.shm_pool_size = s.shm_pool_size)
    (hi : s1.input_byte_idx = s.input_byte_idx)
    (hw : exhaust_ctrl s → ring_written s.buf s1.buf s.shm_pool_size s.output_byte_idx.toNat
      (List.replicate (8 + p.length) 0)) :
    free_is_null s1 := by
  intro hx i hi1
  have hx0 : exhaust_ctrl s := by unfold exhaust_ctrl at hx ⊢; rw [← hfl]; exact hx
  have hw := hw hx0
  have hlen : (frames_bytes (p :: q)).length = 8 + p.length + (frames_bytes q).length := by
    simp only [frames_bytes, List.length_append, frame_length]
  have hL := hq.level_le
  have hl := hq.level
  have hi0 := hq.in_idx
  have hl1 := hq1.level
  have hlo := hq.out_lo
  have hhi := hq.out_hi
  rw [hlen] at hL hl hi0
  rw [hP, hl1] at hi1
  rw [hP, hi]
  generalize hoo : s.output_byte_idx.toNat = o at hi0 hw
  have hoP : o < s.shm_pool_size := by omega
  rw [hi0, Int.toNat_ofNat, Nat.mod_add_mod]
  by_cases hold : i < s.shm_pool_size - (8 + p.length + (frames_bytes q).length)
  · have hfree := hf hx0 i (by rw [hl]; omega)
    rw [hi0, Int.toNat_ofNat, Nat.mod_add_mod] at hfree
    rw [hw.2, hfree]
    intro k hk
    rw [List.length_replicate] at hk
    rw [mod_wrap (o + (8 + p.length + (frames_bytes q).length) + i) _ (by omega),
      mod_wrap (o + k) _ (by omega)]
    split_ifs <;> omega
  · have hz := hw.1 (8 + p.length + (frames_bytes q).length + i - s.shm_pool_size) (by
      rw [List.length_replicate]; omega)
    rw [getD_zeros] at hz
    rw [← hz, show o + (8 + p.length + (frames_bytes q).length) + i =
      o + (8 + p.length + (frames_bytes q).length + i - s.shm_pool_size) + s.shm_pool_size by omega,
      Nat.add_mod_right]

theorem land_blocking (f : Nat) : (f &&& (4294967295 - SHM_FIFO_O_NONBLOCK)) &&& 2 = f &&& 2 := by
  rw [Nat.land_assoc]
  rfl

theorem lor_nonblocking (f : Nat) : (f ||| SHM_FIFO_O_NONBLOCK) &&& 2 = f &&& 2 := by
  rw [Nat.and_comm, Nat.and_or_distrib_left, Nat.and_comm]
  simp

theorem set_blocking_mode_frame (s s1 : mp_shm_fifo_ctx_t) (do_block : Int)
    (h : mp_shm_fifo_set_blocking_mode (some s) do_block = some s1) :
    (exhaust_ctrl s1 ↔ exhaust_ctrl s) ∧ s1.flag_exit = s.flag_exit ∧
      s1.shm_pool_size = s.shm_pool_size ∧ s1.slots_used_cnt = s.slots_used_cnt ∧
      s1.buf_level = s.buf_level ∧ s1.input_byte_idx = s.input_byte_idx ∧
      s1.output_byte_idx = s.output_byte_idx ∧ s1.buf = s.buf := by
  simp only [mp_shm_fifo_set_blocking_mode] at h
  split at h
  · cases h
    refine ⟨?_, rfl, rfl, rfl, rfl, rfl, rfl, rfl⟩
    unfold exhaust_ctrl
    dsimp only
    rw [land_blocking]
  · cases h
    refine ⟨?_, rfl, rfl, rfl, rfl, rfl, rfl, rfl⟩
    unfold exhaust_ctrl
    dsimp only
    rw [lor_nonblocking]

/-! ## Reachable segments -/

theorem push_source (pf : platform) (s s1 : mp_shm_fifo_ctx_t) (elem : Option (List Nat))
    (n : Nat) (c : Int) (h : mp_shm_fifo_push pf (some s) elem n = .ret (c, some s1)) :
    ∃ s2, (s2 = s ∨ ∃ w, w ∈ pf.wakes ∧ s2 = w.shm) ∧
      (s1 = s2 ∨ ∃ e, 0 < n ∧ size_add sizeof_shm_fifo_elem_ctx_t n ≤ s.shm_pool_size ∧
        ¬ push_must_wait s2 s.shm_pool_size (size_add sizeof_shm_fifo_elem_ctx_t n) ∧
        push_after_wait pf s2 e n s.shm_pool_size (size_add sizeof_shm_fifo_elem_ctx_t n) =
          .ret (c, s1)) := by
  cases elem with
  | none =>
    simp only [mp_shm_fifo_push] at h
    cases h
    exact ⟨s, Or.inl rfl, Or.inl rfl⟩
  | some e =>
    rcases push_cases pf s e n c (some s1) h with ⟨_, hs⟩ | ⟨hn, hE, s2, s3, hw, ha, hs⟩
    · exact ⟨s, Or.inl rfl, Or.inl (Option.some.inj hs)⟩
    · rw [← Option.some.inj hs] at ha
      exact ⟨s2, push_wait_mem _ _ _ _ _ hw, Or.inr ⟨e, hn, hE, push_wait_done _ _ _ _ _ hw, ha⟩⟩

theorem pull_source (pf : platform) (s s1 : mp_shm_fifo_ctx_t) (e0 : Option (List Nat))
    (n0 : Nat) (tout : Int) (r : pull_result)
    (h : mp_shm_fifo_pull pf (some s) (some e0) (some n0) tout = .ret r) (hs : r.shm = some s1) :
    ∃ s2, (s2 = s ∨ ∃ w, w ∈ pf.wakes ∧ s2 = w.shm) ∧
      (s1 = s2 ∨ ∃ e n, ¬ pull_must_wait s2 ∧
        pull_after_wait pf s2 = .ret (r.end_code, e, n, s1)) := by
  rcases pull_cases pf s e0 n0 tout r h with ⟨_, _, _, hm⟩ | ⟨s2, e, n, s3, hw, ha, _, _, hs3⟩
  · rcases hm with h1 | ⟨w, hw, h1⟩
    · rw [hs] at h1
      exact ⟨s, Or.inl rfl, Or.inl (Option.some.inj h1)⟩
    · rw [hs] at h1
      exact ⟨w.shm, Or.inr ⟨w, hw, rfl⟩, Or.inl (Option.some.inj h1)⟩
  · rw [hs] at hs3
    rw [← Option.some.inj hs3] at ha
    obtain ⟨hnw, hm⟩ := pull_wait_go _ _ _ _ hw
    exact ⟨s2, hm, Or.inr ⟨e, n, hnw, ha⟩⟩

theorem reachable_pool_size (s0 s : mp_shm_fifo_ctx_t) (h : reachable s0 s) :
    s.shm_pool_size = s0.shm_pool_size := by
  induction h with
  | init => rfl
  | push pf s s1 elem n c _ _ _ hp ih ihw =>
    obtain ⟨s2, hm, hs⟩ := push_source pf s s1 elem n c hp
    have h2 : s2.shm_pool_size = s0.shm_pool_size := by
      rcases hm with h1 | ⟨w, hw, h1⟩
      · rw [h1]; exact ih
      · rw [h1]; exact ihw w hw
    rcases hs with h1 | ⟨e, _, _, _, ha⟩
    · rw [h1]; exact h2
    · rw [(push_after_wait_frame _ _ _ _ _ _ _ _ ha).2.2.1]; exact h2
  | pull pf s s1 e0 n0 tout r _ _ hp hs ih ihw =>
    obtain ⟨s2, hm, hs1⟩ := pull_source pf s s1 e0 n0 tout r hp hs
    have h2 : s2.shm_pool_size = s0.shm_pool_size := by
      rcases hm with h1 | ⟨w, hw, h1⟩
      · rw [h1]; exact ih
      · rw [h1]; exact ihw w hw
    rcases hs1 with h1 | ⟨e, n, _, ha⟩
    · rw [h1]; exact h2
    · rw [(pull_after_wait_frame _ _ _ _ _ _ ha).2.2.1]; exact h2
  | empty s s1 _ he ih =>
    simp only [mp_shm_fifo_empty, Option.some.injEq] at he
    rw [← he]; exact ih
  | set_blocking_mode s s1 d _ hb ih =>
    rw [(set_blocking_mode_frame s s1 d hb).2.2.1]; exact ih
  | release s _ ih => exact ih

theorem holds_empty (s s1 : mp_shm_fifo_ctx_t) (h0 : 0 < s.shm_pool_size)
    (hP : s.shm_pool_size ≤ 2147483647) (he : mp_shm_fifo_empty (some s) = some s1) :
    holds s1 [] ∧ free_is_null s1 ∧ s1.flag_exit = s.flag_exit := by
  simp only [mp_shm_fifo_empty, Option.some.injEq] at he
  subst he
  refine ⟨?_, ?_, rfl⟩
  · constructor
    · exact h0
    · exact hP
    · exact le_refl _
    · show (0 : Int) < (s.shm_pool_size : Int)
      omega
    · rfl
    · exact Nat.zero_le _
    · show (0 : Int) = (((0 + 0) % s.shm_pool_size : Nat) : Int)
      simp
    · rfl
    · intro p hp; cases hp
    · rfl
  · intro _ i _
    dsimp only
    rw [if_pos (Nat.mod_lt _ h0)]

theorem reachable_holds (name : List Nat) (P flags : Nat) (h0 : 0 < P) (hP : P ≤ 2147483647)
    (s : mp_shm_fifo_ctx_t) (h : reachable (mp_shm_fifo_create_init name P flags) s)
    (hx : s.flag_exit = 0) : ∃ q, holds s q ∧ free_is_null s := by
  induction h with
  | init =>
    refine ⟨[], holds_init name P flags h0 hP, ?_⟩
    intro _ i _
    rfl
  | push pf s s1 elem n c hr hrw _ hp ih ihw =>
    obtain ⟨s2, hm, hs⟩ := push_source pf s s1 elem n c hp
    have hx2 : s2.flag_exit = s1.flag_exit := by
      rcases hs with h1 | ⟨e, _, _, _, ha⟩
      · rw [h1]
      · exact (push_after_wait_frame _ _ _ _ _ _ _ _ ha).2.1.symm
    have h2 : ∃ q, holds s2 q ∧ free_is_null s2 := by
      rcases hm with h1 | ⟨w, hw, h1⟩
      · rw [h1] at hx2 ⊢; exact ih (by rw [hx2]; exact hx)
      · rw [h1] at hx2 ⊢; exact ihw w hw (by rw [hx2]; exact hx)
    have hP2 : s2.shm_pool_size = s.shm_pool_size := by
      rcases hm with h1 | ⟨w, hw, h1⟩
      · rw [h1]
      · rw [h1, reachable_pool_size _ _ (hrw w hw), reachable_pool_size _ _ hr]
    rcases hs with h1 | ⟨e, hn, hE, hnw, ha⟩
    · rw [h1]; exact h2
    · obtain ⟨q, hq, hf⟩ := h2
      rw [← hP2] at ha hE hnw
      by_cases hc : c = MP_SUCCESS
      · subst hc
        have hroom := push_success_room _ _ _ _ _ _ _ ha hnw (by rw [hx2]; exact hx)
        rcases push_after_wait_holds _ _ _ q _ _ _ _ hq rfl hE hn hroom ha with
          ⟨hc, _⟩ | ⟨_, hne, _, hq1, hfl, _, hPP, ho, hw⟩
        · exact absurd rfl hc
        · refine ⟨_, hq1, free_is_null_push s2 s1 q _ _ hq hf hq1 ?_ hfl hPP ho hw⟩
          rw [frame_length]
      · rw [push_after_wait_failure _ _ _ _ _ _ _ _ ha hc]
        exact ⟨q, hq, hf⟩
  | pull pf s s1 e0 n0 tout r hr hrw hp hs ih ihw =>
    obtain ⟨s2, hm, hs1⟩ := pull_source pf s s1 e0 n0 tout r hp hs
    have hx2 : s2.flag_exit = s1.flag_exit := by
      rcases hs1 with h1 | ⟨e, n, _, ha⟩
      · rw [h1]
      · exact (pull_after_wait_frame _ _ _ _ _ _ ha).2.1.symm
    have h2 : ∃ q, holds s2 q ∧ free_is_null s2 := by
      rcases hm with h1 | ⟨w, hw, h1⟩
      · rw [h1] at hx2 ⊢; exact ih (by rw [hx2]; exact hx)
      · rw [h1] at hx2 ⊢; exact ihw w hw (by rw [hx2]; exact hx)
    rcases hs1 with h1 | ⟨e, n, hnw, ha⟩
    · rw [h1]; exact h2
    · obtain ⟨q, hq, hf⟩ := h2
      cases q with
      | nil =>
        rw [pull_after_wait_empty _ _ hq (by rw [hx2]; exact hx) hnw] at ha
        simp only [outcome.ret.injEq, Prod.mk.injEq] at ha
        rw [← ha.2.2.2]
        exact ⟨[], hq, hf⟩
      | cons p q =>
        rcases pull_after_wait_holds _ _ _ p q _ _ _ hq ha with
          ⟨_, _, _, _, h1⟩ | ⟨_, _, _, _, hq1, hfl, _, hPP, hi, _, hw⟩
        · rw [h1]; exact ⟨p :: q, hq, hf⟩
        · exact ⟨q, hq1, free_is_null_pull s2 s1 p q hq hf hq1 hfl hPP hi hw⟩
  | empty s s1 hr he _ =>
    have hPs := reachable_pool_size _ _ hr
    obtain ⟨h1, h2, _⟩ := holds_empty s s1 (by rw [hPs]; exact h0) (by rw [hPs]; exact hP) he
    exact ⟨[], h1, h2⟩
  | set_blocking_mode s s1 d _ hb ih =>
    obtain ⟨hxc, hxx, hPP, hsl, hlv, hin, hout, hbuf⟩ := set_blocking_mode_frame s s1 d hb
    obtain ⟨q, hq, hf⟩ := ih (by rw [← hxx]; exact hx)
    refine ⟨q, ?_, ?_⟩
    · constructor
      · rw [hPP]; exact hq.pool_pos
      · rw [hPP]; exact hq.pool_int
      · rw [hout]; exact hq.out_lo
      · rw [hout, hPP]; exact hq.out_hi
      · rw [hlv]; exact hq.level
      · rw [hPP]; exact hq.level_le
      · rw [hin, hout, hPP]; exact hq.in_idx
      · rw [hsl]; exact hq.slots
      · exact hq.sizes
      · rw [hbuf, hPP, hout]; exact hq.content
    · intro hx1 i hi
      rw [hbuf, hin, hPP]
      rw [hPP, hlv] at hi
      exact hf (hxc.mp hx1) i hi
  | release s _ _ =>
    exact absurd hx (by simp [mp_shm_fifo_release_shm])

/-! ## A push that fits -/

theorem push_copy_runs (pf : platform) (s : mp_shm_fifo_ctx_t) (q : List (List Nat))
    (e : List Nat) (n : Nat) (hq : holds s q) (hf : free_is_null s) (hn : n ≤ e.length)
    (hroom : (frames_bytes q).length + (8 + n) ≤ s.shm_pool_size) :
    (s.input_byte_idx + ((8 + n : Nat) : Int) > s.shm_pool_size ∧ pf.malloc (8 + n) = false ∧
      push_copy pf s e n s.shm_pool_size (8 + n) = .ret none) ∨
    ((s.input_byte_idx + ((8 + n : Nat) : Int) > s.shm_pool_size → pf.malloc (8 + n) = true) ∧
      ∃ buf1, push_copy pf s e n s.shm_pool_size (8 + n) = .ret (some buf1)) := by
  obtain ⟨o, i, ho, hoP, hi, hiP, hio⟩ := holds_input_idx s q hq
  have hP := hq.pool_int
  have hcond : size_add (to_size_t s.input_byte_idx) (8 + n) = i + (8 + n) := by
    rw [hi, to_size_t_cast _ (by omega), size_add_small _ _ (by omega)]
  unfold push_copy
  rw [hcond]
  by_cases hw : i + (8 + n) > s.shm_pool_size
  · rw [if_pos hw]
    cases hmal : pf.malloc (8 + n) with
    | true =>
      right
      exact ⟨fun _ => rfl, _, push_copy_fragmented_eq pf s e n _ i hi hiP hP hn (by omega) hw hmal⟩
    | false =>
      left
      refine ⟨by rw [hi]; omega, rfl, ?_⟩
      unfold push_copy_fragmented
      rw [push_fragm0_size_cast s _ i hi hiP hP,
        push_fragm1_size_cast s _ _ i hi hiP hP (by omega) hw, if_neg (by omega), if_pos hmal]
  · rw [if_neg hw]
    right
    refine ⟨fun h => absurd h (by rw [hi]; omega), ?_⟩
    have hslot := push_copy_slot_eq s e n s.shm_pool_size i hi hn (by omega)
    by_cases hx : exhaust_ctrl s
    · rw [if_pos hx, sizeof_val, hi, pool_load_cast _ _ _ _ (by omega)]
      dsimp only
      rw [if_neg, hslot]
      · exact ⟨_, rfl⟩
      · rw [not_not]
        apply size_value_zeros
        intro j hj
        rw [ring_bytes_length] at hj
        rw [ring_bytes_getD _ _ _ _ _ hj]
        have := hf hx j (by rw [hq.level]; omega)
        rw [hi] at this
        exact this
    · rw [if_neg hx, hslot]
      exact ⟨_, rfl⟩

/-! ## The example segments are reachable -/

theorem reachable_shm_full : reachable shm_fresh shm_full :=
  reachable.push calm shm_fresh shm_full
    (some [1, 2, 3, 4, 5, 6, 7, 8, 9, 10, 11, 12, 13, 14, 15, 16, 17]) 17 0 reachable.init
    (fun w hw => by cases hw) (by decide) (by with_unfolding_all rfl)

theorem reachable_shm_drained : reachable shm_fresh shm_drained :=
  reachable.pull calm shm_full shm_drained none 0 (-1)
    ⟨0, some (some [1, 2, 3, 4, 5, 6, 7, 8, 9, 10, 11, 12, 13, 14, 15, 16, 17]), some 17,
      some shm_drained⟩
    reachable_shm_full (fun w hw => by cases hw) (by with_unfolding_all rfl) rfl

theorem reachable_shm_nb_turned : reachable shm_nb_fresh shm_nb_turned :=
  reachable.pull calm shm_nb_one shm_nb_turned none 0 (-1)
    ⟨0, some (some [1, 2, 3, 4, 5, 6, 7, 8, 9]), some 9, some shm_nb_turned⟩
    (reachable.push calm shm_nb_fresh shm_nb_one (some [1, 2, 3, 4, 5, 6, 7, 8, 9]) 9 0
      reachable.init (fun w hw => by cases hw) (by decide) (by with_unfolding_all rfl))
    (fun w hw => by cases hw) (by with_unfolding_all rfl) rfl

/-! ## Pools beyond the range of the `int` cursors -/

theorem push_slot_run (pf : platform) (s : mp_shm_fifo_ctx_t) (e : List Nat) (n i lv : Nat)
    (hi : s.input_byte_idx = (i : Int)) (hlv : s.buf_level = (lv : Int)) (hn : 0 < n)
    (hlen : n ≤ e.length) (hfit : i + 8 + n ≤ s.shm_pool_size)
    (hroom : lv + (8 + n) ≤ s.shm_pool_size) (hP : s.shm_pool_size < 9223372036854775808)
    (hx : ¬ exhaust_ctrl s) :
    mp_shm_fifo_push pf (some s) (some e) n = .ret (MP_SUCCESS, some
      { s with
        buf := fun a =>
          if i ≤ a ∧ a < i + 8 then (size_bytes n).getD (a - i) 0
          else if i + 8 ≤ a ∧ a < i + 8 + n then (e.take n).getD (a - (i + 8)) 0 else s.buf a
        slots_used_cnt := to_ssize_t (s.slots_used_cnt + 1)
        buf_level := to_ssize_t ((size_add (to_size_t s.buf_level) (8 + n) : Nat) : Int)
        input_byte_idx :=
          to_int ((size_add (to_size_t s.input_byte_idx) (8 + n) % s.shm_pool_size : Nat) : Int) }) := by
  have hE : size_add sizeof_shm_fifo_elem_ctx_t n = 8 + n := by
    rw [sizeof_val, size_add_small _ _ (by omega)]
  have hfull : ¬ size_add (to_size_t s.buf_level) (8 + n) > s.shm_pool_size := by
    rw [hlv, to_size_t_cast _ (by omega), size_add_small _ _ (by omega)]
    omega
  have hcopy : push_copy pf s e n s.shm_pool_size (8 + n) = .ret (some (fun a =>
      if i ≤ a ∧ a < i + 8 then (size_bytes n).getD (a - i) 0
      else if i + 8 ≤ a ∧ a < i + 8 + n then (e.take n).getD (a - (i + 8)) 0 else s.buf a)) := by
    unfold push_copy
    rw [hi, to_size_t_cast _ (by omega), size_add_small _ _ (by omega), if_neg (by omega),
      if_neg hx]
    exact push_copy_slot_eq s e n s.shm_pool_size i hi hlen hfit
  unfold mp_shm_fifo_push
  dsimp only
  rw [hE, if_neg (by omega), if_neg (by omega)]
  unfold push_locked
  rw [push_wait_skip _ _ _ _ (fun h => hfull h.1)]
  dsimp only
  unfold push_after_wait
  rw [if_neg (fun h => hfull h.1), hcopy]

theorem run_calls_push (m : Nat → Bool) (p : List Nat) (cs : List fifo_call)
    (s s1 : mp_shm_fifo_ctx_t)
    (h : mp_shm_fifo_push ⟨m, none, []⟩ (some s) (some p) p.length = .ret (MP_SUCCESS, some s1)) :
    run_calls (.push m p :: cs) s = run_calls cs s1 := by
  simp only [run_calls, h]
  rfl

theorem huge_payload_length : huge_payload.length = 4294967288 := by
  unfold huge_payload
  rw [List.length_append, List.length_replicate, List.length_cons, List.length_replicate]

theorem push_huge_one : mp_shm_fifo_push ⟨fun _ => true, none, []⟩ (some shm_huge)
    (some huge_payload) huge_payload.length = .ret (MP_SUCCESS, some shm_huge_one) := by
  rw [huge_payload_length]
  exact push_slot_run ⟨fun _ => true, none, []⟩ shm_huge huge_payload 4294967288 0 0 rfl rfl
    (by decide) (by rw [huge_payload_length]) (by decide) (by decide) (by decide) (by decide)

theorem push_huge_two : mp_shm_fifo_push ⟨fun _ => true, none, []⟩ (some shm_huge_one)
    (some [1, 2, 3, 4, 5, 6, 7, 8]) [1, 2, 3, 4, 5, 6, 7, 8].length =
      .ret (MP_SUCCESS, some shm_huge_two) :=
  push_slot_run ⟨fun _ => true, none, []⟩ shm_huge_one [1, 2, 3, 4, 5, 6, 7, 8] 8 0 4294967296
    rfl rfl (by decide) (by decide) (by decide) (by decide) (by decide) (by decide)

/-! ## FIFO order while the pool size fits the `int` cursors -/

theorem fifo_order_int_pool (name : List Nat) (flags P : Nat) (h0 : 0 < P)
    (hP : P ≤ 2147483647) (calls : List fifo_call) (outs : List (List Nat × Nat))
    (s1 : mp_shm_fifo_ctx_t)
    (h : run_calls calls (mp_shm_fifo_create_init name P flags) = some (outs, s1)) :
    pulls calls ≤ (pushed calls).length ∧
      outs = ((pushed calls).take (pulls calls)).map (fun p => (p, p.length)) := by
  obtain ⟨ho, hle, _, _⟩ := run_calls_order calls _ s1 [] outs
    (holds_init name P flags h0 hP) rfl h
  rw [List.nil_append] at ho
  simp only [List.length_nil, Nat.zero_add] at hle
  exact ⟨hle, ho⟩

/-! ## A pool one byte larger than the range of the `int` cursors -/

theorem pull_slot_run (pf : platform) (s : mp_shm_fifo_ctx_t) (e0 : Option (List Nat))
    (k0 n o lv : Nat) (ho : s.output_byte_idx = (o : Int)) (hlv : s.buf_level = (lv : Int))
    (hlv0 : 0 < lv) (hhdr : to_size_t (size_value (ring_bytes s.buf s.shm_pool_size o 8)) = n)
    (hn : 0 < n) (hfit : o + 8 + n ≤ s.shm_pool_size)
    (hP : s.shm_pool_size < 9223372036854775808) (hm : pf.malloc n = true)
    (hx : ¬ exhaust_ctrl s) :
    mp_shm_fifo_pull pf (some s) (some e0) (some k0) (-1) = .ret
      ⟨MP_SUCCESS, some (some (ring_bytes s.buf s.shm_pool_size (o + 8) n)), some n, some
        { s with
          buf := s.buf
          slots_used_cnt := to_ssize_t (s.slots_used_cnt - 1)
          buf_level := to_ssize_t ((to_size_t s.buf_level : Int) - ((8 + n : Nat) : Int))
          output_byte_idx := to_int (((o + 8 + n) % s.shm_pool_size : Nat) : Int) }⟩ := by
  have hslot : pull_copy_slot pf s =
      .ret (some (ring_bytes s.buf s.shm_pool_size (o + 8) n, n, s.buf)) := by
    unfold pull_copy_slot
    rw [sizeof_val, ho, pool_load_cast _ _ _ _ (by omega)]
    dsimp only
    rw [hhdr, if_neg (by omega), if_neg (by simp [hm]),
      show (o : Int) + ((8 : Nat) : Int) = ((o + 8 : Nat) : Int) by omega,
      pool_load_cast _ _ _ _ (by omega)]
    dsimp only
    rw [if_neg hx]
  have hcopy : pull_copy pf s =
      .ret (some (ring_bytes s.buf s.shm_pool_size (o + 8) n, n, s.buf)) := by
    unfold pull_copy
    rw [sizeof_val, ho, to_size_t_cast _ (by omega), size_add_small _ _ (by omega),
      if_neg (by omega), pool_load_cast _ _ _ _ (by omega)]
    dsimp only
    rw [hhdr, if_neg (by omega), size_add_small _ _ (by omega), if_neg (by omega)]
    exact hslot
  have hafter : pull_after_wait pf s = .ret (MP_SUCCESS,
      some (ring_bytes s.buf s.shm_pool_size (o + 8) n), n,
      { s with
        buf := s.buf
        slots_used_cnt := to_ssize_t (s.slots_used_cnt - 1)
        buf_level := to_ssize_t ((to_size_t s.buf_level : Int) - ((8 + n : Nat) : Int))
        output_byte_idx := to_int (((o + 8 + n) % s.shm_pool_size : Nat) : Int) }) := by
    unfold pull_after_wait
    rw [if_neg (fun h => by omega), hcopy]
    dsimp only
    rw [sizeof_val, ho, to_size_t_cast _ (by omega), size_add_small 8 n (by omega),
      size_add_small o 8 (by omega), size_add_small _ _ (by omega)]
  unfold mp_shm_fifo_pull
  dsimp only
  unfold pull_locked
  rw [if_neg (fun h => absurd h.1 (by decide)), pull_wait_skip _ _ _ (fun h => by
    have := h.1
    omega)]
  dsimp only
  rw [hafter]

theorem edge_payload_length : edge_payload.length = 2147483630 := by
  unfold edge_payload
  rw [List.length_replicate]

theorem reachable_shm_edge_one : reachable shm_edge shm_edge_one :=
  reachable.push ⟨fun _ => true, none, []⟩ shm_edge shm_edge_one (some edge_payload) 2147483630
    MP_SUCCESS reachable.init (fun w hw => by cases hw) (by decide)
    (push_slot_run ⟨fun _ => true, none, []⟩ shm_edge edge_payload 2147483630 0 0 rfl rfl
      (by decide) (by rw [edge_payload_length]) (by decide) (by decide) (by decide) (by decide))

theorem reachable_shm_edge_turned : reachable shm_edge shm_edge_turned :=
  reachable.pull ⟨fun _ => true, none, []⟩ shm_edge_one shm_edge_turned none 0 (-1) _
    reachable_shm_edge_one (fun w hw => by cases hw)
    (pull_slot_run ⟨fun _ => true, none, []⟩ shm_edge_one none 0 2147483630 0 2147483638
      rfl rfl (by decide) (by decide) (by decide) (by decide) (by decide) rfl (by decide)) rfl

/-! ## The round trip across the end of the pool while the pool size fits the `int` cursors -/

theorem pull_calls_counts (ps : List ((Nat → Bool) × Option (Int × Int) × Int)) :
    pushed (pull_calls ps) = [] ∧ pulls (pull_calls ps) = ps.length := by
  induction ps with
  | nil => exact ⟨rfl, rfl⟩
  | cons t ts ih =>
    simp only [pull_calls, List.map_cons, pushed, pulls, List.length_cons] at ih ⊢
    exact ⟨ih.1, by rw [ih.2]⟩

theorem wrap_round_trip_int_pool (name : List Nat) (flags P : Nat) (h0 : 0 < P)
    (hP : P ≤ 2147483647) (s : mp_shm_fifo_ctx_t)
    (hr : reachable (mp_shm_fifo_create_init name P flags) s) (hx : s.flag_exit = 0)
    (m : Nat → Bool) (p : List Nat) (ps : List ((Nat → Bool) × Option (Int × Int) × Int))
    (hps : (ps.length : Int) = s.slots_used_cnt + 1) (outs : List (List Nat × Nat))
    (s1 : mp_shm_fifo_ctx_t) (h : run_calls (.push m p :: pull_calls ps) s = some (outs, s1)) :
    outs.length = ps.length ∧ outs.getLast? = some (p, p.length) := by
  obtain ⟨q, hq, _⟩ := reachable_holds name P flags h0 hP s hr hx
  obtain ⟨ho, _, _, _⟩ := run_calls_order _ s s1 q outs hq hx h
  obtain ⟨hpu, hpl⟩ := pull_calls_counts ps
  simp only [pushed, pulls, hpu, hpl] at ho
  have hlen : ps.length = (q ++ [p]).length := by
    rw [List.length_append, List.length_singleton]
    have := hq.slots
    omega
  rw [hlen, List.take_length] at ho
  rw [ho]
  constructor
  · rw [List.length_map, hlen]
  · rw [List.map_append, List.map_singleton, List.getLast?_append]
    rfl

/-! ## The blocking mode -/

theorem land_blocking_bit (f : Nat) : (f &&& (4294967295 - SHM_FIFO_O_NONBLOCK)) &&& 1 = 0 := by
  rw [Nat.and_assoc]
  exact Nat.and_zero f

theorem lor_nonblocking_bit (f : Nat) : (f ||| SHM_FIFO_O_NONBLOCK) &&& 1 ≠ 0 := by
  intro h
  have := congrArg (fun x => x.testBit 0) h
  simp at this

theorem blocking_mask_bit (i : Nat) (h0 : i ≠ 0) (h : i < 32) :
    (4294967295 - SHM_FIFO_O_NONBLOCK).testBit i = true := by
  interval_cases i <;> first | exact absurd rfl h0 | rfl

theorem land_blocking_other (f i : Nat) (hf : f < 4294967296) (h0 : i ≠ 0) :
    (f &&& (4294967295 - SHM_FIFO_O_NONBLOCK)).testBit i = f.testBit i := by
  rw [Nat.testBit_and]
  by_cases h : i < 32
  · rw [blocking_mask_bit i h0 h, Bool.and_true]
  · have : f.testBit i = false := by
      apply Nat.testBit_lt_two_pow
      calc f < 2 ^ 32 := hf
        _ ≤ 2 ^ i := Nat.pow_le_pow_right (by decide) (by omega)
    rw [this, Bool.false_and]

theorem lor_nonblocking_other (f i : Nat) (h0 : i ≠ 0) :
    (f ||| SHM_FIFO_O_NONBLOCK).testBit i = f.testBit i := by
  rw [Nat.testBit_or]
  have : (SHM_FIFO_O_NONBLOCK).testBit i = false := by
    apply Nat.testBit_lt_two_pow
    calc SHM_FIFO_O_NONBLOCK < 2 ^ 1 := by decide
      _ ≤ 2 ^ i := Nat.pow_le_pow_right (by decide) (by omega)
  rw [this, Bool.or_false]

/-! ## The level across a push and a pull -/

theorem to_ssize_t_congr (x y : Int)
    (h : x % 18446744073709551616 = y % 18446744073709551616) : to_ssize_t x = to_ssize_t y := by
  unfold to_ssize_t
  rw [h]

theorem to_ssize_t_range (x : Int) (h0 : -9223372036854775808 ≤ x)
    (h1 : x < 9223372036854775808) : to_ssize_t x = x := by
  unfold to_ssize_t
  split_ifs <;> omega

theorem size_add_level_mod (x : Int) (E : Nat) :
    ((size_add (to_size_t x) E : Nat) : Int) % 18446744073709551616 =
      (x + (E : Int)) % 18446744073709551616 := by
  unfold size_add to_size_t
  omega

theorem push_after_wait_level (pf : platform) (s s1 : mp_shm_fifo_ctx_t) (e : List Nat)
    (n P E : Nat) (h : push_after_wait pf s e n P E = .ret (MP_SUCCESS, s1)) :
    s1.buf_level = to_ssize_t (s.buf_level + (E : Int)) := by
  unfold push_after_wait at h
  split at h
  · simp only [outcome.ret.injEq, Prod.mk.injEq] at h
    exact absurd h.1 (by decide)
  · split at h
    · cases h
    · cases h
    · simp only [outcome.ret.injEq, Prod.mk.injEq] at h
      exact absurd h.1 (by decide)
    · simp only [outcome.ret.injEq, Prod.mk.injEq] at h
      rw [← h.2]
      dsimp only
      apply to_ssize_t_congr
      exact size_add_level_mod _ _

theorem pull_nonblock_underrun (pf : platform) (s : mp_shm_fifo_ctx_t) (e0 : Option (List Nat))
    (n0 : Nat) (tout_usecs : Int) (hnb : nonblock s) (hlev : s.buf_level ≤ 0)
    (hclk : ¬ (tout_usecs ≥ 0 ∧ pf.clock_gettime = none)) :
    mp_shm_fifo_pull pf (some s) (some e0) (some n0) tout_usecs =
      .ret ⟨MP_EAGAIN, some none, some 0, some s⟩ := by
  have : pull_locked pf s tout_usecs = .ret (MP_EAGAIN, none, 0, s) := by
    unfold pull_locked
    rw [if_neg hclk, pull_wait_nonblock _ _ _ hnb]
    dsimp only
    unfold pull_after_wait
    rw [if_pos ⟨hlev, hnb⟩]
  unfold mp_shm_fifo_pull
  simp only [this]

theorem pull_clock_failure (pf : platform) (s : mp_shm_fifo_ctx_t) (e0 : Option (List Nat))
    (n0 : Nat) (tout_usecs : Int) (ht : tout_usecs ≥ 0) (hclk : pf.clock_gettime = none) :
    mp_shm_fifo_pull pf (some s) (some e0) (some n0) tout_usecs =
      .ret ⟨MP_ERROR, some none, some 0, some s⟩ := by
  have : pull_locked pf s tout_usecs = .ret (MP_ERROR, none, 0, s) := by
    unfold pull_locked
    rw [if_pos ⟨ht, hclk⟩]
  unfold mp_shm_fifo_pull
  simp only [this]

/-! ## The range of the indices while the pool size fits the `int` cursors -/

theorem push_after_wait_idx (pf : platform) (s s1 : mp_shm_fifo_ctx_t) (e : List Nat)
    (n P E : Nat) (c : Int) (h0 : 0 < P) (hP : P ≤ 2147483647)
    (h : push_after_wait pf s e n P E = .ret (c, s1)) :
    s1.output_byte_idx = s.output_byte_idx ∧
      (s1.input_byte_idx = s.input_byte_idx ∨
        (0 ≤ s1.input_byte_idx ∧ s1.input_byte_idx < (P : Int))) := by
  refine ⟨(push_after_wait_frame _ _ _ _ _ _ _ _ h).2.2.2.1, ?_⟩
  unfold push_after_wait at h
  split at h
  · simp only [outcome.ret.injEq, Prod.mk.injEq] at h
    rw [← h.2]
    exact Or.inl rfl
  · split at h
    · cases h
    · cases h
    · simp only [outcome.ret.injEq, Prod.mk.injEq] at h
      rw [← h.2]
      exact Or.inl rfl
    · simp only [outcome.ret.injEq, Prod.mk.injEq] at h
      rw [← h.2]
      right
      dsimp only
      have hlt := Nat.mod_lt (size_add (to_size_t s.input_byte_idx) E) h0
      rw [to_int_cast _ (by omega)]
      omega

theorem pull_after_wait_idx (pf : platform) (s s1 : mp_shm_fifo_ctx_t) (c : Int)
    (e : Option (List Nat)) (n : Nat) (h0 : 0 < s.shm_pool_size)
    (hP : s.shm_pool_size ≤ 2147483647) (h : pull_after_wait pf s = .ret (c, e, n, s1)) :
    s1.input_byte_idx = s.input_byte_idx ∧
      (s1.output_byte_idx = s.output_byte_idx ∨
        (0 ≤ s1.output_byte_idx ∧ s1.output_byte_idx < (s.shm_pool_size : Int))) := by
  refine ⟨(pull_after_wait_frame _ _ _ _ _ _ h).2.2.2.1, ?_⟩
  unfold pull_after_wait at h
  split at h
  · simp only [outcome.ret.injEq, Prod.mk.injEq] at h
    rw [← h.2.2.2]
    exact Or.inl rfl
  · split at h
    · cases h
    · cases h
    · simp only [outcome.ret.injEq, Prod.mk.injEq] at h
      rw [← h.2.2.2]
      exact Or.inl rfl
    · simp only [outcome.ret.injEq, Prod.mk.injEq] at h
      rw [← h.2.2.2]
      right
      dsimp only
      rename_i elem_cpy elem_size buf1 _
      have hlt := Nat.mod_lt (size_add (size_add (to_size_t s.output_byte_idx)
        sizeof_shm_fifo_elem_ctx_t) elem_size) h0
      rw [to_int_cast _ (by omega)]
      omega

theorem reachable_idx_range (name : List Nat) (P flags : Nat) (h0 : 0 < P)
    (hP : P ≤ 2147483647) (s : mp_shm_fifo_ctx_t)
    (h : reachable (mp_shm_fifo_create_init name P flags) s) :
    0 ≤ s.input_byte_idx ∧ s.input_byte_idx < (P : Int) ∧
      0 ≤ s.output_byte_idx ∧ s.output_byte_idx < (P : Int) := by
  induction h with
  | init =>
    refine ⟨le_refl _, ?_, le_refl _, ?_⟩
    · show (0 : Int) < (P : Int)
      omega
    · show (0 : Int) < (P : Int)
      omega
  | push pf s s1 elem n c hr hrw _ hp ih ihw =>
    obtain ⟨s2, hm, hs⟩ := push_source pf s s1 elem n c hp
    have h2 : 0 ≤ s2.input_byte_idx ∧ s2.input_byte_idx < (P : Int) ∧
        0 ≤ s2.output_byte_idx ∧ s2.output_byte_idx < (P : Int) := by
      rcases hm with h1 | ⟨w, hw, h1⟩
      · rw [h1]; exact ih
      · rw [h1]; exact ihw w hw
    rcases hs with h1 | ⟨e, _, _, _, ha⟩
    · rw [h1]; exact h2
    · have hPs : s.shm_pool_size = P := reachable_pool_size _ _ hr
      rw [hPs] at ha
      obtain ⟨ho, hi⟩ := push_after_wait_idx _ _ _ _ _ _ _ _ h0 hP ha
      rw [ho]
      rcases hi with hi | hi
      · rw [hi]; exact h2
      · exact ⟨hi.1, hi.2, h2.2.2⟩
  | pull pf s s1 e0 n0 tout r hr hrw hp hs ih ihw =>
    obtain ⟨s2, hm, hs1⟩ := pull_source pf s s1 e0 n0 tout r hp hs
    have h2 : (0 ≤ s2.input_byte_idx ∧ s2.input_byte_idx < (P : Int) ∧
        0 ≤ s2.output_byte_idx ∧ s2.output_byte_idx < (P : Int)) ∧ s2.shm_pool_size = P := by
      rcases hm with h1 | ⟨w, hw, h1⟩
      · rw [h1]; exact ⟨ih, reachable_pool_size _ _ hr⟩
      · rw [h1]; exact ⟨ihw w hw, reachable_pool_size _ _ (hrw w hw)⟩
    rcases hs1 with h1 | ⟨e, n, _, ha⟩
    · rw [h1]; exact h2.1
    · obtain ⟨hi, ho⟩ := pull_after_wait_idx _ _ _ _ _ _ (by rw [h2.2]; exact h0)
        (by rw [h2.2]; exact hP) ha
      rw [hi]
      rcases ho with ho | ho
      · rw [ho]; exact h2.1
      · rw [h2.2] at ho
        exact ⟨h2.1.1, h2.1.2.1, ho.1, ho.2⟩
  | empty s s1 _ he _ =>
    simp only [mp_shm_fifo_empty, Option.some.injEq] at he
    rw [← he]
    refine ⟨le_refl _, ?_, le_refl _, ?_⟩
    · show (0 : Int) < (P : Int)
      omega
    · show (0 : Int) < (P : Int)
      omega
  | set_blocking_mode s s1 d _ hb ih =>
    obtain ⟨_, _, _, _, _, hin, hout, _⟩ := set_blocking_mode_frame s s1 d hb
    rw [hin, hout]; exact ih
  | release s _ ih => exact ih

/-! ## An input index beyond the range of an `int` -/

theorem half_payload_length : half_payload.length = 2147483640 := by
  unfold half_payload
  rw [List.length_replicate]

theorem push_edge_half : mp_shm_fifo_push ⟨fun _ => true, none, []⟩ (some shm_edge)
    (some half_payload) 2147483640 = .ret (MP_SUCCESS, some shm_edge_half) :=
  push_slot_run ⟨fun _ => true, none, []⟩ shm_edge half_payload 2147483640 0 0 rfl rfl
    (by decide) (by rw [half_payload_length]) (by decide) (by decide) (by decide) (by decide)

/-! ## The level after a push and the pull that follows -/

theorem push_slot_run_exhaust (pf : platform) (s : mp_shm_fifo_ctx_t) (e : List Nat)
    (n i lv : Nat) (hi : s.input_byte_idx = (i : Int)) (hlv : s.buf_level = (lv : Int))
    (hn : 0 < n) (hlen : n ≤ e.length) (hfit : i + 8 + n ≤ s.shm_pool_size)
    (hroom : lv + (8 + n) ≤ s.shm_pool_size) (hP : s.shm_pool_size < 9223372036854775808)
    (hz : size_value (ring_bytes s.buf s.shm_pool_size i 8) = 0) :
    mp_shm_fifo_push pf (some s) (some e) n = .ret (MP_SUCCESS, some
      { s with
        buf := fun a =>
          if i ≤ a ∧ a < i + 8 then (size_bytes n).getD (a - i) 0
          else if i + 8 ≤ a ∧ a < i + 8 + n then (e.take n).getD (a - (i + 8)) 0 else s.buf a
        slots_used_cnt := to_ssize_t (s.slots_used_cnt + 1)
        buf_level := to_ssize_t ((size_add (to_size_t s.buf_level) (8 + n) : Nat) : Int)
        input_byte_idx :=
          to_int ((size_add (to_size_t s.input_byte_idx) (8 + n) % s.shm_pool_size : Nat) : Int) }) := by
  have hE : size_add sizeof_shm_fifo_elem_ctx_t n = 8 + n := by
    rw [sizeof_val, size_add_small _ _ (by omega)]
  have hfull : ¬ size_add (to_size_t s.buf_level) (8 + n) > s.shm_pool_size := by
    rw [hlv, to_size_t_cast _ (by omega), size_add_small _ _ (by omega)]
    omega
  have hslot := push_copy_slot_eq s e n s.shm_pool_size i hi hlen hfit
  have hcopy : push_copy pf s e n s.shm_pool_size (8 + n) = .ret (some (fun a =>
      if i ≤ a ∧ a < i + 8 then (size_bytes n).getD (a - i) 0
      else if i + 8 ≤ a ∧ a < i + 8 + n then (e.take n).getD (a - (i + 8)) 0 else s.buf a)) := by
    unfold push_copy
    rw [hi, to_size_t_cast _ (by omega), size_add_small _ _ (by omega), if_neg (by omega)]
    by_cases hx : exhaust_ctrl s
    · rw [if_pos hx, sizeof_val, pool_load_cast _ _ _ _ (by omega)]
      dsimp only
      rw [if_neg (not_not.mpr hz)]
      exact hslot
    · rw [if_neg hx]
      exact hslot
  unfold mp_shm_fifo_push
  dsimp only
  rw [hE, if_neg (by omega), if_neg (by omega)]
  unfold push_locked
  rw [push_wait_skip _ _ _ _ (fun h => hfull h.1)]
  dsimp only
  unfold push_after_wait
  rw [if_neg (fun h => hfull h.1), hcopy]

theorem pull_slot_run_exhaust (pf : platform) (s : mp_shm_fifo_ctx_t) (e0 : Option (List Nat))
    (k0 n o lv : Nat) (ho : s.output_byte_idx = (o : Int)) (hlv : s.buf_level = (lv : Int))
    (hlv0 : 0 < lv) (hhdr : to_size_t (size_value (ring_bytes s.buf s.shm_pool_size o 8)) = n)
    (hn : 0 < n) (hfit : o + 8 + n ≤ s.shm_pool_size)
    (hP : s.shm_pool_size < 9223372036854775808) (hm : pf.malloc n = true)
    (hx : exhaust_ctrl s) :
    mp_shm_fifo_pull pf (some s) (some e0) (some k0) (-1) = .ret
      ⟨MP_SUCCESS, some (some (ring_bytes s.buf s.shm_pool_size (o + 8) n)), some n, some
        { s with
          buf := fun a => if o ≤ a ∧ a < o + (8 + n) then 0 else s.buf a
          slots_used_cnt := to_ssize_t (s.slots_used_cnt - 1)
          buf_level := to_ssize_t ((to_size_t s.buf_level : Int) - ((8 + n : Nat) : Int))
          output_byte_idx := to_int (((o + 8 + n) % s.shm_pool_size : Nat) : Int) }⟩ := by
  have hslot : pull_copy_slot pf s =
      .ret (some (ring_bytes s.buf s.shm_pool_size (o + 8) n, n,
        fun a => if o ≤ a ∧ a < o + (8 + n) then 0 else s.buf a)) := by
    unfold pull_copy_slot
    rw [sizeof_val, ho, pool_load_cast _ _ _ _ (by omega)]
    dsimp only
    rw [hhdr, if_neg (by omega), if_neg (by simp [hm]),
      show (o : Int) + ((8 : Nat) : Int) = ((o + 8 : Nat) : Int) by omega,
      pool_load_cast _ _ _ _ (by omega)]
    dsimp only
    rw [if_pos hx, size_add_small 8 n (by omega), pool_memset_cast _ _ _ _ (by omega)]
  have hcopy : pull_copy pf s =
      .ret (some (ring_bytes s.buf s.shm_pool_size (o + 8) n, n,
        fun a => if o ≤ a ∧ a < o + (8 + n) then 0 else s.buf a)) := by
    unfold pull_copy
    rw [sizeof_val, ho, to_size_t_cast _ (by omega), size_add_small _ _ (by omega),
      if_neg (by omega), pool_load_cast _ _ _ _ (by omega)]
    dsimp only
    rw [hhdr, if_neg (by omega), size_add_small _ _ (by omega), if_neg (by omega)]
    exact hslot
  have hafter : pull_after_wait pf s = .ret (MP_SUCCESS,
      some (ring_bytes s.buf s.shm_pool_size (o + 8) n), n,
      { s with
        buf := fun a => if o ≤ a ∧ a < o + (8 + n) then 0 else s.buf a
        slots_used_cnt := to_ssize_t (s.slots_used_cnt - 1)
        buf_level := to_ssize_t ((to_size_t s.buf_level : Int) - ((8 + n : Nat) : Int))
        output_byte_idx := to_int (((o + 8 + n) % s.shm_pool_size : Nat) : Int) }) := by
    unfold pull_after_wait
    rw [if_neg (fun h => by omega), hcopy]
    dsimp only
    rw [sizeof_val, ho, to_size_t_cast _ (by omega), size_add_small 8 n (by omega),
      size_add_small o 8 (by omega), size_add_small _ _ (by omega)]
  unfold mp_shm_fifo_pull
  dsimp only
  unfold pull_locked
  rw [if_neg (fun h => absurd h.1 (by decide)), pull_wait_skip _ _ _ (fun h => by
    have := h.1
    omega)]
  dsimp only
  rw [hafter]

theorem reachable_shm_edgex_one : reachable shm_edgex shm_edgex_one :=
  reachable.push ⟨fun _ => true, none, []⟩ shm_edgex shm_edgex_one (some edge_payload) 2147483630
    MP_SUCCESS reachable.init (fun w hw => by cases hw) (by decide)
    (push_slot_run_exhaust ⟨fun _ => true, none, []⟩ shm_edgex edge_payload 2147483630 0 0 rfl rfl
      (by decide) (by rw [edge_payload_length]) (by decide) (by decide) (by decide) (by decide))

theorem reachable_shm_edgex_turned : reachable shm_edgex shm_edgex_turned :=
  reachable.pull ⟨fun _ => true, none, []⟩ shm_edgex_one shm_edgex_turned none 0 (-1) _
    reachable_shm_edgex_one (fun w hw => by cases hw)
    (pull_slot_run_exhaust ⟨fun _ => true, none, []⟩ shm_edgex_one none 0 2147483630 0 2147483638
      rfl rfl (by decide) (by decide) (by decide) (by decide) (by decide) rfl (by decide)) rfl

theorem reachable_shm_edgex_wrapped : reachable shm_edgex shm_edgex_wrapped :=
  reachable.push calm shm_edgex_turned shm_edgex_wrapped
    (some [1, 2, 3, 4, 5, 6, 7, 8, 9, 10, 11]) 11 MP_SUCCESS reachable_shm_edgex_turned
    (fun w hw => by cases hw) (by decide) (by with_unfolding_all rfl)

/-! ## The flush of pull while the pool size fits the `int` cursors -/

theorem pull_copy_slot_flush (pf : platform) (s : mp_shm_fifo_ctx_t) (o n : Nat)
    (el : List Nat) (buf1 : Nat → Nat) (ho : s.output_byte_idx = (o : Int))
    (hm : ∀ k, 9223372036854775808 ≤ k → pf.malloc k = false)
    (h : pull_copy_slot pf s = .ret (some (el, n, buf1))) :
    (¬ exhaust_ctrl s → buf1 = s.buf) ∧
      (exhaust_ctrl s → ring_written s.buf buf1 s.shm_pool_size o
        (List.replicate (8 + n) 0)) := by
  unfold pull_copy_slot at h
  split at h
  · cases h
  · rename_i hdr _
    dsimp only at h
    split at h
    · cases h
    · split at h
      · cases h
      · rename_i hpos hmal
        have hlt : to_size_t (size_value hdr) < 9223372036854775808 := by
          by_contra hc
          exact hmal (hm _ (by omega))
        split at h
        · cases h
        · split at h
          · rename_i hx
            split at h
            · cases h
            · rename_i buf2 hset
              simp only [outcome.ret.injEq, Option.some.injEq, Prod.mk.injEq] at h
              obtain ⟨_, hn, hb⟩ := h
              refine ⟨fun hnx => absurd hx hnx, fun _ => ?_⟩
              rw [sizeof_val, size_add_small _ _ (by omega), ho, hn] at hset
              unfold pool_memset at hset
              split at hset
              · rename_i hfit
                simp only [Option.some.injEq] at hset
                rw [← hb, ← hset]
                have hfit2 : o + (8 + n) ≤ s.shm_pool_size := by omega
                constructor
                · intro j hj
                  rw [List.length_replicate] at hj
                  rw [getD_zeros, Nat.mod_eq_of_lt (by omega)]
                  dsimp only
                  rw [if_pos (by omega)]
                · intro a ha
                  dsimp only
                  rw [if_neg]
                  intro hc
                  have hc1 : o ≤ a := by omega
                  have hc2 : a < o + (8 + n) := by omega
                  apply ha (a - o) (by rw [List.length_replicate]; omega)
                  rw [Nat.mod_eq_of_lt (by omega)]
                  omega
              · cases hset
          · rename_i hx
            simp only [outcome.ret.injEq, Option.some.injEq, Prod.mk.injEq] at h
            exact ⟨fun _ => h.2.2.symm, fun hxx => absurd hxx hx⟩

theorem pull_copy_fragmented_flush (pf : platform) (s : mp_shm_fifo_ctx_t) (o n : Nat)
    (el : List Nat) (buf1 : Nat → Nat) (ho : s.output_byte_idx = (o : Int))
    (hoP : o < s.shm_pool_size) (hP : s.shm_pool_size ≤ 2147483647)
    (hm : ∀ k, 9223372036854775808 ≤ k → pf.malloc k = false)
    (h : pull_copy_fragmented pf s = .ret (some (el, n, buf1))) :
    (¬ exhaust_ctrl s → buf1 = s.buf) ∧
      (exhaust_ctrl s → ring_written s.buf buf1 s.shm_pool_size o
        (List.replicate (8 + n) 0)) := by
  unfold pull_copy_fragmented at h
  split at h
  · cases h
  · rename_i hdr j _
    dsimp only at h
    split at h
    · cases h
    · split at h
      · cases h
      · rename_i hpos hmal
        have hlt : to_size_t (size_value hdr) < 9223372036854775808 := by
          by_contra hc
          exact hmal (hm _ (by omega))
        split at h
        · cases h
        · split at h
          · rename_i hx
            split at h
            · cases h
            · rename_i buf2 hset
              simp only [outcome.ret.injEq, Option.some.injEq, Prod.mk.injEq] at h
              obtain ⟨_, hn, hb⟩ := h
              refine ⟨fun hnx => absurd hx hnx, fun _ => ?_⟩
              rw [sizeof_val, size_add_small _ _ (by omega), ho, hn] at hset
              obtain ⟨buf3, h3, hz, hk⟩ := ring_zero_cast s.shm_pool_size hP (8 + n) o hoP s.buf
              rw [h3] at hset
              simp only [Option.some.injEq] at hset
              rw [← hb, ← hset]
              constructor
              · intro j hj
                rw [List.length_replicate] at hj
                rw [getD_zeros]
                exact hz j hj
              · intro a ha
                apply hk a
                intro j hj
                exact ha j (by rw [List.length_replicate]; exact hj)
          · rename_i hx
            simp only [outcome.ret.injEq, Option.some.injEq, Prod.mk.injEq] at h
            exact ⟨fun _ => h.2.2.symm, fun hxx => absurd hxx hx⟩

theorem pull_after_wait_flush (pf : platform) (s s1 : mp_shm_fifo_ctx_t) (o n : Nat)
    (e : Option (List Nat)) (ho : s.output_byte_idx = (o : Int))
    (hoP : o < s.shm_pool_size) (hP : s.shm_pool_size ≤ 2147483647)
    (hm : ∀ k, 9223372036854775808 ≤ k → pf.malloc k = false)
    (h : pull_after_wait pf s = .ret (MP_SUCCESS, e, n, s1)) :
    (¬ exhaust_ctrl s → s1.buf = s.buf) ∧
      (exhaust_ctrl s →
        (∀ i, i < 8 + n → s1.buf ((o + i) % s.shm_pool_size) = 0) ∧
        (∀ a, (∀ i, i < 8 + n → a ≠ (o + i) % s.shm_pool_size) → s1.buf a = s.buf a)) := by
  have hcopy : ∃ el buf1, pull_copy pf s = .ret (some (el, n, buf1)) ∧ s1.buf = buf1 := by
    unfold pull_after_wait at h
    split at h
    · simp only [outcome.ret.injEq, Prod.mk.injEq] at h
      exact absurd h.1 (by decide)
    · split at h
      · cases h
      · cases h
      · simp only [outcome.ret.injEq, Prod.mk.injEq] at h
        exact absurd h.1 (by decide)
      · rename_i el m buf1 hc
        simp only [outcome.ret.injEq, Prod.mk.injEq] at h
        rw [← h.2.2.1]
        exact ⟨el, buf1, hc, by rw [← h.2.2.2]⟩
  obtain ⟨el, buf1, hc, hb⟩ := hcopy
  have hw : (¬ exhaust_ctrl s → buf1 = s.buf) ∧
      (exhaust_ctrl s → ring_written s.buf buf1 s.shm_pool_size o
        (List.replicate (8 + n) 0)) := by
    unfold pull_copy at hc
    split at hc
    · exact pull_copy_fragmented_flush pf s o n el buf1 ho hoP hP hm hc
    · split at hc
      · cases hc
      · dsimp only at hc
        split at hc
        · cases hc
        · split at hc
          · exact pull_copy_fragmented_flush pf s o n el buf1 ho hoP hP hm hc
          · exact pull_copy_slot_flush pf s o n el buf1 ho hm hc
  rw [hb]
  refine ⟨hw.1, fun hx => ?_⟩
  obtain ⟨h1, h2⟩ := hw.2 hx
  constructor
  · intro i hi
    rw [h1 i (by rw [List.length_replicate]; exact hi), getD_zeros]
  · intro a ha
    apply h2 a
    intro j hj
    exact ha j (by rw [List.length_replicate] at hj; exact hj)

/-! ## A size field that is not positive -/

theorem to_ssize_t_bounds (x : Int) :
    -9223372036854775808 ≤ to_ssize_t x ∧ to_ssize_t x < 9223372036854775808 := by
  unfold to_ssize_t
  split_ifs <;> omega

theorem size_value_bounds (hdr : List Nat) :
    -9223372036854775808 ≤ size_value hdr ∧ size_value hdr < 9223372036854775808 :=
  to_ssize_t_bounds _

theorem corrupt_size_refused (pf : platform) (hdr : List Nat)
    (hm : ∀ k, 9223372036854775808 ≤ k → pf.malloc k = false) (hsz : size_value hdr ≤ 0) :
    ¬ to_size_t (size_value hdr) > 0 ∨ pf.malloc (to_size_t (size_value hdr)) = false := by
  have hb := (size_value_bounds hdr).1
  by_cases h0 : size_value hdr = 0
  · left
    rw [h0]
    decide
  · right
    apply hm
    unfold to_size_t
    omega

theorem corrupt_size_end (pf : platform) (v : Int)
    (hr : ¬ to_size_t v > 0 ∨ pf.malloc (to_size_t v) = false)
    (rest : outcome (Option (List Nat × Nat × (Nat → Nat)))) :
    (if ¬ to_size_t v > 0 then .ret none
      else if pf.malloc (to_size_t v) = false then .ret none else rest) =
      (.ret none : outcome (Option (List Nat × Nat × (Nat → Nat)))) := by
  rcases hr with h | h
  · rw [if_pos h]
  · rw [if_pos h]
    split <;> rfl

theorem pull_copy_corrupt_size (pf : platform) (s : mp_shm_fifo_ctx_t) (o : Nat)
    (ho : s.output_byte_idx = (o : Int)) (hoP : o < s.shm_pool_size)
    (hP : s.shm_pool_size ≤ 2147483647)
    (hm : ∀ k, 9223372036854775808 ≤ k → pf.malloc k = false)
    (hsz : size_value (ring_bytes s.buf s.shm_pool_size o 8) ≤ 0) :
    pull_copy pf s = .ret none := by
  have hr := corrupt_size_refused pf _ hm hsz
  have hfrag : pull_copy_fragmented pf s = .ret none := by
    unfold pull_copy_fragmented
    rw [sizeof_val, ho, ring_load_cast _ _ hP _ _ hoP]
    dsimp only
    exact corrupt_size_end pf _ hr _
  unfold pull_copy
  rw [sizeof_val, ho, to_size_t_cast _ (by omega), size_add_small _ _ (by omega)]
  by_cases hs : o + 8 > s.shm_pool_size
  · rw [if_pos hs]
    exact hfrag
  · rw [if_neg hs, pool_load_cast _ _ _ _ (by omega)]
    dsimp only
    rcases hr with h | h
    · rw [if_pos h]
    · by_cases h0 : ¬ to_size_t (size_value (ring_bytes s.buf s.shm_pool_size o 8)) > 0
      · rw [if_pos h0]
      · rw [if_neg h0]
        split
        · exact hfrag
        · unfold pull_copy_slot
          rw [sizeof_val, ho, pool_load_cast _ _ _ _ (by omega)]
          dsimp only
          exact corrupt_size_end pf _ (Or.inr h) _

theorem pull_corrupt_size_int_pool (pf : platform) (s : mp_shm_fifo_ctx_t) (o : Nat)
    (e0 : Option (List Nat)) (n0 : Nat) (tout_usecs : Int)
    (ho : s.output_byte_idx = (o : Int)) (hoP : o < s.shm_pool_size)
    (hP : s.shm_pool_size ≤ 2147483647)
    (hm : ∀ k, 9223372036854775808 ≤ k → pf.malloc k = false)
    (hsz : size_value (ring_bytes s.buf s.shm_pool_size o 8) ≤ 0)
    (hclk : ¬ (tout_usecs ≥ 0 ∧ pf.clock_gettime = none)) (hw : ¬ pull_must_wait s)
    (hread : ¬ (s.buf_level ≤ 0 ∧ nonblock s)) :
    mp_shm_fifo_pull pf (some s) (some e0) (some n0) tout_usecs =
      .ret ⟨MP_ERROR, some none, some 0, some s⟩ := by
  have : pull_locked pf s tout_usecs = .ret (MP_ERROR, none, 0, s) := by
    unfold pull_locked
    rw [if_neg hclk, pull_wait_skip _ _ _ hw]
    dsimp only
    unfold pull_after_wait
    rw [if_neg hread, pull_copy_corrupt_size pf s o ho hoP hP hm hsz]
  unfold mp_shm_fifo_pull
  simp only [this]

theorem pull_negative_size_runs_copy :
    size_value (ring_bytes shm_negative.buf shm_negative.shm_pool_size 0 8) = -1 ∧
      mp_shm_fifo_pull ⟨fun _ => true, none, []⟩ (some shm_negative) (some none) (some 0) (-1) =
        .fault ∧
      pull_outputs (mp_shm_fifo_pull ⟨malloc_below_ptrdiff_max, none, []⟩ (some shm_negative)
        (some none) (some 0) (-1)) = some (MP_ERROR, some none, some 0) :=
  ⟨by decide, by with_unfolding_all rfl, by decide⟩

/-! ## Creation and release -/

theorem create_null_name (pf : create_platform) (names : shm_namespace)
    (shm_pool_size flags : Nat) :
    mp_shm_fifo_create pf names none shm_pool_size flags = (none, names) := rfl

theorem create_busy_name (pf : create_platform) (names : shm_namespace) (name : List Nat)
    (shm_pool_size flags : Nat) (h : (names name).isSome = true) :
    mp_shm_fifo_create pf names (some name) shm_pool_size flags = (none, names) := by
  unfold mp_shm_fifo_create
  dsimp only
  split_ifs <;> first | rfl | simp_all

/-! ## Strings -/

theorem strcmp_self (l : List Nat) : strcmp l l = 0 := by
  induction l with
  | nil => rfl
  | cons a l ih =>
    unfold strcmp
    rw [if_pos rfl]
    exact ih

theorem strcmp_eq_zero (a b : List Nat) (ha : ∀ x, x ∈ a → x ≠ 0) (hb : ∀ x, x ∈ b → x ≠ 0) :
    strcmp a b = 0 ↔ a = b := by
  induction a generalizing b with
  | nil =>
    cases b with
    | nil => exact ⟨fun _ => rfl, fun _ => rfl⟩
    | cons y b =>
      have hy := hb y (List.mem_cons_self _ _)
      unfold strcmp
      constructor
      · intro h
        omega
      · intro h
        cases h
  | cons x a ih =>
    cases b with
    | nil =>
      have hx := ha x (List.mem_cons_self _ _)
      unfold strcmp
      constructor
      · intro h
        omega
      · intro h
        cases h
    | cons y b =>
      unfold strcmp
      by_cases hxy : x = y
      · rw [if_pos hxy, ih b (fun z hz => ha z (List.mem_cons_of_mem _ hz))
          (fun z hz => hb z (List.mem_cons_of_mem _ hz)), hxy]
        constructor
        · intro h
          rw [h]
        · intro h
          exact (List.cons.inj h).2
      · rw [if_neg hxy]
        constructor
        · intro h
          omega
        · intro h
          exact absurd (List.cons.inj h).1 hxy

/-! ## The processor interface -/

theorem proc_if_dup_replica (pf : dup_platform) (d : proc_if_t) (hc : pf.calloc = true)
    (hn : pf.strdup_proc_name = true ∨ d.proc_name = none)
    (ht : pf.strdup_proc_type = true ∨ d.proc_type = none) :
    proc_if_dup pf (some d) = some d := by
  have h1 : dup_string pf.strdup_proc_name d.proc_name = d.proc_name := by
    cases hd : d.proc_name with
    | none => rfl
    | some l =>
      rcases hn with h | h
      · simp [dup_string, mp_strdup, h]
      · rw [hd] at h
        cases h
  have h2 : dup_string pf.strdup_proc_type d.proc_type = d.proc_type := by
    cases hd : d.proc_type with
    | none => rfl
    | some l =>
      rcases ht with h | h
      · simp [dup_string, mp_strdup, h]
      · rw [hd] at h
        cases h
  simp only [proc_if_dup, proc_if_allocate, hc, if_true, h1, h2]

theorem proc_if_cmp_self (d : proc_if_t) (n t : List Nat) (hn : d.proc_name = some n)
    (ht : d.proc_type = some t) : proc_if_cmp (some d) (some d) = .ret MP_SUCCESS := by
  simp [proc_if_cmp, mp_strcmp, hn, ht, strcmp_self]

theorem proc_if_dup_cmp_round_trip (pf : dup_platform) (d r : proc_if_t) (n t : List Nat)
    (hn : d.proc_name = some n) (ht : d.proc_type = some t)
    (hsn : pf.strdup_proc_name = true) (hst : pf.strdup_proc_type = true)
    (h : proc_if_dup pf (some d) = some r) :
    proc_if_cmp (some r) (some d) = .ret MP_SUCCESS ∧
      proc_if_cmp (some d) (some r) = .ret MP_SUCCESS := by
  have hc : pf.calloc = true := by
    cases hcc : pf.calloc with
    | true => rfl
    | false => simp [proc_if_dup, proc_if_allocate, hcc] at h
  rw [proc_if_dup_replica pf d hc (Or.inl hsn) (Or.inl hst)] at h
  rw [← Option.some.inj h]
  exact ⟨proc_if_cmp_self d n t hn ht, proc_if_cmp_self d n t hn ht⟩

/-! ## Milliseconds -/

theorem gettime_generic_success (mp_clock_gettime : Int → Int × Option (Int × Int))
    (clockid : Int) (ts : Int × Int) (h : mp_clock_gettime clockid = (0, some ts)) :
    MP_GETTIME_GENERIC mp_clock_gettime clockid = TIMESPEC2MSEC ts := by
  unfold MP_GETTIME_GENERIC GETTIME
  rw [h]
  rfl

theorem gettime_generic_failure (mp_clock_gettime : Int → Int × Option (Int × Int))
    (clockid : Int) (h : (mp_clock_gettime clockid).1 ≠ 0) :
    MP_GETTIME_GENERIC mp_clock_gettime clockid = 0 := by
  unfold MP_GETTIME_GENERIC GETTIME
  rw [if_neg h]
  rfl

theorem timespec2msec_unsigned (sec nsec : Int) :
    TIMESPEC2MSEC (sec, nsec) =
      (to_uint64_t sec * 1000 + to_uint64_t nsec / 1000000) % 18446744073709551616 := by
  unfold TIMESPEC2MSEC
  dsimp only
  omega

theorem timespec2msec_value (sec nsec : Int) (h0 : 0 ≤ nsec)
    (h1 : nsec < 9223372036854775808) :
    TIMESPEC2MSEC (sec, nsec) = to_uint64_t (sec * 1000 + nsec / 1000000) := by
  unfold TIMESPEC2MSEC to_uint64_t
  dsimp only
  have hn : nsec % 18446744073709551616 = nsec := Int.emod_eq_of_lt h0 (by omega)
  rw [hn]
  obtain ⟨b, rfl⟩ := Int.eq_ofNat_of_zero_le h0
  have hq : (b : Int) / 1000000 = ((b / 1000000 : Nat) : Int) := by omega
  rw [hq, Int.toNat_ofNat]
  generalize b / 1000000 = q
  omega

/-! ## The check of the free slot under exhaustive checking -/

theorem push_exhaust_check (pf : platform) (s : mp_shm_fifo_ctx_t) (e : List Nat) (n : Nat)
    (hdr : List Nat) (hx : exhaust_ctrl s) (hn : 0 < n)
    (hE : size_add sizeof_shm_fifo_elem_ctx_t n ≤ s.shm_pool_size)
    (hroom : size_add (to_size_t s.buf_level) (size_add sizeof_shm_fifo_elem_ctx_t n) ≤
      s.shm_pool_size)
    (hslot : size_add (to_size_t s.input_byte_idx) (size_add sizeof_shm_fifo_elem_ctx_t n) ≤
      s.shm_pool_size)
    (hhdr : pool_load s.buf s.shm_pool_size s.input_byte_idx sizeof_shm_fifo_elem_ctx_t =
      some hdr)
    (hsz : size_value hdr ≠ 0) :
    mp_shm_fifo_push pf (some s) (some e) n = .ret (MP_ERROR, some s) := by
  have hcopy : push_copy pf s e n s.shm_pool_size (size_add sizeof_shm_fifo_elem_ctx_t n) =
      .ret none := by
    unfold push_copy
    rw [if_neg (by omega), if_pos hx, hhdr]
    dsimp only
    rw [if_pos hsz]
  unfold mp_shm_fifo_push
  dsimp only
  rw [if_neg (by omega), if_neg (by omega)]
  unfold push_locked
  rw [push_wait_skip _ _ _ _ (fun h => absurd h.1 (by omega))]
  dsimp only
  unfold push_after_wait
  rw [if_neg (fun h => absurd h.1 (by omega)), hcopy]

/-! ## The deadline of pull -/

theorem to_int64_t_range (x : Int) (h0 : -9223372036854775808 ≤ x)
    (h1 : x < 9223372036854775808) : to_int64_t x = x :=
  to_ssize_t_range x h0 h1

theorem pull_ts_tout_none (clock_gettime : Option (Int × Int)) (tout_usecs : Int) :
    pull_ts_tout clock_gettime tout_usecs = none ↔ tout_usecs ≥ 0 ∧ clock_gettime = none := by
  unfold pull_ts_tout
  constructor
  · intro h
    split at h
    · rename_i ht
      cases clock_gettime with
      | none => exact ⟨ht, rfl⟩
      | some ts => cases h
    · cases h
  · intro h
    rw [if_pos h.1, h.2]

theorem pull_clock_unread (m : Nat → Bool) (ws : List cond_wake)
    (clk1 clk2 : Option (Int × Int)) (tout_usecs : Int) (ht : tout_usecs < 0)
    (mp_shm_fifo_ctx : Option mp_shm_fifo_ctx_t) (ref_elem : Option (Option (List Nat)))
    (ref_elem_size : Option Nat) :
    mp_shm_fifo_pull ⟨m, clk1, ws⟩ mp_shm_fifo_ctx ref_elem ref_elem_size tout_usecs =
      mp_shm_fifo_pull ⟨m, clk2, ws⟩ mp_shm_fifo_ctx ref_elem ref_elem_size tout_usecs := by
  have hl : ∀ s, pull_locked ⟨m, clk1, ws⟩ s tout_usecs =
      pull_locked ⟨m, clk2, ws⟩ s tout_usecs := by
    intro s
    unfold pull_locked
    rw [if_neg (fun h => by omega), if_neg (fun h => by omega)]
    rfl
  unfold mp_shm_fifo_pull
  cases mp_shm_fifo_ctx with
  | none => rfl
  | some s =>
    cases ref_elem with
    | none => rfl
    | some e =>
      cases ref_elem_size with
      | none => rfl
      | some n =>
        dsimp only
        rw [hl s]

theorem pull_deadline_exact (tout_usecs sec nsec : Int) (ht : 0 ≤ tout_usecs) (hs : 0 ≤ sec)
    (hn0 : 0 ≤ nsec) (hn1 : nsec < 1000000000)
    (hsum : sec * 1000000000 + nsec + tout_usecs * 1000 < 9223372036854775808) :
    (pull_deadline tout_usecs (sec, nsec)).1 * 1000000000 +
        (pull_deadline tout_usecs (sec, nsec)).2 =
        sec * 1000000000 + nsec + tout_usecs * 1000 ∧
      0 ≤ (pull_deadline tout_usecs (sec, nsec)).2 ∧
      (pull_deadline tout_usecs (sec, nsec)).2 < 1000000000 := by
  unfold pull_deadline
  dsimp only
  rw [to_int64_t_range sec (by omega) (by omega),
    to_int64_t_range (sec * 1000000000) (by omega) (by omega),
    to_int64_t_range nsec (by omega) (by omega),
    to_int64_t_range (sec * 1000000000 + nsec) (by omega) (by omega),
    to_int64_t_range tout_usecs (by omega) (by omega),
    to_int64_t_range (tout_usecs * 1000) (by omega) (by omega),
    to_int64_t_range (sec * 1000000000 + nsec + tout_usecs * 1000) (by omega) (by omega)]
  have hT : 0 ≤ sec * 1000000000 + nsec + tout_usecs * 1000 := by omega
  rw [Int.tdiv_eq_ediv hT (by decide), Int.tmod_eq_emod hT (by decide)]
  omega

/-! ## The name recorded by a creation -/

theorem create_handle (pf : create_platform) (names : shm_namespace) (name : List Nat)
    (shm_pool_size flags : Nat) (h : mp_shm_fifo_ctx_t) (names1 : shm_namespace)
    (hc : mp_shm_fifo_create pf names (some name) shm_pool_size flags = (some h, names1)) :
    h = mp_shm_fifo_create_init name shm_pool_size flags ∧ names1 name = some h ∧
      name.length ≤ NAME_MAX ∧ names name = none := by
  unfold mp_shm_fifo_create at hc
  dsimp only at hc
  split at hc
  · cases hc
  · split at hc
    · cases hc
    · rename_i hlen
      split at hc
      · cases hc
      · rename_i hopen
        split at hc
        · cases hc
        · unfold create_sync create_release at hc
          split at hc
          · cases hc
          · split at hc
            · cases hc
            · split at hc
              · cases hc
              · simp only [Prod.mk.injEq, Option.some.injEq] at hc
                refine ⟨hc.1.symm, ?_, by omega, ?_⟩
                · rw [← hc.2, ← hc.1]
                  unfold shm_link
                  rw [if_pos rfl]
                · cases hn : names name with
                  | none => rfl
                  | some x => exact absurd (Or.inl (by rw [hn]; rfl)) hopen

theorem create_name_recorded (pf : create_platform) (names : shm_namespace) (name : List Nat)
    (shm_pool_size flags : Nat) (h : mp_shm_fifo_ctx_t) (names1 : shm_namespace)
    (hc : mp_shm_fifo_create pf names (some name) shm_pool_size flags = (some h, names1)) :
    h.shm_fifo_name = name.take (NAME_MAX - 1 - 1) ∧
      (name.length ≤ NAME_MAX - 1 - 1 → h.shm_fifo_name = name) := by
  obtain ⟨hh, _, _, _⟩ := create_handle pf names name shm_pool_size flags h names1 hc
  rw [hh]
  exact ⟨rfl, fun hl => List.take_of_length_le hl⟩

theorem create_calm_success (names : shm_namespace) (name : List Nat)
    (shm_pool_size flags : Nat) (hfree : names name = none) (hP : 0 < shm_pool_size)
    (hlen : name.length ≤ NAME_MAX) :
    mp_shm_fifo_create create_calm names (some name) shm_pool_size flags =
      (some (mp_shm_fifo_create_init name shm_pool_size flags),
        shm_link (shm_link names name shm_null) name
          (mp_shm_fifo_create_init name shm_pool_size flags)) := by
  unfold mp_shm_fifo_create
  dsimp only
  rw [if_neg (by omega), if_neg (by omega), hfree, if_neg (by simp [create_calm]),
    if_neg (by simp [create_calm])]
  unfold create_sync
  rw [if_neg (by simp [create_calm]), if_neg (by simp [create_calm]),
    if_neg (by simp [create_calm])]

theorem name_254_length : name_254.length = 254 := by
  unfold name_254
  rw [List.length_cons, List.length_replicate]

theorem name_254_take : name_254.take (NAME_MAX - 1 - 1) = 47 :: List.replicate 252 97 := by
  unfold name_254
  rw [show NAME_MAX - 1 - 1 = 252 + 1 from rfl, List.take_succ_cons, List.take_replicate]
  rfl

theorem name_254_cut : (47 :: List.replicate 252 97 : List Nat) ≠ name_254 := by
  intro h
  have hl := congrArg List.length h
  rw [name_254_length, List.length_cons, List.length_replicate] at hl
  omega

/-! ## The objects left by a creation that fails -/

theorem create_failure_unlinks (pf : create_platform) (names : shm_namespace)
    (name : List Nat) (shm_pool_size flags : Nat) (names1 : shm_namespace)
    (hfree : names name = none)
    (hc : mp_shm_fifo_create pf names (some name) shm_pool_size flags = (none, names1))
    (hmap : pf.shm_open = false ∨ (pf.ftruncate = true ∧ pf.mmap = true ∧
      name.length ≤ NAME_MAX - 1 - 1)) :
    names1 name = none := by
  have hrel : ∀ s : mp_shm_fifo_ctx_t, s.shm_fifo_name = name.take (NAME_MAX - 1 - 1) →
      name.length ≤ NAME_MAX - 1 - 1 →
      (create_release (shm_link names name shm_null) name s).2 name = none := by
    intro s hs hl
    unfold create_release mp_shm_fifo_release shm_unlink
    dsimp only
    rw [hs, List.take_of_length_le hl, if_pos rfl]
  unfold mp_shm_fifo_create at hc
  dsimp only at hc
  split at hc
  · cases hc; exact hfree
  · split at hc
    · cases hc; exact hfree
    · split at hc
      · cases hc; exact hfree
      · rename_i hopen
        have hop : pf.shm_open = true := by
          cases ho : pf.shm_open with
          | true => rfl
          | false => exact absurd (Or.inr ho) hopen
        rcases hmap with h1 | ⟨hf, hm, hl⟩
        · rw [hop] at h1
          cases h1
        · rw [if_neg (by simp [hf, hm])] at hc
          unfold create_sync at hc
          split at hc
          · rw [← (Prod.mk.inj hc).2]
            exact hrel _ rfl hl
          · split at hc
            · rw [← (Prod.mk.inj hc).2]
              exact hrel _ rfl hl
            · split at hc
              · rw [← (Prod.mk.inj hc).2]
                exact hrel _ rfl hl
              · cases hc

theorem create_long_name_stays_on_mutex_failure :
    (mp_shm_fifo_create create_no_mutex names_none (some name_254) 25 0).1.isNone = true ∧
      ((mp_shm_fifo_create create_no_mutex names_none (some name_254) 25 0).2
        name_254).isSome = true := by
  have hc : mp_shm_fifo_create create_no_mutex names_none (some name_254) 25 0 =
      create_release (shm_link names_none name_254 shm_null) name_254
        (create_named name_254 25 0) := by
    unfold mp_shm_fifo_create
    dsimp only
    rw [if_neg (by decide), if_neg (by rw [name_254_length]; decide),
      if_neg (by simp [names_none, create_no_mutex]), if_neg (by simp [create_no_mutex])]
    unfold create_sync
    rw [if_pos (by simp [create_no_mutex])]
  rw [hc]
  refine ⟨rfl, ?_⟩
  unfold create_release mp_shm_fifo_release shm_unlink
  dsimp only
  rw [show (create_named name_254 25 0).shm_fifo_name = name_254.take (NAME_MAX - 1 - 1) from rfl,
    name_254_take, if_neg (fun h => name_254_cut h.symm)]
  unfold shm_link
  rw [if_pos rfl]
  rfl

/-! ## Milliseconds of successive readings -/

theorem to_uint64_t_nonneg (x : Int) (h0 : 0 ≤ x) (h1 : x < 18446744073709551616) :
    to_uint64_t x = x.toNat := by
  unfold to_uint64_t
  rw [Int.emod_eq_of_lt h0 h1]

theorem timespec2msec_mono (s1 n1 s2 n2 : Int) (hs1 : 0 ≤ s1) (h1 : 0 ≤ n1)
    (h1b : n1 < 1000000000) (h2 : 0 ≤ n2) (h2b : n2 < 1000000000)
    (hle : s1 < s2 ∨ (s1 = s2 ∧ n1 ≤ n2)) (hs2 : s2 * 1000 + 999 < 18446744073709551616) :
    TIMESPEC2MSEC (s1, n1) ≤ TIMESPEC2MSEC (s2, n2) := by
  rw [timespec2msec_value s1 n1 h1 (by omega), timespec2msec_value s2 n2 h2 (by omega),
    to_uint64_t_nonneg _ (by omega) (by omega), to_uint64_t_nonneg _ (by omega) (by omega)]
  omega

theorem gettime_monot_const (sec nsec : Int) :
    mp_gettime_monot_msecs (fun _ => (0, some (sec, nsec))) = TIMESPEC2MSEC (sec, nsec) ∧
      mp_gettime_monotcoarse_msecs (fun _ => (0, some (sec, nsec))) =
        TIMESPEC2MSEC (sec, nsec) :=
  ⟨gettime_generic_success _ _ _ rfl, gettime_generic_success _ _ _ rfl⟩

/-! ## The placement of a push while the pool size fits the `int` cursors -/

theorem push_after_wait_placement (pf : platform) (s s1 : mp_shm_fifo_ctx_t) (e : List Nat)
    (n P E i : Nat) (hidx : s.input_byte_idx = (i : Int)) (hi : i < P) (hP : P ≤ 2147483647)
    (hE : E = size_add sizeof_shm_fifo_elem_ctx_t n) (hEP : E ≤ P)
    (h : push_after_wait pf s e n P E = .ret (MP_SUCCESS, s1)) :
    n ≤ e.length ∧ E = 8 + n ∧ ring_written s.buf s1.buf P i (frame (e.take n)) ∧
      s1.slots_used_cnt = to_ssize_t (s.slots_used_cnt + 1) ∧
      s1.buf_level = to_ssize_t (s.buf_level + (E : Int)) ∧
      s1.input_byte_idx = (((i + E) % P : Nat) : Int) := by
  have hlev := push_after_wait_level pf s s1 e n P E h
  unfold push_after_wait at h
  split at h
  · simp only [outcome.ret.injEq, Prod.mk.injEq] at h
    exact absurd h.1 (by decide)
  · split at h
    · cases h
    · cases h
    · simp only [outcome.ret.injEq, Prod.mk.injEq] at h
      exact absurd h.1 (by decide)
    · rename_i buf1 hc
      simp only [outcome.ret.injEq, Prod.mk.injEq] at h
      obtain ⟨hn, hE8, hw⟩ := push_copy_success pf s e n P E i buf1 hidx hi hP hE hEP hc
      have h2 := h.2
      subst h2
      refine ⟨hn, hE8, hw, rfl, hlev, ?_⟩
      dsimp only
      have hpos : 0 < P := by omega
      rw [hidx, to_size_t_cast _ (by omega), size_add_small _ _ (by omega),
        to_int_cast _ (by have := Nat.mod_lt (i + E) hpos; omega)]

theorem push_after_wait_counts (pf : platform) (s s1 : mp_shm_fifo_ctx_t) (q : List (List Nat))
    (e : List Nat) (n E : Nat) (hq : holds s q)
    (hE : E = size_add sizeof_shm_fifo_elem_ctx_t n) (hEP : E ≤ s.shm_pool_size) (hn : 0 < n)
    (hroom : size_add (to_size_t s.buf_level) E ≤ s.shm_pool_size)
    (h : push_after_wait pf s e n s.shm_pool_size E = .ret (MP_SUCCESS, s1)) :
    s1.slots_used_cnt = s.slots_used_cnt + 1 ∧ s1.buf_level = s.buf_level + (E : Int) ∧
      s1.input_byte_idx = (((s.input_byte_idx.toNat + E) % s.shm_pool_size : Nat) : Int) ∧
      ring_written s.buf s1.buf s.shm_pool_size s.input_byte_idx.toNat (frame (e.take n)) := by
  obtain ⟨o, i, ho, hoP, hi, hiP, hio⟩ := holds_input_idx s q hq
  obtain ⟨hlen, hE8, _, _, _, hidx⟩ :=
    push_after_wait_placement pf s s1 e n s.shm_pool_size E i hi hiP hq.pool_int hE hEP h
  rcases push_after_wait_holds pf s s1 q e n E MP_SUCCESS hq hE hEP hn hroom h with
    ⟨hc, _⟩ | ⟨_, _, _, hq1, _, _, _, _, hw⟩
  · exact absurd rfl hc
  · have hl : (e.take n).length = n := by
      rw [List.length_take]
      omega
    refine ⟨?_, ?_, ?_, hw⟩
    · rw [hq1.slots, hq.slots, List.length_append]
      simp
    · rw [hq1.level, hq.level, frames_bytes_append, List.length_append, frame_length, hl, hE8]
      push_cast
      ring
    · rw [hidx, hi]
      simp

/-! ## The placement of a pull while the pool size fits the `int` cursors -/

theorem pool_load_some (buf : Nat → Nat) (P o n : Nat) (l : List Nat)
    (h : pool_load buf P (o : Int) n = some l) : o + n ≤ P ∧ l = ring_bytes buf P o n := by
  have hfit : o + n ≤ P := by
    unfold pool_load at h
    split at h
    · rename_i hc
      omega
    · cases h
  rw [pool_load_cast _ _ _ _ hfit] at h
  exact ⟨hfit, (Option.some.inj h).symm⟩

theorem pull_copy_slot_placement (pf : platform) (s : mp_shm_fifo_ctx_t) (o n : Nat)
    (el : List Nat) (buf1 : Nat → Nat) (ho : s.output_byte_idx = (o : Int))
    (h : pull_copy_slot pf s = .ret (some (el, n, buf1))) :
    n = to_size_t (size_value (ring_bytes s.buf s.shm_pool_size o 8)) ∧ 0 < n ∧
      pf.malloc n = true ∧ o + 8 + n ≤ s.shm_pool_size ∧
      el = ring_bytes s.buf s.shm_pool_size ((o + 8) % s.shm_pool_size) n := by
  unfold pull_copy_slot at h
  rw [sizeof_val, ho, show (o : Int) + ((8 : Nat) : Int) = ((o + 8 : Nat) : Int) by omega] at h
  split at h
  · cases h
  · rename_i hdr hl
    obtain ⟨_, hhdr⟩ := pool_load_some _ _ _ _ _ hl
    dsimp only at h
    split at h
    · cases h
    · split at h
      · cases h
      · rename_i hpos hmal
        split at h
        · cases h
        · rename_i el1 hl1
          obtain ⟨hfit, hel⟩ := pool_load_some _ _ _ _ _ hl1
          have hres : el1 = el ∧ to_size_t (size_value hdr) = n := by
            split at h
            · split at h
              · cases h
              · simp only [outcome.ret.injEq, Option.some.injEq, Prod.mk.injEq] at h
                exact ⟨h.1, h.2.1⟩
            · simp only [outcome.ret.injEq, Option.some.injEq, Prod.mk.injEq] at h
              exact ⟨h.1, h.2.1⟩
          obtain ⟨he, hn⟩ := hres
          rw [hn] at hpos hmal hfit hel
          have hpos1 : 0 < n := by omega
          refine ⟨by rw [← hn, hhdr], hpos1, by simpa using hmal, by omega, ?_⟩
          rw [← he, hel, Nat.mod_eq_of_lt (by omega)]

theorem pull_copy_fragmented_placement (pf : platform) (s : mp_shm_fifo_ctx_t) (o n : Nat)
    (el : List Nat) (buf1 : Nat → Nat) (ho : s.output_byte_idx = (o : Int))
    (hoP : o < s.shm_pool_size) (hP : s.shm_pool_size ≤ 2147483647)
    (h : pull_copy_fragmented pf s = .ret (some (el, n, buf1))) :
    n = to_size_t (size_value (ring_bytes s.buf s.shm_pool_size o 8)) ∧ 0 < n ∧
      pf.malloc n = true ∧
      el = ring_bytes s.buf s.shm_pool_size ((o + 8) % s.shm_pool_size) n := by
  unfold pull_copy_fragmented at h
  rw [sizeof_val, ho, ring_load_cast _ _ hP 8 o hoP] at h
  dsimp only at h
  split at h
  · cases h
  · split at h
    · cases h
    · rename_i hpos hmal
      rw [ring_load_cast _ _ hP _ _ (Nat.mod_lt _ (by omega))] at h
      dsimp only at h
      have hres : ring_bytes s.buf s.shm_pool_size ((o + 8) % s.shm_pool_size)
          (to_size_t (size_value (ring_bytes s.buf s.shm_pool_size o 8))) = el ∧
          to_size_t (size_value (ring_bytes s.buf s.shm_pool_size o 8)) = n := by
        split at h
        · split at h
          · cases h
          · simp only [outcome.ret.injEq, Option.some.injEq, Prod.mk.injEq] at h
            exact ⟨h.1, h.2.1⟩
        · simp only [outcome.ret.injEq, Option.some.injEq, Prod.mk.injEq] at h
          exact ⟨h.1, h.2.1⟩
      obtain ⟨he, hn⟩ := hres
      rw [hn] at hpos hmal he
      exact ⟨hn.symm, by omega, by simpa using hmal, he.symm⟩

theorem pull_copy_placement (pf : platform) (s : mp_shm_fifo_ctx_t) (o n : Nat)
    (el : List Nat) (buf1 : Nat → Nat) (ho : s.output_byte_idx = (o : Int))
    (hoP : o < s.shm_pool_size) (hP : s.shm_pool_size ≤ 2147483647)
    (h : pull_copy pf s = .ret (some (el, n, buf1))) :
    n = to_size_t (size_value (ring_bytes s.buf s.shm_pool_size o 8)) ∧ 0 < n ∧
      pf.malloc n = true ∧
      el = ring_bytes s.buf s.shm_pool_size ((o + 8) % s.shm_pool_size) n := by
  unfold pull_copy at h
  split at h
  · exact pull_copy_fragmented_placement pf s o n el buf1 ho hoP hP h
  · split at h
    · cases h
    · dsimp only at h
      split at h
      · cases h
      · split at h
        · exact pull_copy_fragmented_placement pf s o n el buf1 ho hoP hP h
        · obtain ⟨h1, h2, h3, _, h5⟩ := pull_copy_slot_placement pf s o n el buf1 ho h
          exact ⟨h1, h2, h3, h5⟩

theorem pull_after_wait_placement (pf : platform) (s s1 : mp_shm_fifo_ctx_t) (o n : Nat)
    (e : Option (List Nat)) (ho : s.output_byte_idx = (o : Int))
    (hoP : o < s.shm_pool_size) (hP : s.shm_pool_size ≤ 2147483647)
    (h : pull_after_wait pf s = .ret (MP_SUCCESS, e, n, s1)) :
    n = to_size_t (size_value (ring_bytes s.buf s.shm_pool_size o 8)) ∧ 0 < n ∧
      e = some (ring_bytes s.buf s.shm_pool_size ((o + 8) % s.shm_pool_size) n) ∧
      ∀ j, j < n → (ring_bytes s.buf s.shm_pool_size ((o + 8) % s.shm_pool_size) n).getD j 0 =
        s.buf ((o + 8 + j) % s.shm_pool_size) := by
  have hcopy : ∃ el buf1, pull_copy pf s = .ret (some (el, n, buf1)) ∧ e = some el := by
    unfold pull_after_wait at h
    split at h
    · simp only [outcome.ret.injEq, Prod.mk.injEq] at h
      exact absurd h.1 (by decide)
    · split at h
      · cases h
      · cases h
      · simp only [outcome.ret.injEq, Prod.mk.injEq] at h
        exact absurd h.1 (by decide)
      · rename_i el m buf1 hc
        simp only [outcome.ret.injEq, Prod.mk.injEq] at h
        rw [← h.2.2.1]
        exact ⟨el, buf1, hc, h.2.1.symm⟩
  obtain ⟨el, buf1, hc, he⟩ := hcopy
  obtain ⟨h1, h2, _, h4⟩ := pull_copy_placement pf s o n el buf1 ho hoP hP hc
  refine ⟨h1, h2, by rw [he, h4], ?_⟩
  intro j hj
  rw [ring_bytes_getD _ _ _ _ _ hj, Nat.mod_add_mod]

/-! ## The two read paths of pull while the pool size fits the `int` cursors -/

theorem pull_paths_agree (pf : platform) (s : mp_shm_fifo_ctx_t) (o n : Nat)
    (ho : s.output_byte_idx = (o : Int)) (hP : s.shm_pool_size ≤ 2147483647)
    (hn : to_size_t (size_value (ring_bytes s.buf s.shm_pool_size o 8)) = n) (hpos : 0 < n)
    (hfit : o + 8 + n ≤ s.shm_pool_size) :
    pull_copy_fragmented pf s = pull_copy_slot pf s := by
  have hoP : o < s.shm_pool_size := by omega
  have ho8 : (o + 8) % s.shm_pool_size = o + 8 := Nat.mod_eq_of_lt (by omega)
  cases hm : pf.malloc n with
  | false =>
    have hF : pull_copy_fragmented pf s = .ret none := by
      unfold pull_copy_fragmented
      rw [sizeof_val, ho, ring_load_cast _ _ hP 8 o hoP]
      dsimp only
      rw [hn, if_neg (by omega), if_pos hm]
    have hS : pull_copy_slot pf s = .ret none := by
      unfold pull_copy_slot
      rw [sizeof_val, ho, pool_load_cast _ _ _ _ (by omega)]
      dsimp only
      rw [hn, if_neg (by omega), if_pos hm]
    rw [hF, hS]
  | true =>
    have hmt : ¬ pf.malloc n = false := by rw [hm]; decide
    by_cases hx : exhaust_ctrl s
    · have hF : pull_copy_fragmented pf s =
          .ret (some (ring_bytes s.buf s.shm_pool_size (o + 8) n, n,
            fun a => if o ≤ a ∧ a < o + (8 + n) then 0 else s.buf a)) := by
        unfold pull_copy_fragmented
        rw [sizeof_val, ho, ring_load_cast _ _ hP 8 o hoP]
        dsimp only
        rw [hn, if_neg (by omega), if_neg hmt, ho8,
          ring_load_cast _ _ hP n (o + 8) (by omega)]
        dsimp only
        rw [if_pos hx, size_add_small 8 n (by omega)]
        obtain ⟨buf3, h3, hz, hk⟩ := ring_zero_cast s.shm_pool_size hP (8 + n) o hoP s.buf
        rw [h3]
        dsimp only
        have hb : buf3 = fun a => if o ≤ a ∧ a < o + (8 + n) then 0 else s.buf a := by
          funext a
          by_cases ha : o ≤ a ∧ a < o + (8 + n)
          · rw [if_pos ha]
            have hza := hz (a - o) (by omega)
            rw [Nat.mod_eq_of_lt (by omega), show o + (a - o) = a by omega] at hza
            exact hza
          · rw [if_neg ha]
            apply hk
            intro j hj
            rw [Nat.mod_eq_of_lt (by omega)]
            omega
        rw [hb]
      have hS : pull_copy_slot pf s =
          .ret (some (ring_bytes s.buf s.shm_pool_size (o + 8) n, n,
            fun a => if o ≤ a ∧ a < o + (8 + n) then 0 else s.buf a)) := by
        unfold pull_copy_slot
        rw [sizeof_val, ho, pool_load_cast _ _ _ _ (by omega)]
        dsimp only
        rw [hn, if_neg (by omega), if_neg hmt,
          show (o : Int) + ((8 : Nat) : Int) = ((o + 8 : Nat) : Int) by omega,
          pool_load_cast _ _ _ _ (by omega)]
        dsimp only
        rw [if_pos hx, size_add_small 8 n (by omega), pool_memset_cast _ _ _ _ (by omega)]
      rw [hF, hS]
    · have hF : pull_copy_fragmented pf s =
          .ret (some (ring_bytes s.buf s.shm_pool_size (o + 8) n, n, s.buf)) := by
        unfold pull_copy_fragmented
        rw [sizeof_val, ho, ring_load_cast _ _ hP 8 o hoP]
        dsimp only
        rw [hn, if_neg (by omega), if_neg hmt, ho8,
          ring_load_cast _ _ hP n (o + 8) (by omega)]
        dsimp only
        rw [if_neg hx]
      have hS : pull_copy_slot pf s =
          .ret (some (ring_bytes s.buf s.shm_pool_size (o + 8) n, n, s.buf)) := by
        unfold pull_copy_slot
        rw [sizeof_val, ho, pool_load_cast _ _ _ _ (by omega)]
        dsimp only
        rw [hn, if_neg (by omega), if_neg hmt,
          show (o : Int) + ((8 : Nat) : Int) = ((o + 8 : Nat) : Int) by omega,
          pool_load_cast _ _ _ _ (by omega)]
        dsimp only
        rw [if_neg hx]
      rw [hF, hS]

theorem pull_copy_path (pf : platform) (s : mp_shm_fifo_ctx_t) (o n : Nat)
    (ho : s.output_byte_idx = (o : Int)) (hoP : o < s.shm_pool_size)
    (hP : s.shm_pool_size ≤ 2147483647)
    (hn : to_size_t (size_value (ring_bytes s.buf s.shm_pool_size o 8)) = n) :
    (s.shm_pool_size < o + 8 → pull_copy pf s = pull_copy_fragmented pf s) ∧
    (o + 8 ≤ s.shm_pool_size → 0 < n → n < 9223372036854775808 → s.shm_pool_size < o + 8 + n →
      pull_copy pf s = pull_copy_fragmented pf s) ∧
    (0 < n → o + 8 + n ≤ s.shm_pool_size → pull_copy pf s = pull_copy_slot pf s) := by
  refine ⟨?_, ?_, ?_⟩
  · intro hw
    unfold pull_copy
    rw [sizeof_val, ho, to_size_t_cast _ (by omega), size_add_small _ _ (by omega),
      if_pos (by omega)]
  · intro hh hpos hlt hw
    unfold pull_copy
    rw [sizeof_val, ho, to_size_t_cast _ (by omega), size_add_small _ _ (by omega),
      if_neg (by omega), pool_load_cast _ _ _ _ (by omega)]
    dsimp only
    rw [hn, if_neg (by omega), size_add_small _ _ (by omega), if_pos (by omega)]
  · intro hpos hfit
    unfold pull_copy
    rw [sizeof_val, ho, to_size_t_cast _ (by omega), size_add_small _ _ (by omega),
      if_neg (by omega), pool_load_cast _ _ _ _ (by omega)]
    dsimp only
    rw [hn, if_neg (by omega), size_add_small _ _ (by omega), if_neg (by omega)]

/-! ## The free slot under exhaustive checking -/

theorem exhaust_check_passes (s : mp_shm_fifo_ctx_t) (q : List (List Nat)) (n : Nat)
    (hq : holds s q) (hf : free_is_null s) (hx : exhaust_ctrl s)
    (hroom : (frames_bytes q).length + (8 + n) ≤ s.shm_pool_size)
    (hslot : s.input_byte_idx + ((8 + n : Nat) : Int) ≤ s.shm_pool_size) :
    ∃ hdr, pool_load s.buf s.shm_pool_size s.input_byte_idx sizeof_shm_fifo_elem_ctx_t =
      some hdr ∧ size_value hdr = 0 := by
  obtain ⟨o, i, ho, hoP, hi, hiP, hio⟩ := holds_input_idx s q hq
  rw [hi] at hslot
  rw [sizeof_val, hi, pool_load_cast _ _ _ _ (by omega)]
  refine ⟨_, rfl, ?_⟩
  apply size_value_zeros
  intro j hj
  rw [ring_bytes_length] at hj
  rw [ring_bytes_getD _ _ _ _ _ hj]
  have := hf hx j (by rw [hq.level]; omega)
  rw [hi] at this
  exact this

theorem reachable_exhaust_check_passes (name : List Nat) (P flags : Nat) (h0 : 0 < P)
    (hP : P ≤ 2147483647) (s : mp_shm_fifo_ctx_t)
    (h : reachable (mp_shm_fifo_create_init name P flags) s) (hxf : s.flag_exit = 0)
    (hx : exhaust_ctrl s) (n : Nat)
    (hroom : s.buf_level + ((8 + n : Nat) : Int) ≤ s.shm_pool_size)
    (hslot : s.input_byte_idx + ((8 + n : Nat) : Int) ≤ s.shm_pool_size) :
    (∀ i, i < s.shm_pool_size - s.buf_level.toNat →
      s.buf ((s.input_byte_idx.toNat + i) % s.shm_pool_size) = 0) ∧
    ∃ hdr, pool_load s.buf s.shm_pool_size s.input_byte_idx sizeof_shm_fifo_elem_ctx_t =
      some hdr ∧ size_value hdr = 0 := by
  obtain ⟨q, hq, hf⟩ := reachable_holds name P flags h0 hP s h hxf
  refine ⟨hf hx, exhaust_check_passes s q n hq hf hx ?_ hslot⟩
  have := hq.level
  omega

/-! ## Reachable segments in pools beyond the range of the `int` cursors -/

theorem reachable_shm_edge_wrapped : reachable shm_edge shm_edge_wrapped :=
  reachable.push calm shm_edge_turned shm_edge_wrapped
    (some [1, 2, 3, 4, 5, 6, 7, 8, 9, 10, 11]) 11 MP_SUCCESS reachable_shm_edge_turned
    (fun w hw => by cases hw) (by decide) (by with_unfolding_all rfl)

theorem reachable_shm_edgex_pulled : reachable shm_edgex shm_edgex_pulled :=
  reachable.pull calm shm_edgex_wrapped shm_edgex_pulled none 0 (-1)
    ⟨MP_SUCCESS, some (some [1, 2, 9, 10, 11, 0, 0, 0, 0, 0, 0]), some 11,
      some shm_edgex_pulled⟩
    reachable_shm_edgex_wrapped (fun w hw => by cases hw) (by with_unfolding_all rfl) rfl

theorem push_hugex_one : mp_shm_fifo_push ⟨fun _ => true, none, []⟩ (some shm_hugex)
    (some huge_payload) 4294967288 = .ret (MP_SUCCESS, some shm_hugex_one) :=
  push_slot_run_exhaust ⟨fun _ => true, none, []⟩ shm_hugex huge_payload 4294967288 0 0 rfl rfl
    (by decide) (by rw [huge_payload_length]) (by decide) (by decide) (by decide) (by decide)

theorem reachable_shm_hugex_one : reachable shm_hugex shm_hugex_one :=
  reachable.push ⟨fun _ => true, none, []⟩ shm_hugex shm_hugex_one (some huge_payload)
    4294967288 MP_SUCCESS reachable.init (fun w hw => by cases hw) (by decide) push_hugex_one

theorem exhaust_check_fails_huge_pool :
    reachable shm_hugex shm_hugex_one ∧ shm_hugex_one.flag_exit = 0 ∧
      exhaust_ctrl shm_hugex_one ∧
      shm_hugex_one.buf_level + ((8 + 8 : Nat) : Int) ≤ shm_hugex_one.shm_pool_size ∧
      mp_shm_fifo_push calm (some shm_hugex_one) (some [1, 2, 3, 4, 5, 6, 7, 8]) 8 =
        .ret (MP_ERROR, some shm_hugex_one) :=
  ⟨reachable_shm_hugex_one, rfl, by decide, by decide,
    push_exhaust_check calm shm_hugex_one [1, 2, 3, 4, 5, 6, 7, 8] 8 [248, 255, 255, 255, 0, 0, 0, 0]
      (by decide) (by decide) (by decide) (by decide) (by decide) (by decide) (by decide)⟩

/-! ## A segment with a negative level -/

theorem reachable_shm_underrun : reachable shm_fresh shm_underrun :=
  reachable.pull ⟨fun _ => true, none, [⟨0, mp_shm_fifo_release_shm shm_drained⟩]⟩ shm_drained
    shm_underrun none 0 (-1)
    ⟨0, some (some [1, 2, 3, 4, 5, 6, 7, 8, 9, 10, 11, 12, 13, 14, 15, 16, 17]), some 17,
      some shm_underrun⟩
    reachable_shm_drained
    (fun w hw => by
      rw [List.mem_singleton] at hw
      rw [hw]
      exact reachable.release shm_drained reachable_shm_drained)
    (by with_unfolding_all rfl) rfl

theorem reachable_shm_underrun_nb : reachable shm_fresh shm_underrun_nb :=
  reachable.set_blocking_mode shm_underrun shm_underrun_nb 0 reachable_shm_underrun rfl

/-! ## The overflow exit of a non-blocking push while the level is within the pool -/

/-- On a non-blocking FIFO whose level is within the pool (`0 ≤ buf_level ≤ pool_size`, the
pool size being representable in `ssize_t`), a valid push (non-null payload, `size > 0`, framed
size at most the pool size) returns `MP_ENOMEM` if and only if
`buf_level + framed_size > pool_size`. -/
theorem push_nonblock_enomem_iff (pf : platform) (s : mp_shm_fifo_ctx_t) (e : List Nat) (n : Nat)
    (hnb : nonblock s) (hn : 0 < n) (hfit : sizeof_shm_fifo_elem_ctx_t + n ≤ s.shm_pool_size)
    (hP : s.shm_pool_size < 9223372036854775808)
    (h0 : 0 ≤ s.buf_level) (h1 : s.buf_level ≤ s.shm_pool_size) :
    (∃ h, mp_shm_fifo_push pf (some s) (some e) n = .ret (MP_ENOMEM, h)) ↔
      s.buf_level + ((sizeof_shm_fifo_elem_ctx_t + n : Nat) : Int) > s.shm_pool_size := by
  have hE : size_add sizeof_shm_fifo_elem_ctx_t n = 8 + n := by
    unfold size_add; simp only [sizeof_shm_fifo_elem_ctx_t] at hfit ⊢; omega
  have hfull : size_add (to_size_t s.buf_level) (8 + n) > s.shm_pool_size ↔
      s.buf_level + ((sizeof_shm_fifo_elem_ctx_t + n : Nat) : Int) > s.shm_pool_size := by
    unfold size_add to_size_t; simp only [sizeof_shm_fifo_elem_ctx_t] at hfit ⊢; omega
  have hpush : mp_shm_fifo_push pf (some s) (some e) n =
      match push_locked pf s e n s.shm_pool_size (8 + n) with
      | .ret (c, s1) => .ret (c, some s1)
      | .blocked => .blocked
      | .fault => .fault := by
    unfold mp_shm_fifo_push
    simp only [hE]
    rw [if_neg (by omega), if_neg (by simp only [sizeof_shm_fifo_elem_ctx_t] at hfit; omega)]
  rw [hpush]
  unfold push_locked
  rw [push_wait_nonblock _ _ _ _ hnb]
  simp only []
  unfold push_after_wait
  constructor
  · rintro ⟨h, hh⟩
    by_contra hc
    rw [if_neg (fun hx => hc (hfull.mp hx.1))] at hh
    generalize push_copy pf s e n s.shm_pool_size (8 + n) = r at hh
    rcases r with (_ | _) | _ | _ <;> simp at hh
  · intro hc
    rw [if_pos ⟨hfull.mpr hc, hnb⟩]
    exact ⟨some s, rfl⟩

/-- The overflow scenario of the tests: a 5-byte push after a 16-byte push into a pool of 25
bytes. -/
theorem push_nonblock_enomem_iff_witness :
    (∃ h, mp_shm_fifo_push ⟨fun _ => true, none, []⟩
        (some shm_one_frame) (some [102, 97, 105, 108, 0]) 5 = .ret (MP_ENOMEM, h)) ↔
      (24 : Int) + ((sizeof_shm_fifo_elem_ctx_t + 5 : Nat) : Int) > (25 : Nat) :=
  push_nonblock_enomem_iff ⟨fun _ => true, none, []⟩ shm_one_frame [102, 97, 105, 108, 0] 5
    (by decide) (by decide) (by decide) (by decide) (by decide) (by decide)

/-! ## The deadline of pull within the range of `int64_t` -/

/-- Within the range of `int64_t`: for every time-out `tout_usecs >= 0` and every clock reading `(sec, nsec)`
with `sec >= 0` and `0 <= nsec < 1000000000` for which `sec * 10^9 + nsec + tout_usecs * 1000`
is within `int64_t`, the deadline `(tv_sec, tv_nsec)` computed by `mp_shm_fifo_pull` satisfies
`tv_sec * 10^9 + tv_nsec = sec * 10^9 + nsec + tout_usecs * 1000` with
`0 <= tv_nsec < 1000000000`; for `tout_usecs < 0` no deadline is computed (`ts_tout` keeps its
initial value) and the clock is not read: the call does the same whatever the clock would
give. -/
theorem pull_deadline_arithmetic (tout_usecs : Int) :
    (∀ sec nsec : Int, 0 ≤ tout_usecs → 0 ≤ sec → 0 ≤ nsec → nsec < 1000000000 →
      sec * 1000000000 + nsec + tout_usecs * 1000 < 9223372036854775808 →
      ∃ tv_sec tv_nsec : Int,
        pull_ts_tout (some (sec, nsec)) tout_usecs = some (tv_sec, tv_nsec) ∧
        tv_sec * 1000000000 + tv_nsec = sec * 1000000000 + nsec + tout_usecs * 1000 ∧
        0 ≤ tv_nsec ∧ tv_nsec < 1000000000) ∧
    (tout_usecs < 0 →
      (∀ clock_gettime, pull_ts_tout clock_gettime tout_usecs = some (0, 0)) ∧
      ∀ (m : Nat → Bool) (ws : List cond_wake) (clk1 clk2 : Option (Int × Int))
        (mp_shm_fifo_ctx : Option mp_shm_fifo_ctx_t) (ref_elem : Option (Option (List Nat)))
        (ref_elem_size : Option Nat),
        mp_shm_fifo_pull ⟨m, clk1, ws⟩ mp_shm_fifo_ctx ref_elem ref_elem_size tout_usecs =
          mp_shm_fifo_pull ⟨m, clk2, ws⟩ mp_shm_fifo_ctx ref_elem ref_elem_size tout_usecs) := by
  constructor
  · intro sec nsec ht hs hn0 hn1 hsum
    refine ⟨(pull_deadline tout_usecs (sec, nsec)).1, (pull_deadline tout_usecs (sec, nsec)).2,
      ?_, pull_deadline_exact tout_usecs sec nsec ht hs hn0 hn1 hsum⟩
    unfold pull_ts_tout
    rw [if_pos ht]
  · intro ht
    constructor
    · intro clock_gettime
      unfold pull_ts_tout
      rw [if_neg (by omega)]
    · intro m ws clk1 clk2 mp_shm_fifo_ctx ref_elem ref_elem_size
      exact pull_clock_unread m ws clk1 clk2 tout_usecs ht mp_shm_fifo_ctx ref_elem
        ref_elem_size

/-- An example: the reading `(5, 999999999)` and a time-out of 1500000 microseconds give the
deadline `(7, 499999999)`; the time-out -1 leaves `ts_tout` at `(0, 0)`. -/
theorem pull_deadline_arithmetic_witness :
    (∃ tv_sec tv_nsec : Int,
      pull_ts_tout (some (5, 999999999)) 1500000 = some (tv_sec, tv_nsec) ∧
      tv_sec * 1000000000 + tv_nsec = 5 * 1000000000 + 999999999 + 1500000 * 1000 ∧
      0 ≤ tv_nsec ∧ tv_nsec < 1000000000) ∧
    pull_ts_tout (some (5, 999999999)) (-1) = some (0, 0) :=
  ⟨(pull_deadline_arithmetic 1500000).1 5 999999999 (by decide) (by decide) (by decide)
      (by decide) (by decide),
    ((pull_deadline_arithmetic (-1)).2 (by decide)).1 (some (5, 999999999))⟩

/-! # The claims -/

/-- C3 (failing input): on a FIFO with a pool of 25 bytes, a push of `SIZE_MAX - 7` bytes, whose
framed size does not fit in `size_t`, passes the size check (the sum wraps around to 0) and
goes on to the copy, which leaves the pool and the buffer of the caller: the call does not
return `MP_ERROR`, whatever the platform and the buffer are. -/
theorem push_size_wraps_no_error (pf : platform) (name e : List Nat) (flags : Nat) :
    mp_shm_fifo_push pf (some (mp_shm_fifo_create_init name 25 flags)) (some e)
      18446744073709551608 = .fault := by
  generalize hs0 : mp_shm_fifo_create_init name 25 flags = s0
  have hidx : s0.input_byte_idx = 0 := by rw [← hs0]; rfl
  have hlev : s0.buf_level = 0 := by rw [← hs0]; rfl
  have hP : s0.shm_pool_size = 25 := by rw [← hs0]; rfl
  have hbuf : s0.buf = fun _ => 0 := by rw [← hs0]; rfl
  have hE : size_add sizeof_shm_fifo_elem_ctx_t 18446744073709551608 = 0 := by
    simp [size_add, sizeof_shm_fifo_elem_ctx_t]
  have hslot : push_copy_slot s0 e 18446744073709551608 25 = .fault := by
    unfold push_copy_slot
    split
    · rfl
    · rename_i payload hp
      have hl := buf_load_length _ _ _ _ hp
      have : pool_memcpy s0.buf 25 (s0.input_byte_idx + sizeof_shm_fifo_elem_ctx_t) payload
          = none := by
        unfold pool_memcpy
        rw [if_neg]
        rw [hidx, hl]
        omega
      rw [this]
  have hcopy : push_copy pf s0 e 18446744073709551608 25 0 = .fault := by
    unfold push_copy
    rw [if_neg (by rw [hidx]; simp [size_add, to_size_t])]
    split
    · have : pool_load s0.buf 25 s0.input_byte_idx sizeof_shm_fifo_elem_ctx_t
          = some (List.replicate 8 0) := by
        rw [hbuf, hidx]; simp [pool_load, sizeof_shm_fifo_elem_ctx_t]
      rw [this]
      simp only []
      rw [if_neg (by simp [size_value, to_ssize_t, List.replicate])]
      exact hslot
    · exact hslot
  have hwait : push_wait 25 0 pf.wakes s0 = some s0 := by
    apply push_wait_skip
    simp [push_must_wait, size_add, to_size_t, hlev]
  have hlocked : push_locked pf s0 e 18446744073709551608 25 0 = .fault := by
    unfold push_locked
    rw [hwait]
    simp only []
    unfold push_after_wait
    rw [if_neg (by simp [size_add, to_size_t, hlev]), hcopy]
  unfold mp_shm_fifo_push
  simp only [hE, hP]
  rw [if_neg (by decide), if_neg (by decide), hlocked]

/-- C4 (failing input): the segment `shm_underrun_nb` is reachable from a fresh blocking FIFO
with a pool of 25 bytes (a push of 17 bytes, its pull, a second pull that is woken up by the
release of the FIFO, then `mp_shm_fifo_set_blocking_mode` with `do_block = 0`); it is
non-blocking and its level is -25. A push of one byte (framed size 9) returns `MP_ENOMEM`
although `buf_level + framed_size = -16` is not above the pool size: the sum of line 400 is
taken in `size_t`. -/
theorem push_nonblock_enomem_negative_level :
    reachable shm_fresh shm_underrun_nb ∧ nonblock shm_underrun_nb ∧
      (shm_underrun_nb.shm_pool_size, shm_underrun_nb.buf_level) = (25, -25) ∧
      push_code (mp_shm_fifo_push calm (some shm_underrun_nb) (some [99]) 1) = some MP_ENOMEM ∧
      shm_underrun_nb.buf_level + ((sizeof_shm_fifo_elem_ctx_t + 1 : Nat) : Int) = -16 ∧
      ¬ (shm_underrun_nb.buf_level + ((sizeof_shm_fifo_elem_ctx_t + 1 : Nat) : Int) >
        shm_underrun_nb.shm_pool_size) :=
  ⟨reachable_shm_underrun_nb, by decide, by decide, by decide, by decide, by decide⟩

/-- C6: on a non-blocking FIFO whose level is 0, with any time-out and the clock read
succeeding, pull returns `MP_EAGAIN`, the element pointer is null and the element size is 0;
the segment is as before. -/
theorem pull_nonblock_empty_again (pf : platform) (s : mp_shm_fifo_ctx_t)
    (e0 : Option (List Nat)) (n0 : Nat) (tout_usecs : Int) (ts : Int × Int)
    (hnb : nonblock s) (hlev : s.buf_level = 0) (hclk : pf.clock_gettime = some ts) :
    mp_shm_fifo_pull pf (some s) (some e0) (some n0) tout_usecs =
      .ret ⟨MP_EAGAIN, some none, some 0, some s⟩ := by
  have : pull_locked pf s tout_usecs = .ret (MP_EAGAIN, none, 0, s) := by
    unfold pull_locked
    rw [if_neg (by simp [hclk]), pull_wait_nonblock _ _ _ hnb]
    simp only []
    unfold pull_after_wait
    rw [if_pos ⟨by omega, hnb⟩]
  unfold mp_shm_fifo_pull
  simp only [this]

/-- C6 (witness): a fresh non-blocking FIFO, a stale pointer and size in the outputs of the
caller, time-out 0. -/
theorem pull_nonblock_empty_again_witness :
    mp_shm_fifo_pull ⟨fun _ => true, some (5, 0), []⟩ (some (mp_shm_fifo_create_init [] 25 1))
        (some (some [1, 2])) (some 2) 0 =
      .ret ⟨MP_EAGAIN, some none, some 0, some (mp_shm_fifo_create_init [] 25 1)⟩ :=
  pull_nonblock_empty_again ⟨fun _ => true, some (5, 0), []⟩ (mp_shm_fifo_create_init [] 25 1)
    (some [1, 2]) 2 0 (5, 0) (by decide) rfl rfl

/-- C7: on a blocking FIFO (exit flag clear) that is empty, with a time-out `>= 0` (the clock
read succeeding), when the timed wait reports expiry, after any number of earlier wake-ups that
found the segment as it was, pull returns `MP_ETIMEDOUT` with a null element and size 0, and
the segment (pool bytes, slot count, level, both indices) is as before the call. -/
theorem pull_timed_out (pf : platform) (s : mp_shm_fifo_ctx_t) (e0 : Option (List Nat))
    (n0 : Nat) (tout_usecs : Int) (ts : Int × Int) (early late : List cond_wake) (w : cond_wake)
    (hb : ¬ nonblock s) (hx : s.flag_exit = 0) (hlev : s.buf_level ≤ 0) (ht : 0 ≤ tout_usecs)
    (hclk : pf.clock_gettime = some ts) (hw : pf.wakes = early ++ w :: late)
    (hearly : ∀ v, v ∈ early → v.ret_code ≠ ETIMEDOUT ∧ v.shm = s)
    (hexp : w.ret_code = ETIMEDOUT) (hshm : w.shm = s) :
    mp_shm_fifo_pull pf (some s) (some e0) (some n0) tout_usecs =
      .ret ⟨MP_ETIMEDOUT, some none, some 0, some s⟩ := by
  have hmw : pull_must_wait s := ⟨hlev, hb, hx⟩
  have hwait : pull_wait tout_usecs (early ++ w :: late) s = .timed_out s :=
    pull_wait_expiry tout_usecs s early late w hmw ht hearly hexp hshm
  have : pull_locked pf s tout_usecs = .ret (MP_ETIMEDOUT, none, 0, s) := by
    unfold pull_locked
    rw [if_neg (by simp [hclk]), hw, hwait]
  unfold mp_shm_fifo_pull
  simp only [this]

/-- C7 (witness): the time-out scenario of the tests, a fresh blocking FIFO, one spurious
wake-up and then the expiry. -/
theorem pull_timed_out_witness :
    mp_shm_fifo_pull
        ⟨fun _ => true, some (5, 0),
          [⟨0, mp_shm_fifo_create_init [] 25 0⟩, ⟨ETIMEDOUT, mp_shm_fifo_create_init [] 25 0⟩]⟩
        (some (mp_shm_fifo_create_init [] 25 0)) (some none) (some 0) 1000000 =
      .ret ⟨MP_ETIMEDOUT, some none, some 0, some (mp_shm_fifo_create_init [] 25 0)⟩ :=
  pull_timed_out _ (mp_shm_fifo_create_init [] 25 0) none 0 1000000 (5, 0)
    [⟨0, mp_shm_fifo_create_init [] 25 0⟩] [] ⟨ETIMEDOUT, mp_shm_fifo_create_init [] 25 0⟩
    (by decide) rfl (by decide) (by decide) rfl rfl
    (by intro v hv; rw [List.mem_singleton] at hv; subst hv; exact ⟨by decide, rfl⟩) rfl rfl

/-- C8: a call of push or pull that returns a code other than `MP_SUCCESS` has written nothing:
the segment it hands back (pool bytes, slot count, level, both indices) is the one it was
called on or, when the call had to wait, one that its peers left at a wake-up; a failing pull
moreover leaves a null element and size 0. -/
theorem failure_atomicity (pf : platform) (s : mp_shm_fifo_ctx_t) :
    (∀ (elem : Option (List Nat)) (elem_size : Nat) (c : Int) (h : Option mp_shm_fifo_ctx_t),
      mp_shm_fifo_push pf (some s) elem elem_size = .ret (c, h) → c ≠ MP_SUCCESS →
        h = some s ∨ ∃ w, w ∈ pf.wakes ∧ h = some w.shm) ∧
    (∀ (e0 : Option (List Nat)) (n0 : Nat) (tout_usecs : Int) (r : pull_result),
      mp_shm_fifo_pull pf (some s) (some e0) (some n0) tout_usecs = .ret r →
        r.end_code ≠ MP_SUCCESS →
        r.ref_elem = some none ∧ r.ref_elem_size = some 0 ∧
          (r.shm = some s ∨ ∃ w, w ∈ pf.wakes ∧ r.shm = some w.shm)) := by
  constructor
  · intro elem elem_size c h hr hc
    cases elem with
    | none => simp only [mp_shm_fifo_push] at hr; cases hr; exact Or.inl rfl
    | some e =>
      simp only [mp_shm_fifo_push] at hr
      split at hr
      · cases hr; exact Or.inl rfl
      · split at hr
        · cases hr; exact Or.inl rfl
        · split at hr
          · rename_i c1 s1 hl
            cases hr
            rcases push_locked_failure _ _ _ _ _ _ _ _ hl hc with h1 | ⟨w, hw, h1⟩
            · exact Or.inl (by rw [h1])
            · exact Or.inr ⟨w, hw, by rw [h1]⟩
          · cases hr
          · cases hr
  · intro e0 n0 tout_usecs r hr hc
    unfold mp_shm_fifo_pull at hr
    simp only [] at hr
    split at hr
    · rename_i c1 e1 n1 s1 hl
      cases hr
      obtain ⟨he, hn, hs⟩ := pull_locked_failure _ _ _ _ _ _ _ hl hc
      refine ⟨by rw [he], by rw [hn], ?_⟩
      rcases hs with h1 | ⟨w, hw, h1⟩
      · exact Or.inl (by rw [h1])
      · exact Or.inr ⟨w, hw, by rw [h1]⟩
    · cases hr
    · cases hr

/-- C8 (witness): the overflowing push of the tests (`MP_ENOMEM`) and a pull on a fresh
non-blocking FIFO (`MP_EAGAIN`), both without wake-ups. -/
theorem failure_atomicity_witness :
    (some shm_one_frame = some shm_one_frame ∨
      ∃ w, w ∈ ([] : List cond_wake) ∧ some shm_one_frame = some w.shm) ∧
    ((some none : Option (Option (List Nat))) = some none ∧ (some 0 : Option Nat) = some 0 ∧
      (some (mp_shm_fifo_create_init [] 25 1) = some (mp_shm_fifo_create_init [] 25 1) ∨
        ∃ w, w ∈ ([] : List cond_wake) ∧ some (mp_shm_fifo_create_init [] 25 1) = some w.shm)) :=
  ⟨(failure_atomicity ⟨fun _ => true, none, []⟩ shm_one_frame).1 (some [102, 97, 105, 108, 0]) 5
      MP_ENOMEM (some shm_one_frame)
      (by with_unfolding_all rfl) (by decide),
    (failure_atomicity ⟨fun _ => true, none, []⟩ (mp_shm_fifo_create_init [] 25 1)).2 none 0 (-1)
      ⟨MP_EAGAIN, some none, some 0, some (mp_shm_fifo_create_init [] 25 1)⟩
      (by with_unfolding_all rfl) (by decide)⟩

/-- C5 (counterexample): the non-blocking FIFO `shm_nb_turned` is reachable (a push of 9 bytes
into a fresh pool of 25 bytes, then its pull), is empty with both indices at offset 17, and a
push of 17 bytes, whose framed size is exactly `pool_size - buf_level = 25`, returns `MP_ERROR`
when the temporal buffer of the fragmented copy cannot be allocated. -/
theorem exact_fit_push_needs_memory :
    reachable shm_nb_fresh shm_nb_turned ∧ shm_nb_turned.flag_exit = 0 ∧
      nonblock shm_nb_turned ∧
      ((sizeof_shm_fifo_elem_ctx_t + 17 : Nat) : Int) =
        shm_nb_turned.shm_pool_size - shm_nb_turned.buf_level ∧
      mp_shm_fifo_push ⟨fun _ => false, none, []⟩ (some shm_nb_turned)
        (some [1, 2, 3, 4, 5, 6, 7, 8, 9, 10, 11, 12, 13, 14, 15, 16, 17]) 17 =
        .ret (MP_ERROR, some shm_nb_turned) :=
  ⟨reachable_shm_nb_turned, by decide, by decide, by decide, by with_unfolding_all rfl⟩

/-- C5 (amended): for a pool size up to `INT_MAX`, in every state reachable from create by the
public operations with the exit flag clear and in non-blocking mode, a push of `size > 0` bytes
out of a buffer holding them whose framed size equals exactly `pool_size - buf_level` returns
`MP_SUCCESS`, provided that, when the frame has to be fragmented at the end of the pool
(`input_idx + framed size > pool_size`), the temporal buffer can be allocated; when it cannot,
the push returns `MP_ERROR`; and a push whose framed size is one byte larger returns a code
other than `MP_SUCCESS` and leaves the segment as it was. -/
theorem push_exact_fit (name : List Nat) (flags P : Nat) (h0 : 0 < P) (hP : P ≤ 2147483647)
    (s : mp_shm_fifo_ctx_t) (hr : reachable (mp_shm_fifo_create_init name P flags) s)
    (hx : s.flag_exit = 0) (hnb : nonblock s) (pf : platform) (e : List Nat) (n : Nat)
    (hn : 0 < n) (hlen : n ≤ e.length) :
    (((sizeof_shm_fifo_elem_ctx_t + n : Nat) : Int) = s.shm_pool_size - s.buf_level →
      (s.input_byte_idx + ((sizeof_shm_fifo_elem_ctx_t + n : Nat) : Int) > s.shm_pool_size →
        pf.malloc (sizeof_shm_fifo_elem_ctx_t + n) = true) →
      ∃ s1, mp_shm_fifo_push pf (some s) (some e) n = .ret (MP_SUCCESS, some s1)) ∧
    (((sizeof_shm_fifo_elem_ctx_t + n : Nat) : Int) = s.shm_pool_size - s.buf_level →
      s.input_byte_idx + ((sizeof_shm_fifo_elem_ctx_t + n : Nat) : Int) > s.shm_pool_size →
      pf.malloc (sizeof_shm_fifo_elem_ctx_t + n) = false →
      mp_shm_fifo_push pf (some s) (some e) n = .ret (MP_ERROR, some s)) ∧
    (((sizeof_shm_fifo_elem_ctx_t + n : Nat) : Int) = s.shm_pool_size - s.buf_level + 1 →
      ∃ c, c ≠ MP_SUCCESS ∧ mp_shm_fifo_push pf (some s) (some e) n = .ret (c, some s)) := by
  obtain ⟨q, hq, hf⟩ := reachable_holds name P flags h0 hP s hr hx
  have hlev := hq.level
  have hL := hq.level_le
  have hPs := hq.pool_int
  rw [sizeof_val]
  have hlocked : ∀ E, push_locked pf s e n s.shm_pool_size E =
      push_after_wait pf s e n s.shm_pool_size E := by
    intro E
    unfold push_locked
    rw [push_wait_nonblock _ _ _ _ hnb]
  have hfit : ((8 + n : Nat) : Int) = s.shm_pool_size - s.buf_level →
      mp_shm_fifo_push pf (some s) (some e) n =
        match push_after_wait pf s e n s.shm_pool_size (8 + n) with
        | .ret (c, s1) => .ret (c, some s1)
        | .blocked => .blocked
        | .fault => .fault := by
    intro hexact
    unfold mp_shm_fifo_push
    dsimp only
    rw [sizeof_val, size_add_small _ _ (by omega), if_neg (by omega), if_neg (by omega), hlocked]
  have hroom : ((8 + n : Nat) : Int) = s.shm_pool_size - s.buf_level →
      ¬ (size_add (to_size_t s.buf_level) (8 + n) > s.shm_pool_size ∧ nonblock s) := by
    intro hexact hc
    rw [hlev, to_size_t_cast _ (by omega), size_add_small _ _ (by omega)] at hc
    omega
  refine ⟨?_, ?_, ?_⟩
  · intro hexact hmal
    rw [hfit hexact]
    unfold push_after_wait
    rw [if_neg (hroom hexact)]
    rcases push_copy_runs pf s q e n hq hf hlen (by omega) with ⟨hw, hm, _⟩ | ⟨_, buf1, hc⟩
    · rw [hmal hw] at hm
      cases hm
    · rw [hc]
      exact ⟨_, rfl⟩
  · intro hexact hw hmal
    rw [hfit hexact]
    unfold push_after_wait
    rw [if_neg (hroom hexact)]
    rcases push_copy_runs pf s q e n hq hf hlen (by omega) with ⟨_, _, hc⟩ | ⟨hm, _⟩
    · rw [hc]
    · rw [hm hw] at hmal
      cases hmal
  · intro hover
    unfold mp_shm_fifo_push
    dsimp only
    rw [sizeof_val, size_add_small _ _ (by omega), if_neg (by omega)]
    by_cases hbig : 8 + n > s.shm_pool_size
    · rw [if_pos hbig]
      exact ⟨MP_ERROR, by decide, rfl⟩
    · rw [if_neg hbig, hlocked]
      unfold push_after_wait
      rw [if_pos ⟨by
        rw [hlev, to_size_t_cast _ (by omega), size_add_small _ _ (by omega)]
        omega, hnb⟩]
      exact ⟨MP_ENOMEM, by decide, rfl⟩

/-- C5 (witness): on the reachable FIFO `shm_nb_turned` (pool of 25 bytes, empty, indices at
17) a push of 17 bytes, fragmented at the end of the pool, succeeds when the allocation does. -/
theorem push_exact_fit_witness :
    ∃ s1, mp_shm_fifo_push calm (some shm_nb_turned)
      (some [1, 2, 3, 4, 5, 6, 7, 8, 9, 10, 11, 12, 13, 14, 15, 16, 17]) 17 =
        .ret (MP_SUCCESS, some s1) :=
  (push_exact_fit [47, 102] SHM_FIFO_O_NONBLOCK 25 (by decide) (by decide) shm_nb_turned
    reachable_shm_nb_turned (by decide) (by decide) calm
    [1, 2, 3, 4, 5, 6, 7, 8, 9, 10, 11, 12, 13, 14, 15, 16, 17] 17 (by decide) (by decide)).1
    (by decide) (fun _ => rfl)

/-- C9 (failing input): on a blocking FIFO with a pool of 25 bytes that is full, a push of one
byte waits; when the release of the FIFO sets the exit flag and wakes it up, it leaves the wait
loop and, the FIFO not being non-blocking, writes its frame all the same and returns
`MP_SUCCESS`: the level of the reachable segment `shm_overrun` is 34, above the pool size. -/
theorem level_above_pool_after_exit :
    reachable shm_fresh shm_overrun ∧ shm_overrun.shm_pool_size = 25 ∧
      shm_overrun.buf_level = 34 ∧
      push_code (mp_shm_fifo_push
        ⟨fun _ => true, none, [⟨0, mp_shm_fifo_release_shm shm_full⟩]⟩
        (some shm_full) (some [99]) 1) = some MP_SUCCESS :=
  ⟨reachable.push ⟨fun _ => true, none, [⟨0, mp_shm_fifo_release_shm shm_full⟩]⟩ shm_full
      shm_overrun (some [99]) 1 0 reachable_shm_full
      (fun w hw => by
        rw [List.mem_singleton] at hw
        rw [hw]
        exact reachable.release shm_full reachable_shm_full)
      (by decide) (by with_unfolding_all rfl),
    by decide, by decide, by decide⟩

/-- C10 (failing input): on a blocking FIFO without exhaustive checking that is empty again
after one push and one pull, a pull waits; when the release of the FIFO sets the exit flag and
wakes it up, it leaves the wait loop and, the FIFO not being non-blocking, reads the frame that
is still in the pool and returns `MP_SUCCESS` with the element already consumed: in the
reachable segment `shm_underrun` the slot count is -1 and the level is -25. -/
theorem slots_negative_after_exit :
    reachable shm_fresh shm_underrun ∧ shm_underrun.slots_used_cnt = -1 ∧
      shm_underrun.buf_level = -25 ∧
      pull_outputs (mp_shm_fifo_pull
        ⟨fun _ => true, none, [⟨0, mp_shm_fifo_release_shm shm_drained⟩]⟩
        (some shm_drained) (some none) (some 0) (-1)) =
        some (MP_SUCCESS,
          some (some [1, 2, 3, 4, 5, 6, 7, 8, 9, 10, 11, 12, 13, 14, 15, 16, 17]), some 17) :=
  ⟨reachable.pull ⟨fun _ => true, none, [⟨0, mp_shm_fifo_release_shm shm_drained⟩]⟩ shm_drained
      shm_underrun none 0 (-1)
      ⟨0, some (some [1, 2, 3, 4, 5, 6, 7, 8, 9, 10, 11, 12, 13, 14, 15, 16, 17]), some 17,
        some shm_underrun⟩
      reachable_shm_drained
      (fun w hw => by
        rw [List.mem_singleton] at hw
        rw [hw]
        exact reachable.release shm_drained reachable_shm_drained)
      (by with_unfolding_all rfl) rfl,
    by decide, by decide, by decide⟩

/-- C1 (failing input): on a FIFO with a pool of `2^32 + 64` bytes, a push of the `2^32 - 8`
bytes of `huge_payload` (framed size `2^32`), a push of the 8 bytes `1 .. 8`, and two pulls all
return `MP_SUCCESS`, but the first pull hands out the second buffer, `1 .. 8`, and the second
pull one byte out of the middle of the first: the input index after the first push, `2^32`
stored in an `int`, is 0, so the second frame is written over the first. -/
theorem fifo_order_broken_huge_pool :
    (run_calls
      [.push (fun _ => true) huge_payload, .push (fun _ => true) [1, 2, 3, 4, 5, 6, 7, 8],
        .pull (fun _ => true) none (-1), .pull (fun _ => true) none (-1)] shm_huge).map Prod.fst
      = some [([1, 2, 3, 4, 5, 6, 7, 8], 8), ([0], 1)] := by
  rw [run_calls_push _ _ _ _ _ push_huge_one, run_calls_push _ _ _ _ _ push_huge_two]
  decide

/-- C2 (failing input): the FIFO `shm_edge_turned`, with a pool of `2^31 + 1` bytes, is
reachable (a push of `2^31 - 18` bytes, then its pull), is empty, and has both indices eleven
bytes before the end of the pool. A push of the 11 bytes `1 .. 11` does not fit before the end
of the pool, is fragmented, and returns `MP_SUCCESS`; the pull that follows returns
`MP_SUCCESS` too, with 11 bytes that are not the bytes pushed: the `int` cursor of the
byte-by-byte copy overflows at `INT_MAX` and goes on at offset 5. -/
theorem wrap_round_trip_broken_edge_pool :
    reachable shm_edge shm_edge_turned ∧ shm_edge_turned.slots_used_cnt = 0 ∧
      shm_edge_turned.input_byte_idx + ((sizeof_shm_fifo_elem_ctx_t + 11 : Nat) : Int) >
        shm_edge_turned.shm_pool_size ∧
      (run_calls [.push (fun _ => true) [1, 2, 3, 4, 5, 6, 7, 8, 9, 10, 11],
        .pull (fun _ => true) none (-1)] shm_edge_turned).map Prod.fst
        = some [([1, 2, 9, 10, 11, 0, 0, 0, 0, 0, 0], 11)] :=
  ⟨reachable_shm_edge_turned, by decide, by decide, by decide⟩

/-- C15 (counterexample): on the non-blocking FIFO of the tests, emptied, a pull with time-out 0
whose clock read fails returns `MP_ERROR`, not `MP_EAGAIN`. -/
theorem emptied_pull_needs_clock :
    nonblock shm_one_frame ∧
      pull_outputs (mp_shm_fifo_pull ⟨fun _ => true, none, []⟩
        (mp_shm_fifo_empty (some shm_one_frame)) (some none) (some 0) 0) =
        some (MP_ERROR, some none, some 0) :=
  ⟨by decide, by decide⟩

/-- C15 (amended): for every FIFO state, after `mp_shm_fifo_empty` every byte of the pool is 0
and the slot count, the level and both indices are 0, while the pool size, the flags, the exit
flag and the name are as before; the result is the same whatever the pool and the counters held
before, a second call changes nothing more, and on a non-blocking FIFO a following pull (with
non-null output references) returns `MP_EAGAIN` with a null element and size 0, provided that
the clock read succeeds when its time-out is `>= 0`; when that read fails the pull returns
`MP_ERROR`. -/
theorem empty_effect (s : mp_shm_fifo_ctx_t) :
    ∃ s1, mp_shm_fifo_empty (some s) = some s1 ∧
      (∀ a, a < s1.shm_pool_size → s1.buf a = 0) ∧
      s1.slots_used_cnt = 0 ∧ s1.buf_level = 0 ∧ s1.input_byte_idx = 0 ∧
      s1.output_byte_idx = 0 ∧
      s1.shm_pool_size = s.shm_pool_size ∧ s1.flags = s.flags ∧ s1.flag_exit = s.flag_exit ∧
      s1.shm_fifo_name = s.shm_fifo_name ∧
      (∀ t : mp_shm_fifo_ctx_t, t.shm_pool_size = s.shm_pool_size →
        ∃ t1, mp_shm_fifo_empty (some t) = some t1 ∧
          (∀ a, a < s.shm_pool_size → t1.buf a = s1.buf a) ∧
          t1.slots_used_cnt = s1.slots_used_cnt ∧ t1.buf_level = s1.buf_level ∧
          t1.input_byte_idx = s1.input_byte_idx ∧ t1.output_byte_idx = s1.output_byte_idx) ∧
      mp_shm_fifo_empty (some s1) = some s1 ∧
      (∀ (pf : platform) (e0 : Option (List Nat)) (n0 : Nat) (tout_usecs : Int), nonblock s →
        ¬ (tout_usecs ≥ 0 ∧ pf.clock_gettime = none) →
        mp_shm_fifo_pull pf (some s1) (some e0) (some n0) tout_usecs =
          .ret ⟨MP_EAGAIN, some none, some 0, some s1⟩) ∧
      (∀ (pf : platform) (e0 : Option (List Nat)) (n0 : Nat) (tout_usecs : Int),
        tout_usecs ≥ 0 → pf.clock_gettime = none →
        mp_shm_fifo_pull pf (some s1) (some e0) (some n0) tout_usecs =
          .ret ⟨MP_ERROR, some none, some 0, some s1⟩) := by
  refine ⟨_, rfl, ?_, rfl, rfl, rfl, rfl, rfl, rfl, rfl, rfl, ?_, ?_, ?_, ?_⟩
  · intro a ha
    dsimp only at ha ⊢
    rw [if_pos ha]
  · intro t ht
    refine ⟨_, rfl, ?_, rfl, rfl, rfl, rfl⟩
    intro a ha
    dsimp only
    rw [if_pos ha, if_pos (by rw [ht]; exact ha)]
  · simp only [mp_shm_fifo_empty, Option.some.injEq]
    congr 1
    funext a
    by_cases ha : a < s.shm_pool_size
    · simp only [ha, if_true]
    · simp only [ha, if_false]
  · intro pf e0 n0 tout_usecs hnb hclk
    exact pull_nonblock_underrun pf _ e0 n0 tout_usecs hnb (le_refl _) hclk
  · intro pf e0 n0 tout_usecs ht hclk
    exact pull_clock_failure pf _ e0 n0 tout_usecs ht hclk

/-- C15 (witness): the non-blocking FIFO of the tests, holding one frame, is emptied; a pull
with time-out 0 and a working clock then returns `MP_EAGAIN`. -/
theorem empty_effect_witness :
    ∃ s1, mp_shm_fifo_empty (some shm_one_frame) = some s1 ∧ s1.buf_level = 0 ∧
      pull_outputs (mp_shm_fifo_pull calm (some s1) (some (some [1])) (some 1) 0) =
        some (MP_EAGAIN, some none, some 0) := by
  obtain ⟨s1, h1, _, _, h4, _, _, _, _, _, _, _, _, h13, _⟩ := empty_effect shm_one_frame
  exact ⟨s1, h1, h4, by
    rw [h13 calm (some [1]) 1 0 (by decide) (by decide)]
    rfl⟩

/-- C16: for every FIFO (the flags being a `uint32_t`) and every `do_block`,
`mp_shm_fifo_set_blocking_mode` leaves a segment in which the bit `SHM_FIFO_O_NONBLOCK` is set
if and only if `do_block == 0`, every other bit of the flags is as before, and the pool, the
slot count, the level and both indices (as well as the pool size, the exit flag and the name)
are as before; a second call with the same argument changes nothing more, and a null handle is
left alone. -/
theorem set_blocking_mode_effect (s : mp_shm_fifo_ctx_t) (do_block : Int)
    (hf : s.flags < 4294967296) :
    (∃ s1, mp_shm_fifo_set_blocking_mode (some s) do_block = some s1 ∧
      (nonblock s1 ↔ do_block = 0) ∧
      (∀ i, i ≠ 0 → s1.flags.testBit i = s.flags.testBit i) ∧
      (exhaust_ctrl s1 ↔ exhaust_ctrl s) ∧
      s1.buf = s.buf ∧ s1.slots_used_cnt = s.slots_used_cnt ∧ s1.buf_level = s.buf_level ∧
      s1.input_byte_idx = s.input_byte_idx ∧ s1.output_byte_idx = s.output_byte_idx ∧
      s1.shm_pool_size = s.shm_pool_size ∧ s1.flag_exit = s.flag_exit ∧
      s1.shm_fifo_name = s.shm_fifo_name ∧
      mp_shm_fifo_set_blocking_mode (some s1) do_block = some s1) ∧
    mp_shm_fifo_set_blocking_mode none do_block = none := by
  refine ⟨?_, rfl⟩
  by_cases hd : do_block = 0
  · refine ⟨{ s with flags := s.flags ||| SHM_FIFO_O_NONBLOCK }, ?_, ?_, ?_, ?_, rfl, rfl, rfl,
      rfl, rfl, rfl, rfl, rfl, ?_⟩
    · simp only [mp_shm_fifo_set_blocking_mode, hd, ne_eq, not_true_eq_false, if_false]
    · exact ⟨fun _ => hd, fun _ => lor_nonblocking_bit s.flags⟩
    · intro i hi
      exact lor_nonblocking_other s.flags i hi
    · unfold exhaust_ctrl
      dsimp only
      rw [lor_nonblocking]
    · simp only [mp_shm_fifo_set_blocking_mode, hd, ne_eq, not_true_eq_false, if_false,
        Nat.or_assoc, Nat.or_self]
  · refine ⟨{ s with flags := s.flags &&& (4294967295 - SHM_FIFO_O_NONBLOCK) }, ?_, ?_, ?_, ?_,
      rfl, rfl, rfl, rfl, rfl, rfl, rfl, rfl, ?_⟩
    · simp only [mp_shm_fifo_set_blocking_mode, ne_eq, hd, not_false_eq_true, if_true]
    · exact ⟨fun h => absurd (land_blocking_bit s.flags) h, fun h => absurd h hd⟩
    · intro i hi
      exact land_blocking_other s.flags i hf hi
    · unfold exhaust_ctrl
      dsimp only
      rw [land_blocking]
    · simp only [mp_shm_fifo_set_blocking_mode, ne_eq, hd, not_false_eq_true, if_true,
        Nat.and_assoc, Nat.and_self]

/-- C16 (witness): the non-blocking FIFO of the tests with exhaustive checking off, switched to
blocking mode (`do_block = 1`). -/
theorem set_blocking_mode_effect_witness :
    (∃ s1, mp_shm_fifo_set_blocking_mode (some shm_one_frame) 1 = some s1 ∧
      (nonblock s1 ↔ (1 : Int) = 0) ∧
      (∀ i, i ≠ 0 → s1.flags.testBit i = shm_one_frame.flags.testBit i) ∧
      (exhaust_ctrl s1 ↔ exhaust_ctrl shm_one_frame) ∧
      s1.buf = shm_one_frame.buf ∧ s1.slots_used_cnt = shm_one_frame.slots_used_cnt ∧
      s1.buf_level = shm_one_frame.buf_level ∧
      s1.input_byte_idx = shm_one_frame.input_byte_idx ∧
      s1.output_byte_idx = shm_one_frame.output_byte_idx ∧
      s1.shm_pool_size = shm_one_frame.shm_pool_size ∧ s1.flag_exit = shm_one_frame.flag_exit ∧
      s1.shm_fifo_name = shm_one_frame.shm_fifo_name ∧
      mp_shm_fifo_set_blocking_mode (some s1) 1 = some s1) ∧
    mp_shm_fifo_set_blocking_mode none 1 = none :=
  set_blocking_mode_effect shm_one_frame 1 (by decide)

/-- C17 (failing input): the FIFO `shm_exit_full` is reachable, blocking, has its exit flag set
and is full (level 25 in a pool of 25 bytes). A push of one byte does not wait, and does not
fail either: it returns `MP_SUCCESS`, writes its frame over the frame that is still enqueued
(the byte at offset 0 goes from 17 to 1) and moves the slot count, the level and the input index
(to 2, 34 and 9). -/
theorem push_writes_after_exit :
    reachable shm_fresh shm_exit_full ∧ ¬ nonblock shm_exit_full ∧
      shm_exit_full.flag_exit = 1 ∧
      shm_exit_full.buf_level + ((sizeof_shm_fifo_elem_ctx_t + 1 : Nat) : Int) >
        shm_exit_full.shm_pool_size ∧
      push_code (mp_shm_fifo_push calm (some shm_exit_full) (some [99]) 1) = some MP_SUCCESS ∧
      shm_exit_full.buf 0 = 17 ∧
      (shm_after_push (mp_shm_fifo_push calm (some shm_exit_full) (some [99]) 1)
        shm_exit_full).buf 0 = 1 ∧
      (shm_exit_full.slots_used_cnt, shm_exit_full.buf_level, shm_exit_full.input_byte_idx) =
        (1, 25, 0) ∧
      ((shm_after_push (mp_shm_fifo_push calm (some shm_exit_full) (some [99]) 1)
          shm_exit_full).slots_used_cnt,
        (shm_after_push (mp_shm_fifo_push calm (some shm_exit_full) (some [99]) 1)
          shm_exit_full).buf_level,
        (shm_after_push (mp_shm_fifo_push calm (some shm_exit_full) (some [99]) 1)
          shm_exit_full).input_byte_idx) = (2, 34, 9) :=
  ⟨reachable.release shm_full reachable_shm_full, by decide, by decide, by decide, by decide,
    by decide, by decide, by decide, by decide⟩

/-- C18 (failing input): the FIFO `shm_exit_drained` is reachable, blocking, without exhaustive
checking, has its exit flag set and is empty (level 0, no slot used). A pull does not wait, and
does not fail either: it returns `MP_SUCCESS` with the 17 bytes of the frame consumed before,
which are still in the pool at the output index, and takes the slot count to -1 and the level
to -25. -/
theorem pull_reads_after_exit :
    reachable shm_fresh shm_exit_drained ∧ ¬ nonblock shm_exit_drained ∧
      shm_exit_drained.flag_exit = 1 ∧
      (shm_exit_drained.slots_used_cnt, shm_exit_drained.buf_level,
        shm_exit_drained.output_byte_idx) = (0, 0, 0) ∧
      pull_outputs (mp_shm_fifo_pull calm (some shm_exit_drained) (some none) (some 0) (-1)) =
        some (MP_SUCCESS,
          some (some [1, 2, 3, 4, 5, 6, 7, 8, 9, 10, 11, 12, 13, 14, 15, 16, 17]), some 17) ∧
      ((shm_after_pull (mp_shm_fifo_pull calm (some shm_exit_drained) (some none) (some 0) (-1))
          shm_exit_drained).slots_used_cnt,
        (shm_after_pull (mp_shm_fifo_pull calm (some shm_exit_drained) (some none) (some 0) (-1))
          shm_exit_drained).buf_level) = (-1, -25) :=
  ⟨reachable.release shm_drained reachable_shm_drained, by decide, by decide, by decide,
    by decide, by decide⟩

/-- C11 (failing input): on a fresh FIFO with a pool of `2^31 + 1` bytes, a push of `2^31 - 8`
bytes (framed size `2^31`) returns `MP_SUCCESS` and leaves the input index at `INT_MIN`: the new
index, `2^31`, is within the pool but not within an `int`. -/
theorem input_idx_negative_edge_pool :
    shm_edge = mp_shm_fifo_create_init [47, 102] 2147483649 0 ∧
      mp_shm_fifo_push ⟨fun _ => true, none, []⟩ (some shm_edge) (some half_payload)
        half_payload.length = .ret (MP_SUCCESS, some shm_edge_half) ∧
      half_payload.length = 2147483640 ∧ shm_edge_half.shm_pool_size = 2147483649 ∧
      shm_edge_half.input_byte_idx = -2147483648 := by
  refine ⟨rfl, ?_, half_payload_length, rfl, rfl⟩
  rw [half_payload_length]
  exact push_edge_half

/-- C12 (failing input): on a fresh FIFO with a pool of `2^32 + 64` bytes, a push of `2^32 - 8`
bytes and a push of 8 bytes both return `MP_SUCCESS`. In the segment they leave, the slot count
is 2 and the level `2^32 + 16`, but the pool decoded from the output index holds a frame with
size field 8 and then, at offset 16, a frame with size field 1: two frames of 25 bytes in all;
and the output index plus the level, modulo the pool size, is `2^32 + 16`, not the input index,
16. -/
theorem invariant_broken_huge_pool :
    shm_huge = mp_shm_fifo_create_init [47, 102] 4294967360 0 ∧
      mp_shm_fifo_push ⟨fun _ => true, none, []⟩ (some shm_huge) (some huge_payload)
        huge_payload.length = .ret (MP_SUCCESS, some shm_huge_one) ∧
      mp_shm_fifo_push ⟨fun _ => true, none, []⟩ (some shm_huge_one)
        (some [1, 2, 3, 4, 5, 6, 7, 8]) [1, 2, 3, 4, 5, 6, 7, 8].length =
        .ret (MP_SUCCESS, some shm_huge_two) ∧
      (shm_huge_two.slots_used_cnt, shm_huge_two.buf_level, shm_huge_two.output_byte_idx,
        shm_huge_two.input_byte_idx) = (2, 4294967312, 0, 16) ∧
      size_value (ring_bytes shm_huge_two.buf shm_huge_two.shm_pool_size 0 8) = 8 ∧
      size_value (ring_bytes shm_huge_two.buf shm_huge_two.shm_pool_size (8 + 8) 8) = 1 ∧
      (shm_huge_two.output_byte_idx + shm_huge_two.buf_level) %
        (shm_huge_two.shm_pool_size : Int) = 4294967312 :=
  ⟨rfl, push_huge_one, push_huge_two, by decide, by decide, by decide, by decide⟩

/-- C19 (failing input): in the FIFO `shm_corrupt` (pool of `2^31 + 8` bytes, level 9) the size
field read in place at the output index, `INT_MAX`, is `-2^63 + 1`. A pull reaches the read
step, does not reject that size (the check is made on the `size_t` value `2^63 + 1`), takes the
byte-by-byte path, whose `int` cursor overflows after the first byte of the size field and goes
on at offset 264, reads a size of 1 there, and returns `MP_SUCCESS` with an element of one byte;
the slot count and the level go down to 0. -/
theorem negative_size_pull_succeeds_edge_pool :
    (shm_corrupt.shm_pool_size, shm_corrupt.output_byte_idx, shm_corrupt.buf_level,
        shm_corrupt.slots_used_cnt) = (2147483656, 2147483647, 9, 1) ∧
      pool_load shm_corrupt.buf shm_corrupt.shm_pool_size shm_corrupt.output_byte_idx
        sizeof_shm_fifo_elem_ctx_t = some [1, 0, 0, 0, 0, 0, 0, 128] ∧
      size_value [1, 0, 0, 0, 0, 0, 0, 128] = -9223372036854775807 ∧
      pull_outputs (mp_shm_fifo_pull ⟨malloc_below_ptrdiff_max, none, []⟩ (some shm_corrupt)
        (some none) (some 0) (-1)) = some (MP_SUCCESS, some (some [0]), some 1) ∧
      ((shm_after_pull (mp_shm_fifo_pull ⟨malloc_below_ptrdiff_max, none, []⟩
          (some shm_corrupt) (some none) (some 0) (-1)) shm_corrupt).slots_used_cnt,
        (shm_after_pull (mp_shm_fifo_pull ⟨malloc_below_ptrdiff_max, none, []⟩
          (some shm_corrupt) (some none) (some 0) (-1)) shm_corrupt).buf_level) = (0, 0) :=
  ⟨by decide, by decide, by decide, by decide, by decide⟩

/-- C20 (failing input): the FIFO `shm_edgex_wrapped`, with exhaustive checking and a pool of
`2^31 + 1` bytes, is reachable and holds one frame of 19 bytes that starts eleven bytes before
the end of the pool. The pull of that frame returns `MP_SUCCESS` (with 11 bytes), but the flush
leaves the last byte of the pool and the first bytes of the pool, which belong to the frame, as
they were (3 at offset `2^31`, 4 at offset 0): the `int` cursor of the flush overflows at
`INT_MAX` and goes on at offset 5. -/
theorem flush_misses_wrapped_frame_edge_pool :
    reachable shm_edgex shm_edgex_wrapped ∧ exhaust_ctrl shm_edgex_wrapped ∧
      (shm_edgex_wrapped.shm_pool_size, shm_edgex_wrapped.output_byte_idx) =
        (2147483649, 2147483638) ∧
      pull_outputs (mp_shm_fifo_pull calm (some shm_edgex_wrapped) (some none) (some 0) (-1)) =
        some (MP_SUCCESS, some (some [1, 2, 9, 10, 11, 0, 0, 0, 0, 0, 0]), some 11) ∧
      (shm_after_pull (mp_shm_fifo_pull calm (some shm_edgex_wrapped) (some none) (some 0) (-1))
        shm_edgex_wrapped).buf ((2147483638 + 10) % 2147483649) = 3 ∧
      (shm_after_pull (mp_shm_fifo_pull calm (some shm_edgex_wrapped) (some none) (some 0) (-1))
        shm_edgex_wrapped).buf ((2147483638 + 11) % 2147483649) = 4 :=
  ⟨reachable_shm_edgex_wrapped, by decide, by decide, by decide, by decide, by decide⟩

/-- C21: `mp_shm_fifo_create` returns null and leaves the name space as it was (no object is
created), whatever the platform, for every call in which the name is null, the pool size is 0,
or the name is longer than `NAME_MAX` characters. -/
theorem create_rejects_arguments (pf : create_platform) (names : shm_namespace)
    (fifo_file_name : Option (List Nat)) (shm_pool_size flags : Nat)
    (h : fifo_file_name = none ∨ shm_pool_size = 0 ∨
      ∃ name, fifo_file_name = some name ∧ name.length > NAME_MAX) :
    mp_shm_fifo_create pf names fifo_file_name shm_pool_size flags = (none, names) := by
  cases fifo_file_name with
  | none => rfl
  | some name =>
    unfold mp_shm_fifo_create
    dsimp only
    rcases h with h | h | ⟨l, hl, hlen⟩
    · cases h
    · rw [if_pos (by omega)]
    · rw [← Option.some.inj hl] at hlen
      split_ifs <;> rfl

/-- C21 (witness): the third case of the tests, a name of 1023 characters `F`. -/
theorem create_rejects_arguments_witness :
    mp_shm_fifo_create create_calm names_one (some (List.replicate 1023 70)) 1 0 =
      (none, names_one) :=
  create_rejects_arguments create_calm names_one (some (List.replicate 1023 70)) 1 0
    (Or.inr (Or.inr ⟨List.replicate 1023 70, rfl, by rw [List.length_replicate]; decide⟩))

/-- C22: for every name under which an object is linked, `mp_shm_fifo_create` returns null and
leaves the name space as it was, whatever the platform, the pool size and the flags: the object
is still linked under its name and holds what it held. -/
theorem create_conflict (pf : create_platform) (names : shm_namespace) (name : List Nat)
    (shm : mp_shm_fifo_ctx_t) (shm_pool_size flags : Nat) (h : names name = some shm) :
    mp_shm_fifo_create pf names (some name) shm_pool_size flags = (none, names) ∧
      (mp_shm_fifo_create pf names (some name) shm_pool_size flags).2 name = some shm := by
  have hc := create_busy_name pf names name shm_pool_size flags (by rw [h]; rfl)
  refine ⟨hc, ?_⟩
  rw [hc]
  exact h

/-- C22 (witness): a second creation of the FIFO of the tests, on a platform where no call
fails. -/
theorem create_conflict_witness :
    mp_shm_fifo_create create_calm names_one
        (some [47, 102, 105, 102, 111, 95, 115, 104, 109, 95, 117, 116, 101, 115, 116]) 25 0 =
        (none, names_one) ∧
      (mp_shm_fifo_create create_calm names_one
        (some [47, 102, 105, 102, 111, 95, 115, 104, 109, 95, 117, 116, 101, 115, 116]) 25 0).2
        [47, 102, 105, 102, 111, 95, 115, 104, 109, 95, 117, 116, 101, 115, 116] =
        some shm_one_frame :=
  create_conflict create_calm names_one
    [47, 102, 105, 102, 111, 95, 115, 104, 109, 95, 117, 116, 101, 115, 116] shm_one_frame 25 0
    (by with_unfolding_all rfl)

/-- C23: `mp_shm_fifo_release` called with a null reference, or with a reference to a null
handle, leaves the name space and the handle as they were and touches no segment; called with a
live handle it leaves the handle of the caller null and the exit flag set in the segment, whose
pool, counters, indices, flags, pool size and name are as before. -/
theorem release_effect (names : shm_namespace) (s : mp_shm_fifo_ctx_t) :
    mp_shm_fifo_release names none = ⟨names, none, none⟩ ∧
    mp_shm_fifo_release names (some none) = ⟨names, some none, none⟩ ∧
    (mp_shm_fifo_release names (some (some s))).ref_mp_shm_fifo_ctx = some none ∧
    ∃ s1, (mp_shm_fifo_release names (some (some s))).shm = some s1 ∧ s1.flag_exit = 1 ∧
      s1.buf = s.buf ∧ s1.slots_used_cnt = s.slots_used_cnt ∧ s1.buf_level = s.buf_level ∧
      s1.input_byte_idx = s.input_byte_idx ∧ s1.output_byte_idx = s.output_byte_idx ∧
      s1.flags = s.flags ∧ s1.shm_pool_size = s.shm_pool_size ∧
      s1.shm_fifo_name = s.shm_fifo_name :=
  ⟨rfl, rfl, rfl, _, rfl, rfl, rfl, rfl, rfl, rfl, rfl, rfl, rfl, rfl⟩

/-- C24 (failing input): for the descriptor `proc_if_sample`, whose two strings are not null,
when the record is allocated and the duplication of the name fails, `proc_if_dup` does not
return null: it returns a record whose name is null; and `proc_if_cmp` of that record and the
source, in either order, passes the null name to `strcmp`. -/
theorem dup_cmp_faults_on_null_name :
    proc_if_dup ⟨true, false, true⟩ (some proc_if_sample) ≠ none ∧
      proc_if_cmp (proc_if_dup ⟨true, false, true⟩ (some proc_if_sample))
        (some proc_if_sample) = .fault ∧
      proc_if_cmp (some proc_if_sample)
        (proc_if_dup ⟨true, false, true⟩ (some proc_if_sample)) = .fault :=
  ⟨by decide, rfl, rfl⟩

/-- C25: for two descriptors whose strings are not null (C strings: no null byte inside),
`proc_if_cmp` returns `MP_SUCCESS` if and only if the names are equal byte for byte, the types
are, and each of the eight function pointers has the same value in both; in every other case it
returns `MP_ERROR`. -/
theorem proc_if_cmp_iff (a b : proc_if_t) (na ta nb tb : List Nat)
    (hna : a.proc_name = some na) (hta : a.proc_type = some ta)
    (hnb : b.proc_name = some nb) (htb : b.proc_type = some tb)
    (wna : ∀ x, x ∈ na → x ≠ 0) (wta : ∀ x, x ∈ ta → x ≠ 0)
    (wnb : ∀ x, x ∈ nb → x ≠ 0) (wtb : ∀ x, x ∈ tb → x ≠ 0) :
    (proc_if_cmp (some a) (some b) = .ret MP_SUCCESS ↔
      (na = nb ∧ ta = tb ∧ a.open_ = b.open_ ∧ a.close = b.close ∧ a.put = b.put ∧
        a.get = b.get ∧ a.process_frame = b.process_frame ∧ a.opt = b.opt ∧
        a.ififo_fxn = b.ififo_fxn ∧ a.ofifo_fxn = b.ofifo_fxn)) ∧
    (¬ (na = nb ∧ ta = tb ∧ a.open_ = b.open_ ∧ a.close = b.close ∧ a.put = b.put ∧
        a.get = b.get ∧ a.process_frame = b.process_frame ∧ a.opt = b.opt ∧
        a.ififo_fxn = b.ififo_fxn ∧ a.ofifo_fxn = b.ofifo_fxn) →
      proc_if_cmp (some a) (some b) = .ret MP_ERROR) := by
  have hn := strcmp_eq_zero na nb wna wnb
  have ht := strcmp_eq_zero ta tb wta wtb
  have hcmp : proc_if_cmp (some a) (some b) =
      if strcmp na nb ≠ 0 then .ret MP_ERROR
      else if strcmp ta tb = 0 ∧ a.open_ = b.open_ ∧ a.close = b.close ∧ a.put = b.put ∧
          a.get = b.get ∧ a.process_frame = b.process_frame ∧ a.opt = b.opt ∧
          a.ififo_fxn = b.ififo_fxn ∧ a.ofifo_fxn = b.ofifo_fxn then .ret MP_SUCCESS
      else .ret MP_ERROR := by
    simp only [proc_if_cmp, mp_strcmp, hna, hta, hnb, htb]
  rw [hcmp]
  by_cases h1 : strcmp na nb = 0
  · rw [if_neg (not_not.mpr h1)]
    by_cases h2 : strcmp ta tb = 0 ∧ a.open_ = b.open_ ∧ a.close = b.close ∧ a.put = b.put ∧
        a.get = b.get ∧ a.process_frame = b.process_frame ∧ a.opt = b.opt ∧
        a.ififo_fxn = b.ififo_fxn ∧ a.ofifo_fxn = b.ofifo_fxn
    · rw [if_pos h2]
      have hall := (⟨hn.mp h1, ht.mp h2.1, h2.2⟩ : na = nb ∧ ta = tb ∧ _)
      exact ⟨⟨fun _ => hall, fun _ => rfl⟩, fun hc => absurd hall hc⟩
    · rw [if_neg h2]
      refine ⟨⟨fun h => by simp at h, fun h => absurd ⟨ht.mpr h.2.1, h.2.2⟩ h2⟩, fun _ => rfl⟩
  · rw [if_pos h1]
    refine ⟨⟨fun h => by simp at h, fun h => absurd (hn.mpr h.1) h1⟩, fun _ => rfl⟩

/-- C25 (witness): the descriptor `proc_if_sample` and itself. -/
theorem proc_if_cmp_iff_witness :
    proc_if_cmp (some proc_if_sample) (some proc_if_sample) = .ret MP_SUCCESS :=
  ((proc_if_cmp_iff proc_if_sample proc_if_sample [100, 101, 99] [99, 111, 100, 101, 99]
    [100, 101, 99] [99, 111, 100, 101, 99] rfl rfl rfl rfl (by decide) (by decide) (by decide)
    (by decide)).1).mpr ⟨rfl, rfl, rfl, rfl, rfl, rfl, rfl, rfl, rfl, rfl⟩

/-- C26 (failing input): for the descriptor `proc_if_sample`, when the record is allocated and
the duplication of the name fails, `proc_if_dup` returns a record, not null, whose name is null
while the name of the source is not; likewise for the type. -/
theorem dup_keeps_record_without_string :
    proc_if_dup ⟨true, false, true⟩ (some proc_if_sample) =
        some { proc_if_sample with proc_name := none } ∧
      proc_if_dup ⟨true, true, false⟩ (some proc_if_sample) =
        some { proc_if_sample with proc_type := none } ∧
      proc_if_sample.proc_name = some [100, 101, 99] ∧
      proc_if_sample.proc_type = some [99, 111, 100, 101, 99] :=
  ⟨by decide, by decide, rfl, rfl⟩

/-- C27 (counterexample): a call of the default dequeue hook with both output references not
null (the variables holding a null pointer and 0), a slot holding the pointer `0x1000` to a
readable frame context, and `size = 4`: the hook returns the error code (here 1, the success
code being 0) and leaves both variables as they were. -/
theorem dequeue_default_checks_size :
    proc_if_fifo_elem_ctx_dequeue_default 0 1 true (fun _ => true) (some 0) (some 0)
      (some 4096) 4 = .ret (1, some 0, some 0) := rfl

/-- C27 (amended): for every call of the default dequeue hook with both output references not
null and a slot that is not null and holds a pointer `p` to a readable frame context (or with a
trace macro that does not read through `p`): when `size` is the size of a pointer the hook sets
`*ref_elem` to `p` and `*ref_elem_size` to `size` and returns `STAT_SUCCESS`; for every other
`size` it returns `STAT_ERROR` and leaves both variables as they were. -/
theorem dequeue_default_effect (STAT_SUCCESS STAT_ERROR : Int) (LOGW_evaluates : Bool)
    (frame_at : Nat → Bool) (e n p size : Nat)
    (hp : LOGW_evaluates = true → frame_at p = true) :
    (size = sizeof_pointer →
      proc_if_fifo_elem_ctx_dequeue_default STAT_SUCCESS STAT_ERROR LOGW_evaluates frame_at
        (some e) (some n) (some p) size = .ret (STAT_SUCCESS, some p, some size)) ∧
    (size ≠ sizeof_pointer →
      proc_if_fifo_elem_ctx_dequeue_default STAT_SUCCESS STAT_ERROR LOGW_evaluates frame_at
        (some e) (some n) (some p) size = .ret (STAT_ERROR, some e, some n)) := by
  constructor
  · intro hs
    unfold proc_if_fifo_elem_ctx_dequeue_default
    dsimp only
    rw [if_neg (not_not.mpr hs), if_neg]
    intro hc
    rw [hp hc.1] at hc
    exact absurd hc.2 (by decide)
  · intro hs
    unfold proc_if_fifo_elem_ctx_dequeue_default
    dsimp only
    rw [if_pos hs]

/-- C27 (witness): the slot holds the pointer `0x1000` to a readable frame context and `size`
is 8. -/
theorem dequeue_default_effect_witness :
    proc_if_fifo_elem_ctx_dequeue_default 0 1 true (fun _ => true) (some 0) (some 0)
      (some 4096) 8 = .ret (0, some 4096, some 8) :=
  (dequeue_default_effect 0 1 true (fun _ => true) 0 0 4096 8 (fun _ => rfl)).1 rfl

/-- C28 (counterexample): with a clock function that succeeds and stores the `timespec`
`(0, -1)`, `mp_gettime_monot_msecs` returns 18446744073709, which is neither
`0 * 1000 + (-1) div 1000000` taken as a `uint64_t` with the quotient rounded towards zero (0)
nor with the quotient rounded down (`2^64 - 1`). -/
theorem gettime_negative_nsec :
    mp_gettime_monot_msecs (fun _ => (0, some (0, -1))) = 18446744073709 ∧
      to_uint64_t (0 * 1000 + Int.tdiv (-1) 1000000) = 0 ∧
      to_uint64_t (0 * 1000 + (-1) / 1000000) = 18446744073709551615 :=
  ⟨by decide, by decide, by decide⟩

/-- C28 (amended): for both functions, when the clock function succeeds with a `timespec`
`(sec, nsec)` the result is `sec * 1000 + nsec div 1000000` computed on the members converted to
`uint64_t`, modulo `2^64`; for `nsec >= 0` that is `sec * 1000 + nsec div 1000000` as a
`uint64_t`. When the clock function fails the result is 0. The two functions are the same
computation on clock ids `CLOCK_MONOTONIC_COARSE` and `CLOCK_MONOTONIC`: they agree whenever
the clock function answers both ids alike. -/
theorem gettime_msecs_value (mp_clock_gettime : Int → Int × Option (Int × Int)) :
    (∀ clockid sec nsec, mp_clock_gettime clockid = (0, some (sec, nsec)) →
      MP_GETTIME_GENERIC mp_clock_gettime clockid =
        (to_uint64_t sec * 1000 + to_uint64_t nsec / 1000000) % 18446744073709551616 ∧
      (0 ≤ nsec → nsec < 9223372036854775808 →
        MP_GETTIME_GENERIC mp_clock_gettime clockid =
          to_uint64_t (sec * 1000 + nsec / 1000000))) ∧
    (∀ clockid, (mp_clock_gettime clockid).1 ≠ 0 →
      MP_GETTIME_GENERIC mp_clock_gettime clockid = 0) ∧
    mp_gettime_monotcoarse_msecs mp_clock_gettime =
      MP_GETTIME_GENERIC mp_clock_gettime CLOCK_MONOTONIC_COARSE ∧
    mp_gettime_monot_msecs mp_clock_gettime =
      MP_GETTIME_GENERIC mp_clock_gettime CLOCK_MONOTONIC ∧
    (mp_clock_gettime CLOCK_MONOTONIC_COARSE = mp_clock_gettime CLOCK_MONOTONIC →
      mp_gettime_monotcoarse_msecs mp_clock_gettime =
        mp_gettime_monot_msecs mp_clock_gettime) := by
  refine ⟨?_, ?_, rfl, rfl, ?_⟩
  · intro clockid sec nsec h
    rw [gettime_generic_success _ _ _ h]
    exact ⟨timespec2msec_unsigned sec nsec, fun h0 h1 => timespec2msec_value sec nsec h0 h1⟩
  · intro clockid h
    exact gettime_generic_failure _ _ h
  · intro h
    unfold mp_gettime_monotcoarse_msecs mp_gettime_monot_msecs MP_GETTIME_GENERIC GETTIME
    rw [h]

/-- C28 (witness): a clock function that succeeds with `(5, 999999999)` on every id: both
functions return 5999; one that fails: both return 0. -/
theorem gettime_msecs_value_witness :
    mp_gettime_monot_msecs (fun _ => (0, some (5, 999999999))) = to_uint64_t 5999 ∧
      mp_gettime_monotcoarse_msecs (fun _ => (0, some (5, 999999999))) = to_uint64_t 5999 ∧
      mp_gettime_monot_msecs (fun _ => (1, none)) = 0 :=
  ⟨((gettime_msecs_value (fun _ => (0, some (5, 999999999)))).1 CLOCK_MONOTONIC 5 999999999
      rfl).2 (by decide) (by decide),
    ((gettime_msecs_value (fun _ => (0, some (5, 999999999)))).1 CLOCK_MONOTONIC_COARSE 5
      999999999 rfl).2 (by decide) (by decide),
    (gettime_msecs_value (fun _ => (1, none))).2.1 CLOCK_MONOTONIC (by decide)⟩

/-- C29: `mp_log_trace` does nothing (no byte goes to the standard output and the external
callback is not called) for every call in which the context, the file name, the function name
or the format is null, or the level is `>= MP_LOG_ENUM_MAX`. -/
theorem mp_log_trace_noop (vprintf : List Nat → List Int → List Nat)
    (mp_log_ctx : Option mp_log_ctx_t) (mp_log_level : Nat) (file_name : Option (List Nat))
    (line : Int) (func_name format : Option (List Nat)) (args : List Int)
    (h : mp_log_ctx = none ∨ file_name = none ∨ func_name = none ∨ format = none ∨
      mp_log_level ≥ MP_LOG_ENUM_MAX) :
    mp_log_trace vprintf mp_log_ctx mp_log_level file_name line func_name format args = [] := by
  cases mp_log_ctx with
  | none => rfl
  | some ctx =>
    cases file_name with
    | none => rfl
    | some file =>
      cases func_name with
      | none => rfl
      | some func =>
        cases format with
        | none => rfl
        | some fmt =>
          rcases h with h | h | h | h | h
          · cases h
          · cases h
          · cases h
          · cases h
          · unfold mp_log_trace
            dsimp only
            rw [if_pos h]

/-- C29 (witness): a context with a callback, every string given, and the level
`MP_LOG_ENUM_MAX`. -/
theorem mp_log_trace_noop_witness :
    mp_log_trace (fun fmt _ => fmt) (some ⟨0, some 4198400⟩) MP_LOG_ENUM_MAX (some [102])
      12 (some [103]) (some [37, 100]) [1] = [] :=
  mp_log_trace_noop (fun fmt _ => fmt) (some ⟨0, some 4198400⟩) MP_LOG_ENUM_MAX (some [102])
    12 (some [103]) (some [37, 100]) [1] (Or.inr (Or.inr (Or.inr (Or.inr (by decide)))))

/-- C31 (failing input): on the fresh FIFO `shm_huge` (pool of `2^32 + 64` bytes, input index
0), the push of the `2^32 - 8` bytes of `huge_payload` returns `MP_SUCCESS`; the framed size is
`2^32`, so the input index should become `(0 + 2^32) mod (2^32 + 64) = 2^32`, but the segment
handed back has the input index 0. -/
theorem push_input_idx_wraps_huge_pool :
    (shm_huge.shm_pool_size, shm_huge.input_byte_idx) = (4294967360, 0) ∧
      huge_payload.length = 4294967288 ∧
      mp_shm_fifo_push ⟨fun _ => true, none, []⟩ (some shm_huge) (some huge_payload)
        huge_payload.length = .ret (MP_SUCCESS, some shm_huge_one) ∧
      (shm_huge.input_byte_idx + ((sizeof_shm_fifo_elem_ctx_t + 4294967288 : Nat) : Int)) %
        (shm_huge.shm_pool_size : Int) = 4294967296 ∧
      shm_huge_one.input_byte_idx = 0 :=
  ⟨by decide, huge_payload_length, push_huge_one, by decide, rfl⟩

/-- C32 (failing input): the FIFO `shm_edge_wrapped`, with a pool of `2^31 + 1` bytes, is
reachable and holds one frame that starts at the output index `2^31 - 10`: the size field
decoded there is 11 and the 11 pool bytes that follow it, positions taken modulo the pool size,
are `1 .. 11`. The pull returns `MP_SUCCESS` and the size 11, but the bytes it hands out are
`1, 2, 9, 10, 11, 0, 0, 0, 0, 0, 0`: from the third on they are not the pool bytes of the
frame. -/
theorem pull_reads_off_frame_edge_pool :
    reachable shm_edge shm_edge_wrapped ∧
      (shm_edge_wrapped.shm_pool_size, shm_edge_wrapped.output_byte_idx) =
        (2147483649, 2147483638) ∧
      size_value (ring_bytes shm_edge_wrapped.buf 2147483649 2147483638 8) = 11 ∧
      ring_bytes shm_edge_wrapped.buf 2147483649 ((2147483638 + 8) % 2147483649) 11 =
        [1, 2, 3, 4, 5, 6, 7, 8, 9, 10, 11] ∧
      pull_outputs (mp_shm_fifo_pull calm (some shm_edge_wrapped) (some none) (some 0) (-1)) =
        some (MP_SUCCESS, some (some [1, 2, 9, 10, 11, 0, 0, 0, 0, 0, 0]), some 11) :=
  ⟨reachable_shm_edge_wrapped, by decide, by decide, by decide, by decide⟩

/-- C33: on a FIFO with `SHM_FIFO_EXHAUST_CTRL` set, for every push that fits (the frame is not
larger than the pool and the level leaves room for it) and does not reach beyond the end of the
pool from the input index, if the size field stored at the input index is not 0 then
`mp_shm_fifo_push` returns `MP_ERROR` and hands the segment back as it was, whatever the
platform. -/
theorem push_exhaust_precheck (pf : platform) (s : mp_shm_fifo_ctx_t) (e : List Nat) (n : Nat)
    (hdr : List Nat) (hx : exhaust_ctrl s) (hn : 0 < n)
    (hE : size_add sizeof_shm_fifo_elem_ctx_t n ≤ s.shm_pool_size)
    (hroom : size_add (to_size_t s.buf_level) (size_add sizeof_shm_fifo_elem_ctx_t n) ≤
      s.shm_pool_size)
    (hslot : size_add (to_size_t s.input_byte_idx) (size_add sizeof_shm_fifo_elem_ctx_t n) ≤
      s.shm_pool_size)
    (hhdr : pool_load s.buf s.shm_pool_size s.input_byte_idx sizeof_shm_fifo_elem_ctx_t =
      some hdr)
    (hsz : size_value hdr ≠ 0) :
    mp_shm_fifo_push pf (some s) (some e) n = .ret (MP_ERROR, some s) :=
  push_exhaust_check pf s e n hdr hx hn hE hroom hslot hhdr hsz

/-- C33 (witness): a push of the 3 bytes `1, 2, 3` on the FIFO `shm_stale`, whose free slot at
the input index reads the size 5. -/
theorem push_exhaust_precheck_witness :
    mp_shm_fifo_push calm (some shm_stale) (some [1, 2, 3]) 3 = .ret (MP_ERROR, some shm_stale) :=
  push_exhaust_precheck calm shm_stale [1, 2, 3] 3 [5, 0, 0, 0, 0, 0, 0, 0] (by decide)
    (by decide) (by decide) (by decide) (by decide) (by decide) (by decide)

/-- C34 (failing input): the FIFO `shm_edgex`, created with `SHM_FIFO_EXHAUST_CTRL` and a pool
of `2^31 + 1` null bytes, reaches the segment `shm_edgex_pulled` by a push, a pull, a push and a
pull, all returning `MP_SUCCESS`. There the exit flag is clear and the level is 0, so that no
byte of the pool is occupied, but the pool holds the byte 3 at offset `2^31` and the byte 4 at
offset 0. -/
theorem free_space_not_null_edge_pool :
    shm_edgex = mp_shm_fifo_create_init [47, 102] 2147483649 SHM_FIFO_EXHAUST_CTRL ∧
      reachable shm_edgex shm_edgex_pulled ∧ exhaust_ctrl shm_edgex_pulled ∧
      shm_edgex_pulled.flag_exit = 0 ∧
      (shm_edgex_pulled.slots_used_cnt, shm_edgex_pulled.buf_level,
        shm_edgex_pulled.input_byte_idx, shm_edgex_pulled.output_byte_idx) = (0, 0, 8, 8) ∧
      shm_edgex_pulled.buf 2147483648 = 3 ∧ shm_edgex_pulled.buf 0 = 4 :=
  ⟨rfl, reachable_shm_edgex_pulled, by decide, by decide, by decide, by decide, by decide⟩

/-- C36 (failing input): with the clock reading `(5, 0)` and the time-out `INT64_MAX`
microseconds, the product `tout_usecs * 1000` is beyond `INT64_MAX`; on the target it wraps
to -1000 and the deadline that pull computes is `(4, 999999000)`, one millisecond before the
reading, where `tv_sec * 10^9 + tv_nsec` should be `5 * 10^9 + 0 + INT64_MAX * 1000`. -/
theorem pull_deadline_overflow :
    (9223372036854775807 : Int) * 1000 > 9223372036854775807 ∧
      to_int64_t (9223372036854775807 * 1000) = -1000 ∧
      pull_ts_tout (some (5, 0)) 9223372036854775807 = some (4, 999999000) ∧
      (4 : Int) * 1000000000 + 999999000 ≠ 5 * 1000000000 + 0 + 9223372036854775807 * 1000 ∧
      (4 : Int) * 1000000000 + 999999000 < 5 * 1000000000 + 0 :=
  ⟨by decide, by decide, by decide, by decide, by decide⟩

/-- C37 (failing input): on a platform where every call succeeds and no object is linked, the
creation of a FIFO under the name `name_254` (254 characters, within `NAME_MAX`) returns a
handle, and the object is linked under that name; the name recorded in its header is the first
253 characters only, which is another name; and the release of the handle, which unlinks the
recorded name, leaves the object linked under `name_254`. -/
theorem create_truncates_long_name :
    name_254.length = 254 ∧
      mp_shm_fifo_create create_calm names_none (some name_254) 25 0 =
        (some (mp_shm_fifo_create_init name_254 25 0),
          shm_link (shm_link names_none name_254 shm_null) name_254
            (mp_shm_fifo_create_init name_254 25 0)) ∧
      (mp_shm_fifo_create_init name_254 25 0).shm_fifo_name = 47 :: List.replicate 252 97 ∧
      (47 :: List.replicate 252 97 : List Nat) ≠ name_254 ∧
      ((mp_shm_fifo_release
        (shm_link (shm_link names_none name_254 shm_null) name_254
          (mp_shm_fifo_create_init name_254 25 0))
        (some (some (mp_shm_fifo_create_init name_254 25 0)))).names name_254).isSome = true := by
  refine ⟨name_254_length, ?_, name_254_take, name_254_cut, ?_⟩
  · exact create_calm_success names_none name_254 25 0 rfl (by decide)
      (by rw [name_254_length]; decide)
  · unfold mp_shm_fifo_release shm_unlink
    dsimp only
    rw [show (mp_shm_fifo_create_init name_254 25 0).shm_fifo_name =
      name_254.take (NAME_MAX - 1 - 1) from rfl, name_254_take,
      if_neg (fun h => name_254_cut h.symm)]
    unfold shm_link
    rw [if_pos rfl]
    rfl

/-- C38 (failing input): under the name `"/fifo_shm_utest"`, with no object linked before the
call, a creation whose `shm_open` succeeds and whose `ftruncate` fails returns null and leaves
an object linked under the name; likewise when `mmap` fails. When it is the initialization of
the mutex that fails, no object is left under the name. -/
theorem create_leaves_object_behind :
    names_none fifo_shm_utest = none ∧
      (mp_shm_fifo_create create_no_ftruncate names_none (some fifo_shm_utest) 25 0).1.isNone =
        true ∧
      ((mp_shm_fifo_create create_no_ftruncate names_none (some fifo_shm_utest) 25 0).2
        fifo_shm_utest).isSome = true ∧
      (mp_shm_fifo_create create_no_mmap names_none (some fifo_shm_utest) 25 0).1.isNone =
        true ∧
      ((mp_shm_fifo_create create_no_mmap names_none (some fifo_shm_utest) 25 0).2
        fifo_shm_utest).isSome = true ∧
      (mp_shm_fifo_create create_no_mutex names_none (some fifo_shm_utest) 25 0).1.isNone =
        true ∧
      ((mp_shm_fifo_create create_no_mutex names_none (some fifo_shm_utest) 25 0).2
        fifo_shm_utest).isNone = true :=
  ⟨rfl, by decide, by decide, by decide, by decide, by decide, by decide⟩

/-- C39 (counterexample): the reading `(-1, 0)` is earlier than the reading `(0, 0)`, both have
their nanoseconds in range and `0 * 1000 + 999` is below `2^64`, but the millisecond value
returned for the first, `2^64 - 1000`, is above the value returned for the second, 0. -/
theorem gettime_not_monotone_negative_sec :
    (-1 : Int) < 0 ∧ (0 : Int) * 1000 + 999 < 18446744073709551616 ∧
      mp_gettime_monot_msecs (fun _ => (0, some (-1, 0))) = 18446744073709550616 ∧
      mp_gettime_monot_msecs (fun _ => (0, some (0, 0))) = 0 ∧
      mp_gettime_monotcoarse_msecs (fun _ => (0, some (-1, 0))) = 18446744073709550616 ∧
      mp_gettime_monotcoarse_msecs (fun _ => (0, some (0, 0))) = 0 :=
  ⟨by decide, by decide, by decide, by decide, by decide, by decide⟩

/-- C39 (amended): for every two clock readings `(s1, n1)` and `(s2, n2)` with `s1 >= 0`,
`0 <= n1, n2 < 1000000000`, the first not later than the second, and `s2 * 1000 + 999` below
`2^64`, the millisecond value that `mp_gettime_monot_msecs` returns for the first is `<=` the
value it returns for the second, and likewise for `mp_gettime_monotcoarse_msecs`. -/
theorem gettime_msecs_monotone (s1 n1 s2 n2 : Int) (hs1 : 0 ≤ s1) (h1 : 0 ≤ n1)
    (h1b : n1 < 1000000000) (h2 : 0 ≤ n2) (h2b : n2 < 1000000000)
    (hle : s1 < s2 ∨ (s1 = s2 ∧ n1 ≤ n2)) (hs2 : s2 * 1000 + 999 < 18446744073709551616) :
    mp_gettime_monot_msecs (fun _ => (0, some (s1, n1))) ≤
        mp_gettime_monot_msecs (fun _ => (0, some (s2, n2))) ∧
      mp_gettime_monotcoarse_msecs (fun _ => (0, some (s1, n1))) ≤
        mp_gettime_monotcoarse_msecs (fun _ => (0, some (s2, n2))) := by
  rw [(gettime_monot_const s1 n1).1, (gettime_monot_const s2 n2).1,
    (gettime_monot_const s1 n1).2, (gettime_monot_const s2 n2).2]
  exact ⟨timespec2msec_mono s1 n1 s2 n2 hs1 h1 h1b h2 h2b hle hs2,
    timespec2msec_mono s1 n1 s2 n2 hs1 h1 h1b h2 h2b hle hs2⟩

/-- C39 (witness): the readings `(5, 999999999)` and `(6, 0)`, one nanosecond apart. -/
theorem gettime_msecs_monotone_witness :
    mp_gettime_monot_msecs (fun _ => (0, some (5, 999999999))) ≤
        mp_gettime_monot_msecs (fun _ => (0, some (6, 0))) ∧
      mp_gettime_monotcoarse_msecs (fun _ => (0, some (5, 999999999))) ≤
        mp_gettime_monotcoarse_msecs (fun _ => (0, some (6, 0))) :=
  gettime_msecs_monotone 5 999999999 6 0 (by decide) (by decide) (by decide) (by decide)
    (by decide) (Or.inl (by decide)) (by decide)
